import Mathlib

/-!
# Worker registry of `TProof` (proof/proof/src/TProof.cxx)

A shallow embedding of the worker-registry part of `TProof`: the lists
`fSlaves`, `fActiveSlaves`, `fInactiveSlaves`, `fUniqueSlaves`,
`fAllUniqueSlaves`, `fNonUniqueMasters`, `fBadSlaves`, and the member
functions `FindUniqueSlaves`, `MarkBad`, `Broadcast`, `GoParallel`,
`ModifyWorkerLists` that rewrite them; of the collection loop `Collect` with
`CollectInputFrom`; and of the file distribution, `CheckFile` and
`SendFile`.

Conventions of the embedding.

* A `TSlave*` is the address of the object, a `Nat`; the attributes of the
  object at an address are read through `TProof.obj`.  A `TList` of workers
  is a `List Nat`: `Add` appends at the end, `Remove` deletes the first
  occurrence, `FindObject` is membership.
* A worker has one socket, so a `TSocket*` is identified with the address
  of its worker; a `TMonitor` is the pair of its active and de-activated
  socket lists.
* Everything a call learns from the network (whether a `Send` succeeded,
  which workers a `Collect` lost, the values of `gRandom->Rndm()`) is an
  explicit argument of the call.
* A `TMonitor*` is a `MonRef`: one of the four monitors of the registry or a
  monitor made with `new TMonitor`.  The loop of `Collect` need not end; its
  model takes a bound on the number of iterations and returns `none` when
  the bound is reached.
-/

namespace TProofModel

/-! ## Data model -/

/-- The enumeration `TSlave::ESlaveType`. -/
inductive ESlaveType where
  | kMaster
  | kSlave
  deriving DecidableEq, Repr

/-- The enumeration `TSlave::ESlaveStatus`. -/
inductive ESlaveStatus where
  | kInvalid
  | kActive
  | kInactive
  deriving DecidableEq, Repr

/-- The attributes of a `TSlave` object that `TProof` reads or writes.
`fValid` is the result of `TSlave::IsValid()` (the socket is open). -/
structure TSlave where
  fOrdinal : String
  fImage : String
  fPerfIdx : Int
  fSlaveType : ESlaveType
  fStatus : ESlaveStatus
  fParallel : Int
  fValid : Bool

/-- A `TMonitor`: the sockets it watches, split in active and de-activated.
The class is declared outside the sources; the registry functions only add
sockets to it, remove them and de-activate them. -/
structure TMonitor where
  fActive : List Nat
  fDeActive : List Nat
  deriving DecidableEq, Repr

/-- `TMonitor::Add`: a socket enters the monitor, active. -/
def TMonitor.Add (m : TMonitor) (s : Nat) : TMonitor :=
  { m with fActive := m.fActive ++ [s] }

/-- `TMonitor::Remove`: the socket is taken out of the active list, or else
out of the de-activated list. -/
def TMonitor.Remove (m : TMonitor) (s : Nat) : TMonitor :=
  if s ∈ m.fActive then { m with fActive := m.fActive.erase s }
  else { m with fDeActive := m.fDeActive.erase s }

/-- `TMonitor::RemoveAll`. -/
def TMonitor.RemoveAll (_m : TMonitor) : TMonitor :=
  { fActive := [], fDeActive := [] }

/-- `TMonitor::DeActivateAll`: every active socket becomes de-activated. -/
def TMonitor.DeActivateAll (m : TMonitor) : TMonitor :=
  { fActive := [], fDeActive := m.fDeActive ++ m.fActive }

/-- The Work Planner as `TProof` sees it: the packetizer of the player, with
the workers for which `TVirtualPacketizer::MarkBad` was requested so far. -/
structure TVirtualPacketizer where
  markBadRequests : List Nat
  deriving DecidableEq, Repr

/-- The player of the session; `fPacketizer` is `GetPacketizer()`, present
while a query is being processed. -/
structure TVirtualProofPlayer where
  fPacketizer : Option TVirtualPacketizer
  deriving DecidableEq, Repr

/-- The part of a `TProof` session the registry functions work on.
`fMasterServ` is `IsMaster()`, `kIsMaster` and `kIsClient` are the two
status bits, `fManager` tells whether a `TProofMgr` is attached.
`markBadCalls` is instrumentation: the argument of every call of
`MarkBad(TSlave*, const char*)`, in call order. -/
structure TProof where
  fValid : Bool
  fMasterServ : Bool
  kIsMaster : Bool
  kIsClient : Bool
  fEndMaster : Bool
  fManager : Bool
  fImage : String
  fSendGroupView : Bool
  obj : Nat → TSlave
  fSlaves : List Nat
  fActiveSlaves : List Nat
  fInactiveSlaves : List Nat
  fUniqueSlaves : List Nat
  fAllUniqueSlaves : List Nat
  fNonUniqueMasters : List Nat
  fBadSlaves : List Nat
  fAllMonitor : TMonitor
  fActiveMonitor : TMonitor
  fUniqueMonitor : TMonitor
  fAllUniqueMonitor : TMonitor
  fPlayer : Option TVirtualProofPlayer
  markBadCalls : List (Option Nat)

/-- Image of the worker at address `w`. -/
def TProof.image (p : TProof) (w : Nat) : String := (p.obj w).fImage

/-- Whether the worker at address `w` is a submaster (`TSlave::kMaster`). -/
def TProof.isMaster (p : TProof) (w : Nat) : Bool :=
  decide ((p.obj w).fSlaveType = ESlaveType.kMaster)

/-! ## FindUniqueSlaves -/

/-- What the inner loop of `FindUniqueSlaves` (the scan of `fUniqueSlaves`
for a worker with the image of `sl`) leaves behind: the flag `add`, the
pointer `replace_slave`, and whether the master/master branch ran, the one
that records `sl` among the non-unique masters. -/
structure UniqueScan where
  add : Bool
  replace_slave : Option Nat
  nonUnique : Bool
  deriving DecidableEq, Repr

/-- The inner `while` of `FindUniqueSlaves`: it stops (`break`) at the first
`sl2` of `fUniqueSlaves` with the image of `sl`. -/
def scanUnique (obj : Nat → TSlave) (sl : Nat) : List Nat → UniqueScan
  | [] => { add := true, replace_slave := none, nonUnique := false }
  | sl2 :: rest =>
    if (obj sl).fImage = (obj sl2).fImage then
      match (obj sl).fSlaveType, (obj sl2).fSlaveType with
      | ESlaveType.kMaster, ESlaveType.kSlave =>
        { add := true, replace_slave := some sl2, nonUnique := false }
      | ESlaveType.kMaster, ESlaveType.kMaster =>
        { add := false, replace_slave := none, nonUnique := true }
      | ESlaveType.kSlave, _ =>
        { add := false, replace_slave := none, nonUnique := false }
    else scanUnique obj sl rest

/-- The three statements that record `sl` as a non-unique master. -/
def addNonUnique (p : TProof) (sl : Nat) : TProof :=
  { p with
    fNonUniqueMasters := p.fNonUniqueMasters ++ [sl]
    fAllUniqueSlaves := p.fAllUniqueSlaves ++ [sl]
    fAllUniqueMonitor := p.fAllUniqueMonitor.Add sl }

/-- The `if (add)` block: `sl` enters the unique lists and monitors, and a
replaced leaf worker leaves them. -/
def addUnique (p : TProof) (sl : Nat) (replace_slave : Option Nat) : TProof :=
  let q : TProof :=
    { p with
      fUniqueSlaves := p.fUniqueSlaves ++ [sl]
      fAllUniqueSlaves := p.fAllUniqueSlaves ++ [sl]
      fUniqueMonitor := p.fUniqueMonitor.Add sl
      fAllUniqueMonitor := p.fAllUniqueMonitor.Add sl }
  match replace_slave with
  | none => q
  | some r =>
    { q with
      fUniqueSlaves := q.fUniqueSlaves.erase r
      fAllUniqueSlaves := q.fAllUniqueSlaves.erase r
      fUniqueMonitor := q.fUniqueMonitor.Remove r
      fAllUniqueMonitor := q.fAllUniqueMonitor.Remove r }

/-- One turn of the outer `while` of `FindUniqueSlaves`, for the active
worker `sl`. -/
def findUniqueStep (p : TProof) (sl : Nat) : TProof :=
  if p.fImage = (p.obj sl).fImage then
    if (p.obj sl).fSlaveType = ESlaveType.kMaster then addNonUnique p sl else p
  else
    let r := scanUnique p.obj sl p.fUniqueSlaves
    let p1 := if r.nonUnique then addNonUnique p sl else p
    if r.add then addUnique p1 sl r.replace_slave else p1

/-- `TProof::FindUniqueSlaves`. -/
def FindUniqueSlaves (p : TProof) : TProof :=
  let p0 : TProof :=
    { p with
      fUniqueSlaves := []
      fUniqueMonitor := p.fUniqueMonitor.RemoveAll
      fAllUniqueSlaves := []
      fAllUniqueMonitor := p.fAllUniqueMonitor.RemoveAll
      fNonUniqueMasters := [] }
  let p1 := p.fActiveSlaves.foldl findUniqueStep p0
  { p1 with
    fUniqueMonitor := p1.fUniqueMonitor.DeActivateAll
    fAllUniqueMonitor := p1.fAllUniqueMonitor.DeActivateAll }

/-! ## MarkBad -/

/-- Modelled from the spec: the planned-termination sentinel
`kPROOF_TerminateWorker`.  It is a string constant of the header `TProof.h`,
which is not among the sources; the functions below only test a reason for
equality with it. -/
def kPROOF_TerminateWorker : String := "+++ terminating +++"

/-- `TSlave::Close()`: the socket of the worker at `w` is closed, so that
`IsValid()` is false from then on. -/
def closeSlave (obj : Nat → TSlave) (w : Nat) : Nat → TSlave :=
  Function.update obj w { obj w with fValid := false }

/-- `TSlave::SetStatus`. -/
def setStatus (obj : Nat → TSlave) (w : Nat) (st : ESlaveStatus) : Nat → TSlave :=
  Function.update obj w { obj w with fStatus := st }

/-- The statement `packetizer->MarkBad(wrk, 0, &listOfMissingFiles)`, run
when the player has a packetizer: the Work Planner is asked to reassign the
work of `w`. -/
def packetizerMarkBad (p : TProof) (w : Nat) : TProof :=
  match p.fPlayer with
  | none => p
  | some pl =>
    match pl.fPacketizer with
    | none => p
    | some pk =>
      { p with fPlayer := some { fPacketizer := some { markBadRequests := pk.markBadRequests ++ [w] } } }

/-- The reassignment requests the Work Planner has received. -/
def TProof.reassignRequests (p : TProof) : List Nat :=
  match p.fPlayer with
  | none => []
  | some pl =>
    match pl.fPacketizer with
    | none => []
    | some pk => pk.markBadRequests

/-- Modelled from the spec: `TProofMgr::ShutdownSession`, of a class that is
not among the sources.  Section 4.6 of the specification: on a client a bad
master connection invalidates the whole session. -/
def ShutdownSession (p : TProof) : TProof := { p with fValid := false }

/-- `TProof::MarkBad(TSlave *wrk, const char *reason)`; `wrk = none` and
`reason = none` are the null pointers.  The notification texts, the
`MissingFiles` output list, `gProofServ->ReleaseWorker` and `SaveWorkerInfo`
(which writes a file) have no effect on the modelled state. -/
def MarkBad (p : TProof) (wrk : Option Nat) (reason : Option String) : TProof :=
  let p : TProof := { p with markBadCalls := p.markBadCalls ++ [wrk] }
  if p.fValid = false then p else
  match wrk with
  | none => p
  | some w =>
    let p1 : TProof :=
      if p.fMasterServ = true ∧ reason.isSome = true then
        if reason ≠ some kPROOF_TerminateWorker then packetizerMarkBad p w else p
      else p
    let p2 := FindUniqueSlaves { p1 with fActiveSlaves := p1.fActiveSlaves.erase w }
    let p3 : TProof :=
      { p2 with
        fAllMonitor := p2.fAllMonitor.Remove w
        fActiveMonitor := p2.fActiveMonitor.Remove w
        fSendGroupView := true }
    if p3.fMasterServ = true then
      if reason = some kPROOF_TerminateWorker then
        { p3 with
          fSlaves := p3.fSlaves.erase w
          fBadSlaves := p3.fBadSlaves.erase w
          fActiveSlaves := p3.fActiveSlaves.erase w
          fInactiveSlaves := p3.fInactiveSlaves.erase w
          fUniqueSlaves := p3.fUniqueSlaves.erase w
          fAllUniqueSlaves := p3.fAllUniqueSlaves.erase w
          fNonUniqueMasters := p3.fNonUniqueMasters.erase w
          obj := closeSlave p3.obj w }
      else
        { p3 with
          fBadSlaves := p3.fBadSlaves ++ [w]
          obj := closeSlave p3.obj w }
    else
      let p4 : TProof := { p3 with fSlaves := p3.fSlaves.erase w }
      if p4.fManager = true then ShutdownSession p4 else p4

/-! ## Broadcast -/

/-- The `while` of `Broadcast(const TMessage&, TList*)` over the workers
still to visit; `send sl` tells whether `sl->GetSocket()->Send(mess)`
succeeded (returned something else than -1).  The list is visited as it was
when the loop started. -/
def broadcastLoop (send : Nat → Bool) : List Nat → TProof → Int → TProof × Int
  | [], p, nsent => (p, nsent)
  | sl :: rest, p, nsent =>
    if (p.obj sl).fValid = true then
      if send sl = false then
        broadcastLoop send rest (MarkBad p (some sl) (some "could not broadcast request")) nsent
      else
        broadcastLoop send rest p (nsent + 1)
    else
      broadcastLoop send rest p nsent

/-- `TProof::Broadcast(const TMessage &mess, TList *slaves)`; `slaves = none`
is the null pointer.  The result is the new state and the returned count. -/
def Broadcast (p : TProof) (send : Nat → Bool) (slaves : Option (List Nat)) : TProof × Int :=
  if p.fValid = false then (p, -1) else
  match slaves with
  | none => (p, 0)
  | some l => if l.length = 0 then (p, 0) else broadcastLoop send l p 0

/-! ## Collect, as seen from the registry -/

/-- What one call of `Collect` does to the registry.  `Collect` reaches the
worker lists only by calling `MarkBad` with a reason other than the
planned-termination sentinel (`CollectInputFrom`, `HandleInputMessage`, the
closing `SendGroupView`); `lost` lists the workers so marked, in order.  The
message handlers also assign attributes of workers (`fParallel`, `fStatus`,
`fImage`): `update`; and the closing `SendGroupView` may reset the
`fSendGroupView` flag: `groupView`. -/
structure CollectEffect where
  lost : List Nat
  update : (Nat → TSlave) → Nat → TSlave
  groupView : Bool → Bool

/-- Apply the registry effect of a `Collect`. -/
def applyCollect (p : TProof) (e : CollectEffect) : TProof :=
  let q := e.lost.foldl
    (fun q w => MarkBad q (some w) (some "problems receiving a message in TProof::CollectInputFrom(...)")) p
  { q with obj := e.update q.obj, fSendGroupView := e.groupView q.fSendGroupView }

/-- A `Collect` during which no worker is lost and nothing is rewritten. -/
def CollectEffect.quiet : CollectEffect :=
  { lost := [], update := fun o => o, groupView := fun b => b }

/-- `TProof::AskStatistics`: broadcast `kPROOF_GETSTATS` to the active
workers, then collect from them. -/
def AskStatistics (p : TProof) (send : Nat → Bool) (e : CollectEffect) : TProof :=
  if p.fValid = false then p else
  applyCollect (Broadcast p send (some p.fActiveSlaves)).1 e

/-! ## SendGroupView -/

/-- The `while` of `SendGroupView`; the second component counts the workers
whose `Send` failed (`bad`). -/
def sendGroupViewLoop (send : Nat → Bool) : List Nat → TProof → Nat → TProof × Nat
  | [], p, bad => (p, bad)
  | sl :: rest, p, bad =>
    if send sl = false then
      sendGroupViewLoop send rest
        (MarkBad p (some sl) (some "could not send kPROOF_GROUPVIEW message")) (bad + 1)
    else
      sendGroupViewLoop send rest p bad

/-- `TProof::SendGroupView` with its recursive call; `send r sl` is the
outcome of the `Send` to `sl` in round `r`, and `fuel` bounds the number of
rounds.  The returned count, which no caller modelled here reads, is left
out. -/
def SendGroupViewAux (send : Nat → Nat → Bool) : Nat → Nat → TProof → TProof
  | 0, _, p => p
  | fuel + 1, r, p =>
    if p.fValid = false then p else
    if p.kIsClient = true then p else
    if p.fSendGroupView = false then p else
    let p0 : TProof := { p with fSendGroupView := false }
    let res := sendGroupViewLoop (send r) p0.fActiveSlaves p0 0
    if res.2 ≠ 0 then SendGroupViewAux send fuel (r + 1) res.1 else res.1

/-- `TProof::SendGroupView`.  Every round but the last marks at least one
active worker bad, which removes it from the active list, so one round more
than there are active workers is enough. -/
def SendGroupView (send : Nat → Nat → Bool) (p : TProof) : TProof :=
  SendGroupViewAux send (p.fActiveSlaves.length + 1) 0 p

/-! ## GoParallel -/

/-- The value of an integer computation as an `Int_t`, a 32-bit
two's-complement number. -/
def toInt32 (x : Int) : Int := (x + 2147483648) % 4294967296 - 2147483648

/-- `TProof::GetParallel`.  The accumulator `nparallel` is an `Int_t`: each
`nparallel += sl->GetParallel()` is taken in 32 bits. -/
def GetParallel (p : TProof) : Int :=
  if p.fValid = false then -1 else
  p.fActiveSlaves.foldl
    (fun nparallel sl =>
      if (p.obj sl).fParallel ≥ 0 then toInt32 (nparallel + (p.obj sl).fParallel)
      else nparallel) 0

/-- Everything `GoParallel` learns from outside during one call: the
successive values of `gRandom->Rndm()`, for a chosen submaster whether the
`kPROOF_PARALLEL` request could be sent and what the `Collect` on it did,
and the outcomes of the statistics round-trip and of the group-view
messages. -/
structure GoParallelIO where
  rndm : Nat → ℚ
  sendParallel : Nat → Bool
  collectParallel : Nat → CollectEffect
  sendStats : Nat → Bool
  collectStats : CollectEffect
  sendGroupView : Nat → Nat → Bool

/-- The C conversion `(Int_t) x` of a floating value: truncation towards
zero. -/
def truncToInt (x : ℚ) : Int := if 0 ≤ x then ⌊x⌋ else -⌊-x⌋

/-- `TList::At(idx)`: the object at position `idx`, null when out of
range. -/
def TListAt (l : List Nat) (idx : Int) : Option Nat :=
  if idx < 0 then none else l.get? idx.toNat

/-- One turn of the first `while` of `GoParallel`, which builds the list of
candidates `wlst` (second component) and sets every candidate inactive. -/
def candidateStep (s : TProof × List Nat) (sl : Nat) : TProof × List Nat :=
  if (s.1.obj sl).fValid = true ∧ sl ∉ s.1.fBadSlaves then
    if (s.1.obj sl).fImage = "IGNORE" then s
    else
      ({ s.1 with
          fInactiveSlaves := s.1.fInactiveSlaves ++ [sl]
          obj := setStatus s.1.obj sl ESlaveStatus.kInactive },
       s.2 ++ [sl])
  else s

/-- The four statements that make `sl` active. -/
def activate (p : TProof) (sl : Nat) : TProof :=
  { p with
    obj := setStatus p.obj sl ESlaveStatus.kActive
    fActiveSlaves := p.fActiveSlaves ++ [sl]
    fInactiveSlaves := p.fInactiveSlaves.erase sl
    fActiveMonitor := p.fActiveMonitor.Add sl }

/-- The body of the selection loop for the chosen candidate `sl`. -/
def selectOne (io : GoParallelIO) (p : TProof) (sl : Nat) : TProof :=
  match (p.obj sl).fSlaveType with
  | ESlaveType.kSlave => activate p sl
  | ESlaveType.kMaster =>
    let p : TProof := { p with fEndMaster := false }
    if io.sendParallel sl = false then
      MarkBad p (some sl) (some "could not send kPROOF_PARALLEL or kPROOF_LOGFILE request")
    else
      let p := applyCollect p (io.collectParallel sl)
      if (p.obj sl).fValid = true then activate p sl
      else MarkBad p (some sl) (some "collect failed after kPROOF_PARALLEL or kPROOF_LOGFILE request")

/-- The selection loop `while (cnt < nwrks)` of `GoParallel`.  `cnt` grows by
one in every turn, so the first argument, the number `nwrks - cnt` of turns
left, is exact; the loop is also left when no candidate is found. -/
def selectLoop (io : GoParallelIO) (random : Bool) : Nat → Nat → TProof → List Nat → TProof
  | 0, _, p, _ => p
  | left + 1, cnt, p, wlst =>
    let sl : Option Nat :=
      if random = true then TListAt wlst (truncToInt (io.rndm cnt * (wlst.length : ℚ)))
      else wlst.head?
    match sl with
    | none => p
    | some sl => selectLoop io random left (cnt + 1) (selectOne io p sl) (wlst.erase sl)

/-- `TProof::GoParallel(nodes, attach, random)`: the new state and the
returned number of parallel workers. -/
def GoParallel (p : TProof) (io : GoParallelIO) (nodes : Int) (attach random : Bool) :
    TProof × Int :=
  if p.fValid = false then (p, -1) else
  let nodes : Int := if nodes < 0 then 0 else nodes
  let p0 : TProof :=
    { p with
      fActiveSlaves := []
      fActiveMonitor := p.fActiveMonitor.RemoveAll
      fInactiveSlaves := [] }
  let c := p0.fSlaves.foldl candidateStep (p0, [])
  let wlst := c.2
  let nwrks : Int := if nodes > (wlst.length : Int) then (wlst.length : Int) else nodes
  let p1 : TProof := { c.1 with fEndMaster := c.1.kIsMaster }
  let p2 := selectLoop io random nwrks.toNat 0 p1 wlst
  let p3 := AskStatistics p2 io.sendStats io.collectStats
  let p4 := FindUniqueSlaves p3
  let p5 := if attach = false then SendGroupView io.sendGroupView p4 else p4
  (p5, GetParallel p5)

/-! ## ModifyWorkerLists -/

/-- Everything `ModifyWorkerLists` learns from outside when it forwards the
request one level down. -/
structure ModifyIO where
  send : Nat → Bool
  collect : CollectEffect

/-- The test `ord[0] == (char) 42 || !strncmp(wrk->GetOrdinal(), ord, strlen(ord))`:
`ord` is the star, or the first `strlen(ord)` characters of the ordinal of
the worker are those of `ord`. -/
def ordMatches (ord : String) (ordinal : String) : Bool :=
  ord.toList.head? == some '*' || ord.toList.isPrefixOf ordinal.toList

/-- The body of the `if` in the loop of `ModifyWorkerLists`: the worker is
added to the list `out` unless it is there already, and removed from the
list `in`; the active monitor and the status of the worker follow. -/
def moveWorker (add : Bool) (p : TProof) (wrk : Nat) : TProof :=
  if add = true then
    let q : TProof :=
      if wrk ∈ p.fActiveSlaves then p
      else { p with fActiveSlaves := p.fActiveSlaves ++ [wrk]
                    fActiveMonitor := p.fActiveMonitor.Add wrk }
    { q with fInactiveSlaves := q.fInactiveSlaves.erase wrk
             obj := setStatus q.obj wrk ESlaveStatus.kActive }
  else
    let q : TProof :=
      if wrk ∈ p.fInactiveSlaves then p
      else { p with fInactiveSlaves := p.fInactiveSlaves ++ [wrk] }
    { q with fActiveSlaves := q.fActiveSlaves.erase wrk
             fActiveMonitor := q.fActiveMonitor.Remove wrk
             obj := setStatus q.obj wrk ESlaveStatus.kInactive }

/-- The `while` of `ModifyWorkerLists` over the workers of the list `in`
(as it was when the loop started); the flag of the result tells whether a
worker was moved, in which case `fw` is cleared and `rs` is set. -/
def modifyLoop (ord : String) (add : Bool) : List Nat → TProof → Bool → TProof × Bool
  | [], p, moved => (p, moved)
  | wrk :: rest, p, moved =>
    if ordMatches ord (p.obj wrk).fOrdinal = true then
      if ord.toList.head? = some '*' then modifyLoop ord add rest (moveWorker add p wrk) true
      else (moveWorker add p wrk, true)
    else modifyLoop ord add rest p moved

/-- `TProof::ModifyWorkerLists(ord, add)`, the body of `ActivateWorker`
(`add = true`) and `DeactivateWorker` (`add = false`); `ord = none` is the
null pointer. -/
def ModifyWorkerLists (p : TProof) (io : ModifyIO) (ord : Option String) (add : Bool) : TProof :=
  match ord with
  | none => p
  | some o =>
    if o.length ≤ 0 then p else
    let inList := if add = true then p.fInactiveSlaves else p.fActiveSlaves
    let r : TProof × Bool :=
      if p.kIsMaster = true then
        if inList.length > 0 then modifyLoop o add inList p false else (p, false)
      else (p, false)
    let fw : Bool :=
      if p.kIsMaster = true then (if r.2 = true then false else !p.fEndMaster) else true
    let p1 := if r.2 = true then FindUniqueSlaves r.1 else r.1
    if fw = true then
      applyCollect (Broadcast p1 io.send (some p1.fActiveSlaves)).1 io.collect
    else p1

/-- `TProof::ActivateWorker`. -/
def ActivateWorker (p : TProof) (io : ModifyIO) (ord : Option String) : TProof :=
  ModifyWorkerLists p io ord true

/-- `TProof::DeactivateWorker`. -/
def DeactivateWorker (p : TProof) (io : ModifyIO) (ord : Option String) : TProof :=
  ModifyWorkerLists p io ord false

/-! ## Concrete sessions -/

/-- A valid worker object that reports one parallel node. -/
def mkSlave (ord img : String) (perf : Int) (t : ESlaveType) : TSlave :=
  { fOrdinal := ord, fImage := img, fPerfIdx := perf, fSlaveType := t,
    fStatus := ESlaveStatus.kInvalid, fParallel := 1, fValid := true }

/-- A monitor without sockets. -/
def emptyMonitor : TMonitor := { fActive := [], fDeActive := [] }

/-- A valid master session with coordinator image `img`, the given objects
and worker lists, empty unique lists, and a query in progress. -/
def mkSession (img : String) (obj : Nat → TSlave) (all active inactive bad : List Nat) :
    TProof :=
  { fValid := true, fMasterServ := true, kIsMaster := true, kIsClient := false,
    fEndMaster := true, fManager := false, fImage := img, fSendGroupView := false,
    obj := obj, fSlaves := all, fActiveSlaves := active, fInactiveSlaves := inactive,
    fUniqueSlaves := [], fAllUniqueSlaves := [], fNonUniqueMasters := [], fBadSlaves := bad,
    fAllMonitor := emptyMonitor, fActiveMonitor := emptyMonitor,
    fUniqueMonitor := emptyMonitor, fAllUniqueMonitor := emptyMonitor,
    fPlayer := some { fPacketizer := some { markBadRequests := [] } }, markBadCalls := [] }

/-- A coordinator on the file system `nfs` with one active leaf worker on the
same file system. -/
def sharedImageSession : TProof :=
  mkSession "nfs" (fun _ => mkSlave "0.0" "nfs" 10 ESlaveType.kSlave) [0] [0] [] []

/-- Objects of a two-level cluster: a leaf worker and two submasters on
image `a`, a leaf worker on image `b`, a submaster on the image of the
coordinator. -/
def clusterObj (w : Nat) : TSlave :=
  match w with
  | 1 => mkSlave "0.1" "a" 10 ESlaveType.kSlave
  | 2 => mkSlave "0.2" "a" 8 ESlaveType.kMaster
  | 3 => mkSlave "0.3" "a" 8 ESlaveType.kMaster
  | 4 => mkSlave "0.4" "b" 5 ESlaveType.kSlave
  | _ => mkSlave "0.5" "" 1 ESlaveType.kMaster

/-- The two-level cluster with all five workers active. -/
def clusterSession : TProof := mkSession "" clusterObj [1, 2, 3, 4, 5] [1, 2, 3, 4, 5] [] []

/-- The two-level cluster with no worker selected: all five are inactive, as
`GoParallel(0)` leaves them. -/
def idleSession : TProof := mkSession "" clusterObj [1, 2, 3, 4, 5] [] [1, 2, 3, 4, 5] []

/-- A client session: not a master, one connection (to the master), which is
neither active nor bad and sits in the inactive list. -/
def clientSession : TProof :=
  { mkSession "<local>" (fun _ => mkSlave "0" "" 100 ESlaveType.kMaster) [0] [] [0] [] with
    fMasterServ := false, kIsMaster := false, kIsClient := true, fEndMaster := false }

/-- The test of the first loop of `GoParallel`, on the state `p`: the worker
is valid, is not in the bad list, and its image is not `IGNORE`. -/
def isCandidate (p : TProof) (sl : Nat) : Bool :=
  (p.obj sl).fValid && decide (sl ∉ p.fBadSlaves) && decide ((p.obj sl).fImage ≠ "IGNORE")

/-- The candidates of `GoParallel`: the workers of the list of all workers,
in the order of that list, that pass the test of its first loop. -/
def candidates (p : TProof) : List Nat := p.fSlaves.filter (isCandidate p)

/-- No transport failure during the closing part of `GoParallel`: every
statistics request and every group-view message can be sent, and the
statistics `Collect` loses no worker. -/
def GoParallelIO.noFailure (io : GoParallelIO) : Prop :=
  (∀ w, io.sendStats w = true) ∧ io.collectStats.lost = [] ∧ ∀ r w, io.sendGroupView r w = true

/-- The environment in which every transport operation succeeds; the random
draws are all zero. -/
def quietIO : GoParallelIO :=
  { rndm := fun _ => 0
    sendParallel := fun _ => true
    collectParallel := fun _ => CollectEffect.quiet
    sendStats := fun _ => true
    collectStats := CollectEffect.quiet
    sendGroupView := fun _ _ => true }

/-- Objects of Scenario A: five leaf workers with performance indices
10, 8, 8, 5, 1, each on a file system of its own. -/
def scenarioObj (w : Nat) : TSlave :=
  match w with
  | 1 => mkSlave "0.0" "node1" 10 ESlaveType.kSlave
  | 2 => mkSlave "0.1" "node2" 8 ESlaveType.kSlave
  | 3 => mkSlave "0.2" "node3" 8 ESlaveType.kSlave
  | 4 => mkSlave "0.3" "node4" 5 ESlaveType.kSlave
  | _ => mkSlave "0.4" "node5" 1 ESlaveType.kSlave

/-- The pool of Scenario A, registered in descending order of performance
index, before any worker is selected. -/
def scenarioSession : TProof := mkSession "" scenarioObj [1, 2, 3, 4, 5] [] [] []

/-- An environment without transport failure whose random draws are
3/4, 1/3, 1/3, ... -/
def drawIO : GoParallelIO :=
  { quietIO with rndm := fun i => if i = 0 then 3 / 4 else 1 / 3 }

/-- The registry states reached from the result of a first `GoParallel` on
`p0` by further calls of `GoParallel`, of `MarkBad` with a reason other than
the planned-termination sentinel, and of `ActivateWorker` and
`DeactivateWorker`, whatever the network does during these calls. -/
inductive Reachable (p0 : TProof) : TProof → Prop where
  | start (io : GoParallelIO) (nodes : Int) (attach random : Bool) :
      Reachable p0 (GoParallel p0 io nodes attach random).1
  | goParallel {p : TProof} (io : GoParallelIO) (nodes : Int) (attach random : Bool) :
      Reachable p0 p → Reachable p0 (GoParallel p io nodes attach random).1
  | markBad {p : TProof} (wrk : Option Nat) (reason : Option String) :
      reason ≠ some kPROOF_TerminateWorker → Reachable p0 p →
      Reachable p0 (MarkBad p wrk reason)
  | activateWorker {p : TProof} (io : ModifyIO) (ord : Option String) :
      Reachable p0 p → Reachable p0 (ActivateWorker p io ord)
  | deactivateWorker {p : TProof} (io : ModifyIO) (ord : Option String) :
      Reachable p0 p → Reachable p0 (DeactivateWorker p io ord)

/-- A valid master session with one valid leaf worker whose image is
`IGNORE`. -/
def ignoredSession : TProof :=
  mkSession "" (fun _ => mkSlave "0.0" "IGNORE" 10 ESlaveType.kSlave) [0] [] [] []

/-- The number of leaves under the submasters of the two-tier session. -/
def tieredLeaves (w : Nat) : Nat :=
  match w with
  | 2 => 4
  | 3 => 0
  | 5 => 7
  | _ => 0

/-- The two-level cluster after the submasters have reported their
parallelism: the leaf workers 1 and 4 report 1, the submasters 2, 3 and 5
report 4, 0 and 7 leaves. -/
def tieredSession : TProof :=
  { clusterSession with
    obj := fun w =>
      if w = 1 ∨ w = 4 then clusterObj w
      else { clusterObj w with fParallel := (tieredLeaves w : Int) } }

/-! ## The collection loop -/

/-- Modelled from the spec: `TMonitor::Activate`, of a class declared outside
the sources.  The spec has Activate and Deactivate "toggle participation
without removing from the set": a de-activated socket of the monitor becomes
active again; a socket the monitor does not hold is not added. -/
def TMonitor.Activate (m : TMonitor) (s : Nat) : TMonitor :=
  if s ∈ m.fDeActive then
    { fActive := m.fActive ++ [s], fDeActive := m.fDeActive.erase s }
  else m

/-- Modelled from the spec: `TMonitor::DeActivate`, of a class declared
outside the sources: an active socket of the monitor becomes de-activated
and stays in the monitor. -/
def TMonitor.DeActivate (m : TMonitor) (s : Nat) : TMonitor :=
  if s ∈ m.fActive then
    { fActive := m.fActive.erase s, fDeActive := m.fDeActive ++ [s] }
  else m

/-- Modelled from the spec: `TMonitor::ActivateAll`, of a class declared
outside the sources: every de-activated socket becomes active. -/
def TMonitor.ActivateAll (m : TMonitor) : TMonitor :=
  { fActive := m.fActive ++ m.fDeActive, fDeActive := [] }

/-- Modelled from the spec: `TMonitor::GetActive(timeout)`, of a class
declared outside the sources: the number of active sockets, counted after
the stale-socket sweep of the spec.  `Collect` says of the argument "Sockets
w/o activity during the last 'sto' millisecs are deactivated" and passes -1
when no sweep is wanted, so the sweep is made for a positive `timeout` only.
`stale s` tells whether socket `s` has shown no activity for longer than
`timeout`; the result is the monitor after the sweep and the count. -/
def TMonitor.GetActive (m : TMonitor) (timeout : Int) (stale : Nat → Bool) : TMonitor × Nat :=
  let m1 : TMonitor :=
    if timeout > 0 then
      { fActive := m.fActive.filter (fun s => !stale s),
        fDeActive := m.fDeActive ++ m.fActive.filter (fun s => stale s) }
    else m
  (m1, m1.fActive.length)

/-- The monitors a `TMonitor*` of `TProof` can point to: the four monitors of
the registry, and the ones made with `new TMonitor`, by number. -/
inductive MonRef where
  | fAllMonitor
  | fActiveMonitor
  | fUniqueMonitor
  | fAllUniqueMonitor
  | created (n : Nat)
  deriving DecidableEq, Repr

/-- An entry of the file map: the checksum and the modification time last
recorded for a file on a worker. -/
structure MD5Mod_t where
  fMD5 : Nat
  fModtime : Int
  deriving DecidableEq, Repr

/-- The `TProof` object as the collection loop and the file distribution see
it: the registry part `proof`, the monitors made with `new TMonitor`
(`created`, `nCreated` of them so far), the current-monitor pointer, the
status fields the message handlers assign, the file map, and `fName`, the
`GetName()` of each worker object.  The byte and time counters, the log
redirection and the interrupt handler, on which no list, monitor or return
value depends, are left out.  `sent` and `checksums` are instrumentation:
the messages `CheckFile` and `SendFile` send (worker and kind) and the files
whose checksum was computed, in order. -/
structure Session where
  proof : TProof
  created : Nat → TMonitor
  nCreated : Nat
  fCurrentMonitor : Option MonRef
  fStatus : Int
  fRecvMessages : List Int
  fCheckFileStatus : Int
  fFileMap : String → Option MD5Mod_t
  fName : Nat → String
  sent : List (Nat × String)
  checksums : List String

/-- The monitor a pointer points to. -/
def Session.getMon (c : Session) : MonRef → TMonitor
  | MonRef.fAllMonitor => c.proof.fAllMonitor
  | MonRef.fActiveMonitor => c.proof.fActiveMonitor
  | MonRef.fUniqueMonitor => c.proof.fUniqueMonitor
  | MonRef.fAllUniqueMonitor => c.proof.fAllUniqueMonitor
  | MonRef.created n => c.created n

/-- Assignment to the monitor a pointer points to. -/
def Session.setMon (c : Session) (r : MonRef) (m : TMonitor) : Session :=
  match r with
  | MonRef.fAllMonitor => { c with proof := { c.proof with fAllMonitor := m } }
  | MonRef.fActiveMonitor => { c with proof := { c.proof with fActiveMonitor := m } }
  | MonRef.fUniqueMonitor => { c with proof := { c.proof with fUniqueMonitor := m } }
  | MonRef.fAllUniqueMonitor => { c with proof := { c.proof with fAllUniqueMonitor := m } }
  | MonRef.created n => { c with created := fun k => if k = n then m else c.created k }

/-- A method call `mon->f(...)` that changes the monitor. -/
def Session.monDo (c : Session) (r : MonRef) (f : TMonitor → TMonitor) : Session :=
  c.setMon r (f (c.getMon r))

/-- `new TMonitor` (or `new TMonitor(*mon)` when `init` is a copy): the new
monitor gets the next free number. -/
def Session.newMonitor (c : Session) (init : TMonitor) : Session × MonRef :=
  ({ c with
      created := fun k => if k = c.nCreated then init else c.created k,
      nCreated := c.nCreated + 1 },
   MonRef.created c.nCreated)

/-- `TProof::FindSlave(TSocket*)`: the first valid worker of the list of all
workers whose socket is `s`; a socket has the address of its worker. -/
def FindSlave (p : TProof) (s : Nat) : Option Nat :=
  p.fSlaves.find? (fun sl => (p.obj sl).fValid && decide (sl = s))

/-- `TProof::MarkBad(TSocket*, const char*)`. -/
def MarkBadSocket (p : TProof) (s : Nat) (reason : Option String) : TProof :=
  if p.fValid = false then p else MarkBad p (FindSlave p s) reason

/-- What `TMonitor::Select` returns: a ready socket, 0 when the wait was
interrupted, or `(TSocket*)-1` when it timed out. -/
inductive Selected where
  | socket (s : Nat)
  | interrupted
  | timedOut
  deriving DecidableEq, Repr

/-- What `CollectInputFrom` finds on a ready socket: `Recv` fails with the
negative code `recvrc`, and `reconnected` tells whether `Reconnect()` gives 0
when it is tried; or `Recv` delivers no message; or it delivers a message of
kind `what`, for which `HandleInputMessage`, given a worker, returns `rc` and
changes the session by `effect`. -/
inductive Input where
  | recvFailed (recvrc : Int) (reconnected : Bool)
  | noMessage
  | message (what : Int) (rc : Int) (effect : Session → Session)

/-- `TProof::CollectInputFrom`.  `HandleInputMessage` returns -1 at once when
`FindSlave` gave no worker. -/
def CollectInputFrom (c : Session) (inp : Input) (s : Nat) (endtype : Int) : Session × Int :=
  match inp with
  | Input.recvFailed recvrc reconnected =>
    let c1 : Session :=
      if recvrc = -5 then
        let c0 := match c.fCurrentMonitor with
          | some cm => c.monDo cm (fun m => m.Remove s)
          | none => c
        if reconnected = true then
          match c0.fCurrentMonitor with
          | some cm => c0.monDo cm (fun m => m.Add s)
          | none => c0
        else c0
      else c
    let bad : Bool := !(decide (recvrc = -5) && reconnected)
    let reason := "problems receiving a message in TProof::CollectInputFrom(...)"
    if bad = true then ({ c1 with proof := MarkBadSocket c1.proof s (some reason) }, -1)
    else (c1, -1)
  | Input.noMessage =>
    let reason := "undefined message in TProof::CollectInputFrom(...)"
    ({ c with proof := MarkBadSocket c.proof s (some reason) }, -1)
  | Input.message what rc effect =>
    match FindSlave c.proof s with
    | none => (c, -1)
    | some _ =>
      (effect c, if rc = 1 ∧ endtype ≥ 0 ∧ what ≠ endtype then 2 else rc)

/-- Everything `Collect(TMonitor*, ...)` learns from outside during one call.
`actto` is `Proof.SocketActivityTimeout` in milliseconds; for the `n`-th
iteration of the loop, counted from 0, `select n` is the result of `Select`,
`input n` what is found on the socket it returned, `finished n` whether the
exit status of the player is `kFinished`, and `stale n s` whether, at the
check made when `n` iterations are done, socket `s` has shown no activity for
longer than `actto`; `sendGroupView` is the outcome of the sends of the
closing `SendGroupView`. -/
structure CollectIO where
  actto : Int
  select : Nat → Selected
  input : Nat → Input
  finished : Nat → Bool
  stale : Nat → Nat → Bool
  sendGroupView : Nat → Nat → Bool

/-- The locals of the loop of `Collect`, with the session; `iter` is
instrumentation: the number of iterations made, one `Select` each. -/
structure CollectLoop where
  c : Session
  cnt : Int
  nto : Int
  sto : Int
  nsto : Int
  iter : Nat

/-- The condition of the `while` of `Collect`: `GetActive(sto)` is called
first, with its sweep, then the budget is tested. -/
def collectCond (io : CollectIO) (mon : MonRef) (l : CollectLoop) : CollectLoop × Bool :=
  let r := (l.c.getMon mon).GetActive l.sto (io.stale l.iter)
  ({ l with c := l.c.setMon mon r.1 },
   decide (r.2 ≠ 0) && (decide (l.nto < 0) || decide (l.nto > 0)))

/-- The body of the `while` of `Collect`. -/
def collectBody (io : CollectIO) (mon : MonRef) (savedMonitor : Option MonRef)
    (endtype : Int) (l : CollectLoop) : CollectLoop :=
  let l1 : CollectLoop :=
    match io.select l.iter with
    | Selected.socket s =>
      let r := CollectInputFrom l.c (io.input l.iter) s endtype
      let rc := r.2
      let c1 : Session :=
        if rc = 1 ∨ (rc = 2 ∧ savedMonitor = none) then
          r.1.monDo mon (fun m => m.DeActivate s)
        else if rc = 2 then
          match savedMonitor with
          | some sm => r.1.monDo sm (fun m => m.DeActivate s)
          | none => r.1
        else r.1
      { l with c := c1, cnt := if rc ≥ 0 then l.cnt + 1 else l.cnt }
    | Selected.interrupted =>
      if l.c.proof.fPlayer.isSome && io.finished l.iter then
        { l with c := l.c.monDo mon (fun m => m.DeActivateAll) }
      else l
    | Selected.timedOut =>
      if l.nto > 0 then { l with nto := l.nto - 1 } else l
  if l1.nsto - 1 ≤ 0 then
    { l1 with sto := io.actto, nsto := 60, iter := l.iter + 1 }
  else
    { l1 with sto := -1, nsto := l1.nsto - 1, iter := l.iter + 1 }

/-- The `while` of `Collect`; `fuel` bounds the number of times the condition
is evaluated, and `none` says the bound was reached with the loop still
running. -/
def collectLoop (io : CollectIO) (mon : MonRef) (savedMonitor : Option MonRef)
    (endtype : Int) : Nat → CollectLoop → Option CollectLoop
  | 0, _ => none
  | fuel + 1, l =>
    let r := collectCond io mon l
    if r.2 = true then collectLoop io mon savedMonitor endtype fuel
      (collectBody io mon savedMonitor endtype r.1)
    else some r.1

/-- What a call of `Collect` leaves: the session, the value returned, and, as
instrumentation, the number of `Select` calls its loop made. -/
structure Collected where
  c : Session
  cnt : Int
  selects : Nat

/-- `TProof::Collect(TMonitor *mon, Long_t timeout, Int_t endtype)`.  The
asynchronous input handlers of the workers, switched off for the time of the
call, the log redirection, the interrupt handler and the notification of the
sockets that timed out are left out. -/
def Collect (fuel : Nat) (c : Session) (io : CollectIO) (mon : MonRef) (timeout : Int)
    (endtype : Int) : Option Collected :=
  let c0 : Session := { c with fStatus := 0, fRecvMessages := [] }
  let r := (c0.getMon mon).GetActive io.actto (io.stale 0)
  let c1 := c0.setMon mon r.1
  if r.2 = 0 then some { c := c1, cnt := 0, selects := 0 } else
  let savedMonitor := c1.fCurrentMonitor
  let c2 : Session := { c1 with fCurrentMonitor := some mon }
  match collectLoop io mon savedMonitor endtype fuel
      { c := c2, cnt := 0, nto := timeout, sto := -1, nsto := 60, iter := 0 } with
  | none => none
  | some l =>
    let c3 := if l.nto = 0 then l.c.monDo mon (fun m => m.DeActivateAll) else l.c
    let c4 : Session := { c3 with proof := SendGroupView io.sendGroupView c3.proof }
    some { c := { c4 with fCurrentMonitor := savedMonitor }, cnt := l.cnt, selects := l.iter }

/-- The choice of the monitor in `Collect(const TSlave*, ...)` and
`Collect(TList*, ...)`: a new monitor when the current one is the monitor of
all workers, else that monitor with every socket de-activated. -/
def collectMonitor (c : Session) : Session × MonRef :=
  if c.fCurrentMonitor = some MonRef.fAllMonitor then
    c.newMonitor { fActive := [], fDeActive := [] }
  else
    (c.monDo MonRef.fAllMonitor (fun m => m.DeActivateAll), MonRef.fAllMonitor)

/-- `TProof::Collect(const TSlave *sl, Long_t timeout, Int_t endtype)`;
`ReleaseMonitor` deletes a monitor that was made for the call, which changes
nothing that is read later. -/
def CollectSlave (fuel : Nat) (c : Session) (io : CollectIO) (sl : Nat) (timeout : Int)
    (endtype : Int) : Option Collected :=
  if (c.proof.obj sl).fValid = false then some { c := c, cnt := 0, selects := 0 } else
  let r := collectMonitor c
  Collect fuel (r.1.monDo r.2 (fun m => m.Activate sl)) io r.2 timeout endtype

/-- `TProof::Collect(TList *slaves, Long_t timeout, Int_t endtype)`. -/
def CollectList (fuel : Nat) (c : Session) (io : CollectIO) (slaves : List Nat)
    (timeout : Int) (endtype : Int) : Option Collected :=
  let r := collectMonitor c
  let c1 := slaves.foldl
    (fun (q : Session) sl =>
      if (q.proof.obj sl).fValid = true then q.monDo r.2 (fun m => m.Activate sl) else q) r.1
  Collect fuel c1 io r.2 timeout endtype

/-- The enumeration `TProof::ESlaves`. -/
inductive ESlaves where
  | kAll
  | kActive
  | kUnique
  | kAllUnique
  deriving DecidableEq, Repr

/-- `TProof::Collect(ESlaves list, Long_t timeout, Int_t endtype)`: the
monitor of the list, or a copy of it when it is the current monitor, with
every socket activated. -/
def CollectESlaves (fuel : Nat) (c : Session) (io : CollectIO) (list : ESlaves)
    (timeout : Int) (endtype : Int) : Option Collected :=
  let mon : MonRef :=
    match list with
    | ESlaves.kAll => MonRef.fAllMonitor
    | ESlaves.kActive => MonRef.fActiveMonitor
    | ESlaves.kUnique => MonRef.fUniqueMonitor
    | ESlaves.kAllUnique => MonRef.fAllUniqueMonitor
  let r : Session × MonRef :=
    if c.fCurrentMonitor = some mon then c.newMonitor (c.getMon mon) else (c, mon)
  Collect fuel (r.1.monDo r.2 (fun m => m.ActivateAll)) io r.2 timeout endtype

/-! ## CheckFile and SendFile -/

/-- The handler of `kPROOF_CHECKFILE` in `HandleInputMessage`: the new value
of `fCheckFileStatus` is the status the worker sent, or 1 when the message
carries none, as old servers send it. -/
def handleCheckFile (status : Option Int) : Int :=
  match status with
  | some st => st
  | none => 1

/-- What a `Collect(sl, fCollectTimeout, kind)` on one worker leaves, as
`CheckFile` and `SendFile` see it: its effect on the registry, and `reply`,
the content of the `kPROOF_CHECKFILE` message handled during it, `none` when
no such message was handled.  The monitors and the fields `fStatus` and
`fRecvMessages`, which `CheckFile` and `SendFile` do not read, are not
followed through these calls. -/
structure WorkerCollect where
  registry : CollectEffect
  reply : Option (Option Int)

/-- The call `Collect(sl, fCollectTimeout, kind)`, summarised: nothing happens
for a worker that is not valid. -/
def collectFrom (c : Session) (sl : Nat) (e : WorkerCollect) : Session :=
  if (c.proof.obj sl).fValid = false then c else
  let c1 : Session := { c with proof := applyCollect c.proof e.registry }
  match e.reply with
  | none => c1
  | some st => { c1 with fCheckFileStatus := handleCheckFile st }

/-- Everything `CheckFile` learns from outside during one call: `base` is
`gSystem->BaseName(file)`, `md5` the result of `TMD5::FileChecksum(file)`
(`none` when the checksum cannot be computed), `confirm` the `Collect` that
follows the `kPROOF_CHECKFILE` request. -/
structure CheckFileIO where
  base : String
  md5 : Option Nat
  confirm : WorkerCollect

/-- The key of the file map: `name:ordinal:basename`. -/
def fileKey (c : Session) (slave : Nat) (base : String) : String :=
  c.fName slave ++ ":" ++ (c.proof.obj slave).fOrdinal ++ ":" ++ base

/-- The statements that send the `kPROOF_CHECKFILE` request (the result of
`Send` is not tested), reset `fCheckFileStatus`, collect from the worker and
set `sendto` from the status. -/
def confirmFile (c : Session) (io : CheckFileIO) (slave : Nat) : Session × Bool :=
  let c1 : Session := { c with sent := c.sent ++ [(slave, "kPROOF_CHECKFILE")] }
  let c2 := collectFrom { c1 with fCheckFileStatus := 0 } slave io.confirm
  (c2, decide (c2.fCheckFileStatus = 0))

/-- `TProof::CheckFile`; the copy options `cpopt` only travel in the
request. -/
def CheckFile (c : Session) (io : CheckFileIO) (file : String) (slave : Nat) (modtime : Int)
    (_cpopt : Nat) : Session × Bool :=
  let sn := fileKey c slave io.base
  match c.fFileMap sn with
  | some md =>
    if md.fModtime ≠ modtime then
      let c1 : Session := { c with checksums := c.checksums ++ [file] }
      match io.md5 with
      | some md5 =>
        if md5 ≠ md.fMD5 then
          let md2 : MD5Mod_t := { fMD5 := md5, fModtime := modtime }
          let c2 : Session := { c1 with fFileMap := Function.update c1.fFileMap sn (some md2) }
          if c2.proof.kIsMaster = true then confirmFile c2 io slave else (c2, true)
        else (c1, false)
      | none => (c1, false)
    else (c, false)
  | none =>
    let c1 : Session := { c with checksums := c.checksums ++ [file] }
    match io.md5 with
    | some md5 =>
      let md2 : MD5Mod_t := { fMD5 := md5, fModtime := modtime }
      let c2 : Session := { c1 with fFileMap := Function.update c1.fFileMap sn (some md2) }
      confirmFile c2 io slave
    | none => (c1, false)

/-- Everything `SendFile` learns from outside during one call: whether the
file could be opened; its size and modification time (`none` when
`GetPathInfo` fails); and, for each worker `sl`, the environment of
`CheckFile`, whether the `kPROOF_SENDFILE` request could be sent, the results
of the successive `read` calls before the end of the file (after the retries
on `EINTR`), whether the `k`-th `SendRaw` succeeded, and the `Collect` that
ends the transfer. -/
structure SendFileIO where
  opened : Bool
  stat : Option (Int × Int)
  check : Nat → CheckFileIO
  request : Nat → Bool
  reads : Nat → List Int
  sendRaw : Nat → Nat → Bool
  done : Nat → WorkerCollect

/-- How the `do ... while (len > 0)` of `SendFile` is left. -/
inductive Streamed where
  | complete
  | writeFailed
  | readFailed
  deriving DecidableEq, Repr

/-- The `do ... while (len > 0)` of `SendFile` for one worker: `reads` are
the results of the `read` calls still to come, followed by the 0 of the end
of the file; `k` counts the chunks sent. -/
def streamFile (sendRaw : Nat → Bool) : List Int → Nat → Streamed
  | [], _ => Streamed.complete
  | len :: rest, k =>
    if len < 0 then Streamed.readFailed
    else if len > 0 ∧ sendRaw k = false then Streamed.writeFailed
    else if len > 0 then streamFile sendRaw rest (k + 1)
    else Streamed.complete

/-- The `while` of `SendFile` over the workers still to visit, with the
counter `nsl`; the list is visited as it was when the loop started.  On a
read error the function returns -1 at once, after interrupting the active
workers, which changes no list. -/
def sendFileLoop (io : SendFileIO) (file : String) (force : Bool) (modtime : Int)
    (cpopt : Nat) : List Nat → Session → Int → Session × Int
  | [], c, nsl => (c, nsl)
  | sl :: rest, c, nsl =>
    if (c.proof.obj sl).fValid = false then
      sendFileLoop io file force modtime cpopt rest c nsl
    else
      let r : Session × Bool :=
        if force = true then (c, true) else CheckFile c (io.check sl) file sl modtime cpopt
      if (r.1.proof.obj sl).fSlaveType = ESlaveType.kSlave ∧ r.2 = false then
        sendFileLoop io file force modtime cpopt rest r.1 nsl
      else if io.request sl = false then
        let reason := "could not send kPROOF_SENDFILE request"
        sendFileLoop io file force modtime cpopt rest
          { r.1 with proof := MarkBad r.1.proof (some sl) (some reason) } nsl
      else
        let c2 : Session := { r.1 with sent := r.1.sent ++ [(sl, "kPROOF_SENDFILE")] }
        if r.2 = true then
          match streamFile (io.sendRaw sl) (io.reads sl) 0 with
          | Streamed.readFailed => (c2, -1)
          | Streamed.writeFailed =>
            let c3 : Session :=
              { c2 with proof := MarkBad c2.proof (some sl) (some "sendraw failure") }
            sendFileLoop io file force modtime cpopt rest (collectFrom c3 sl (io.done sl))
              (nsl + 1)
          | Streamed.complete =>
            sendFileLoop io file force modtime cpopt rest (collectFrom c2 sl (io.done sl))
              (nsl + 1)
        else
          sendFileLoop io file force modtime cpopt rest (collectFrom c2 sl (io.done sl)) nsl

/-- The bits of `ESendFileOpt`, as the comment of `SendFile` lists them. -/
def kBinary : Nat := 0x1

/-- The bit `kForce` of `ESendFileOpt`. -/
def kForce : Nat := 0x2

/-- The bit `kForward` of `ESendFileOpt`. -/
def kForward : Nat := 0x4

/-- The bit `kCpBin` of `ESendFileOpt`. -/
def kCpBin : Nat := 0x8

/-- The bit `kCp` of `ESendFileOpt`. -/
def kCp : Nat := 0x10

/-- `TProof::SendFile`; `rfile = none` and `wrk = none` are the null
pointers.  The text of the request, with the remote name and the flags
`bin` and `fw`, is not modelled. -/
def SendFile (c : Session) (io : SendFileIO) (file : String) (opt : Nat)
    (rfile : Option String) (wrk : Option Nat) : Session × Int :=
  if c.proof.fValid = false then (c, -1) else
  let slaves : List Nat :=
    match wrk with
    | some w => [w]
    | none => if rfile = some "cache" then c.proof.fUniqueSlaves else c.proof.fActiveSlaves
  if slaves.length = 0 then (c, 0) else
  if io.opened = false then (c, -1) else
  match io.stat with
  | none => (c, -1)
  | some (size, modtime) =>
    if size = 0 then (c, -1) else
    let force : Bool := decide (opt &&& kForce ≠ 0)
    let cpopt : Nat :=
      (if opt &&& kCp ≠ 0 then kCp else 0) ||| (if opt &&& kCpBin ≠ 0 then kCp ||| kCpBin else 0)
    sendFileLoop io file force modtime cpopt slaves c 0

/-! ## Sessions and environments of the collection examples -/

/-- A valid master session with the two leaf workers 1 and 2, both active;
their sockets are de-activated in the monitor of all workers and active in
the monitor of the active workers. -/
def pairProof : TProof :=
  { mkSession "" scenarioObj [1, 2] [1, 2] [] [] with
    fAllMonitor := { fActive := [], fDeActive := [1, 2] }
    fActiveMonitor := { fActive := [1, 2], fDeActive := [] } }

/-- The session of `pairProof` outside any `Collect`, with an empty file
map. -/
def pairSession : Session :=
  { proof := pairProof
    created := fun _ => emptyMonitor
    nCreated := 0
    fCurrentMonitor := none
    fStatus := 0
    fRecvMessages := []
    fCheckFileStatus := 0
    fFileMap := fun _ => none
    fName := fun w => if w = 1 then "node1" else "node2"
    sent := []
    checksums := [] }

/-- The environment in which no worker ever answers: every `Select` times
out, the activity timeout is the default of 600 s and is never exceeded, and
every group-view message can be sent. -/
def silentIO : CollectIO :=
  { actto := 600000
    select := fun _ => Selected.timedOut
    input := fun _ => Input.noMessage
    finished := fun _ => false
    stale := fun _ _ => false
    sendGroupView := fun _ _ => true }

/-- The silent environment with `Proof.SocketActivityTimeout` set to 30 s.
A timed-out `Select` takes a second, so a socket that never shows activity
is found silent for longer than that at every check made after more than 30
iterations. -/
def staleIO : CollectIO :=
  { silentIO with actto := 30000, stale := fun n _ => decide (30 < n) }

/-- The two-worker session with a group view still to be sent. -/
def pendingViewSession : Session :=
  { pairSession with proof := { pairProof with fSendGroupView := true } }

/-- The silent environment in which the group-view message cannot be sent to
worker 1. -/
def unreachableIO : CollectIO :=
  { silentIO with sendGroupView := fun _ w => decide (w ≠ 1) }

/-- An environment in which worker 1 sends two messages: in iteration 0 a
message of kind 5 after which more is expected (the handler returns 0), in
iteration 2 a message of kind 6 that ends its answer (the handler returns
1); no handler changes the session, and every other wait times out. -/
def chattyIO : CollectIO :=
  { silentIO with
    select := fun n => if n = 0 ∨ n = 2 then Selected.socket 1 else Selected.timedOut
    input := fun n =>
      if n = 0 then Input.message 5 0 (fun c => c) else Input.message 6 1 (fun c => c) }

/-- The two-worker session inside a `Collect` on the monitor of the active
workers: that monitor is the current one. -/
def nestedSession : Session :=
  { pairSession with
    proof := { pairProof with fAllMonitor := { fActive := [1], fDeActive := [2] } }
    fCurrentMonitor := some MonRef.fActiveMonitor }

/-- The locals of a loop of `Collect` that starts in session `c` with the
budget `timeout`. -/
def loopStart (c : Session) (timeout : Int) : CollectLoop :=
  { c := c, cnt := 0, nto := timeout, sto := -1, nsto := 60, iter := 0 }

/-- An environment in which worker 1 is ready at every wait: it sends a
message of kind 6 in iteration 0 and messages of kind 7 afterwards, and the
handler returns 1 (done) for each without changing the session. -/
def nestedIO : CollectIO :=
  { silentIO with
    select := fun _ => Selected.socket 1
    input := fun n =>
      if n = 0 then Input.message 6 1 (fun c => c) else Input.message 7 1 (fun c => c) }

/-! ## Sessions and environments of the file distribution examples -/

/-- The two-worker session after `CheckFile` has recorded the checksum 11 and
the modification time 100 for `macro.C` on worker 1. -/
def cachedSession : Session :=
  { pairSession with
    fFileMap := fun k =>
      if k = "node1:0.0:macro.C" then some { fMD5 := 11, fModtime := 100 } else none }

/-- A `Collect` on a worker during which no worker is lost and the worker
answers the `kPROOF_CHECKFILE` request with `status`. -/
def answers (status : Int) : WorkerCollect :=
  { registry := CollectEffect.quiet, reply := some (some status) }

/-- The environment of a `CheckFile` on `macro.C` whose checksum is `md5`,
with a worker that reports `status`. -/
def macroCheck (md5 : Nat) (status : Int) : CheckFileIO :=
  { base := "macro.C", md5 := some md5, confirm := answers status }

/-- The environment of a `SendFile` of a file of 100 bytes, read in one
chunk, in which every request can be sent and no raw write succeeds. -/
def brokenPipeIO : SendFileIO :=
  { opened := true
    stat := some (100, 500)
    check := fun _ => macroCheck 11 0
    request := fun _ => true
    reads := fun _ => [100]
    sendRaw := fun _ _ => false
    done := fun _ => { registry := CollectEffect.quiet, reply := none } }

/-- The environment of a `SendFile` of the same file in which the request
cannot be sent to any worker. -/
def noRequestIO : SendFileIO :=
  { brokenPipeIO with request := fun _ => false, sendRaw := fun _ _ => true }

/-! ## Work-unit requests: the case `kPROOF_GETPACKET` of `HandleInputMessage` -/

/-- What `TVirtualProofPlayer::GetNextPacket` returns: `(TDSetElement*)-1`
when there is no unit yet for the worker, or an element, which is the null
pointer (`none`) when nothing is left. -/
inductive NextPacket where
  | notYet
  | elem (e : Option Nat)
  deriving DecidableEq, Repr

/-- The part of the session the handler of `kPROOF_GETPACKET` works on: the
list `fWaitingSlaves` of pairs of a socket and the message received on it (a
null list counts as an empty one); and, as instrumentation, the calls of
`GetNextPacket` (worker and message), the answers sent (socket and element)
and the messages kept instead of deleted, in order. -/
structure PacketState where
  fWaitingSlaves : List (Nat × Nat)
  requests : List (Nat × Nat)
  answers : List (Nat × Option Nat)
  kept : List Nat
  deriving DecidableEq, Repr

/-- The `while` over `fWaitingSlaves` in the case `kPROOF_GETPACKET`, run
while handling a message of worker `sl`; the argument list is the waiting
list.  `next k w m` is the result of the `k`-th call of `GetNextPacket` of
the session when it is made for worker `w` with message `m`. -/
def retryWaiting (next : Nat → Nat → Nat → NextPacket) (sl : Nat) :
    List (Nat × Nat) → PacketState → PacketState
  | [], q => q
  | (s, m) :: rest, q =>
    let q1 : PacketState := { q with requests := q.requests ++ [(sl, m)] }
    match next q.requests.length sl m with
    | NextPacket.elem e =>
      retryWaiting next sl rest
        { q1 with answers := q1.answers ++ [(s, e)], fWaitingSlaves := rest }
    | NextPacket.notYet => q1

/-- The case `kPROOF_GETPACKET` of `HandleInputMessage` for the message
`mess` of worker `sl`, whose socket has the address of the worker.
`player = none` is a null `fPlayer`: the element is then the null pointer,
and the result `none` stands for the call of `GetNextPacket` through the null
player that the retry loop makes when a request is waiting. -/
def handleGetPacket (player : Option (Nat → Nat → Nat → NextPacket)) (q : PacketState)
    (sl mess : Nat) : Option PacketState :=
  match player with
  | none =>
    let q1 : PacketState := { q with answers := q.answers ++ [(sl, none)] }
    if q1.fWaitingSlaves.length = 0 then some q1 else none
  | some next =>
    match next q.requests.length sl mess with
    | NextPacket.elem e =>
      let q1 : PacketState :=
        { q with requests := q.requests ++ [(sl, mess)], answers := q.answers ++ [(sl, e)] }
      some (retryWaiting next sl q1.fWaitingSlaves q1)
    | NextPacket.notYet =>
      some { q with
        requests := q.requests ++ [(sl, mess)]
        fWaitingSlaves := q.fWaitingSlaves ++ [(sl, mess)]
        kept := q.kept ++ [mess] }

/-! ## TSlaveInfo::Compare -/

/-- The C library predicate `isspace` in the C locale. -/
def isspace (c : Char) : Bool := decide (c = ' ') || (decide (9 ≤ c.toNat) && decide (c.toNat ≤ 13))

/-- The C library predicate `isdigit`. -/
def isdigit (c : Char) : Bool := decide (48 ≤ c.toNat) && decide (c.toNat ≤ 57)

/-- The digits read by `atoi`, accumulated in `acc`. -/
def atoiDigits : List Char → Int → Int
  | [], acc => acc
  | c :: cs, acc =>
    if isdigit c = true then atoiDigits cs (acc * 10 + ((c.toNat : Int) - 48)) else acc

/-- The C library function `atoi`: leading white space is skipped, a sign is
read, then the decimal digits up to the first other character; the value is
delivered as an `int`. -/
def atoi (s : List Char) : Int :=
  match s.dropWhile isspace with
  | '-' :: r => toInt32 (-(atoiDigits r 0))
  | '+' :: r => toInt32 (atoiDigits r 0)
  | r => toInt32 (atoiDigits r 0)

/-- The statements `p = strchr(p, (char) 46); if (p) p++;`: the text after
the first dot, or the null pointer when there is no dot. -/
def afterDot (s : List Char) : Option (List Char) :=
  match s.dropWhile (fun c => decide (c ≠ '.')) with
  | [] => none
  | _ :: r => some r

/-- The `while (myord && otherord)` of `TSlaveInfo::Compare` with the three
`return` statements that follow it; `fuel` bounds the number of iterations,
and `none` says the bound was reached. -/
def compareOrdinals : Nat → Option (List Char) → Option (List Char) → Option Int
  | _, some _, none => some (-1)
  | _, none, some _ => some 1
  | _, none, none => some 0
  | 0, some _, some _ => none
  | fuel + 1, some myord, some otherord =>
    if atoi myord < atoi otherord then some 1
    else if atoi myord > atoi otherord then some (-1)
    else compareOrdinals fuel (afterDot myord) (afterDot otherord)

/-- The part of a `TSlaveInfo` that `Compare` reads. -/
structure TSlaveInfo where
  fOrdinal : String
  fHostName : String
  fPerfIndex : Int
  deriving DecidableEq, Repr

/-- The argument of `TSlaveInfo::Compare`: the null pointer, a `TSlaveInfo`,
or an object of another class, of which the name is read. -/
inductive TObjectArg where
  | null
  | slaveInfo (si : TSlaveInfo)
  | other (name : String)

/-- `TString::CompareTo` with exact case: the order of the two texts. -/
def compareTo (a b : String) : Int :=
  if a = b then 0 else if a < b then -1 else 1

/-- `TSlaveInfo::Compare`.  Every iteration of the loop drops at least one
character of the own ordinal, so its length is a bound on the number of
iterations that leaves one to spare. -/
def TSlaveInfo.Compare (this : TSlaveInfo) (obj : TObjectArg) : Option Int :=
  match obj with
  | TObjectArg.null => some 1
  | TObjectArg.other name => some (compareTo this.fOrdinal name)
  | TObjectArg.slaveInfo si =>
    compareOrdinals (this.fOrdinal.toList.length + 1) (some this.fOrdinal.toList)
      (some si.fOrdinal.toList)

/-! ## The include and library search paths -/

/-- The four loops of `HandleLibIncPath`, each of which rewrites a search
path of the local session for one directory. -/
inductive PathStep where
  | addLib
  | addInc
  | removeLib
  | removeInc
  deriving DecidableEq, Repr

/-- The search paths of the local session (`gSystem`): the dynamic library
path and the include path; `calls` is instrumentation, the arguments of every
call of `HandleLibIncPath`, in order. -/
structure ClientPaths where
  dynamicPath : String
  includePath : String
  calls : List (String × Bool × String)
  deriving DecidableEq, Repr

/-- `TString::Tokenize(" ")` on the characters still to read, `cur` being the
token under way: the pieces between blanks, without the empty ones. -/
def tokenize : List Char → List Char → List String
  | [], cur => if cur = [] then [] else [String.mk cur]
  | c :: cs, cur =>
    if c = ' ' then
      if cur = [] then tokenize cs [] else String.mk cur :: tokenize cs []
    else tokenize cs (cur ++ [c])

/-- `path.ReplaceAll(",", " ")` followed by `path.Tokenize(" ")`, which is
done for a text that is neither empty nor a dash: the directories named. -/
def pathTokens (dirs : String) : List String :=
  let path := dirs.toList.map (fun c => if c = ',' then ' ' else c)
  if path.length > 0 ∧ path ≠ ['-'] then tokenize path [] else []

/-- `TProof::HandleLibIncPath`.  The bodies of its four loops call `gSystem`
and `gInterpreter`, which are not among the sources: `sys step dir` is what
the body of the loop `step` does to the search paths for the directory
`dir`.  The loop that adds libraries visits the directories backwards. -/
def HandleLibIncPath (sys : PathStep → String → ClientPaths → ClientPaths) (cl : ClientPaths)
    (what : String) (add : Bool) (dirs : String) : ClientPaths :=
  let cl0 : ClientPaths := { cl with calls := cl.calls ++ [(what, add, dirs)] }
  if what ≠ "lib" ∧ what ≠ "inc" then cl0 else
  let op := pathTokens dirs
  if add = true then
    if what = "lib" then op.reverse.foldl (fun c d => sys PathStep.addLib d c) cl0
    else op.foldl (fun c d => sys PathStep.addInc d c) cl0
  else
    if what = "lib" then op.foldl (fun c d => sys PathStep.removeLib d c) cl0
    else op.foldl (fun c d => sys PathStep.removeInc d c) cl0

/-- Everything the functions that change a search path learn from outside:
what the loops of `HandleLibIncPath` do for a directory, whether the request
can be sent to a worker, and what the `Collect` on the active workers does
to the registry. -/
structure LibIncEnv where
  sys : PathStep → String → ClientPaths → ClientPaths
  send : Nat → Bool
  collect : CollectEffect

/-- `TProof::AddIncludePath`; `incpath = none` and `wrks = none` are the
null pointers.  The result is the session, the search paths of the client
and the value returned. -/
def AddIncludePath (p : TProof) (cl : ClientPaths) (env : LibIncEnv) (incpath : Option String)
    (onClient : Bool) (wrks : Option (List Nat)) : TProof × ClientPaths × Int :=
  match incpath with
  | none => (p, cl, 0)
  | some path =>
    if path.length = 0 then (p, cl, 0) else
    let cl1 := if onClient = true then HandleLibIncPath env.sys cl "inc" true path else cl
    let slaves := match wrks with
      | some l => l
      | none => p.fActiveSlaves
    (applyCollect (Broadcast p env.send (some slaves)).1 env.collect, cl1, 0)

/-- `TProof::RemoveIncludePath`; `incpath = none` is the null pointer.  The
request sent to the workers, whose text is not modelled, names the type
`inc`. -/
def RemoveIncludePath (p : TProof) (cl : ClientPaths) (env : LibIncEnv)
    (incpath : Option String) (onClient : Bool) : TProof × ClientPaths × Int :=
  match incpath with
  | none => (p, cl, 0)
  | some path =>
    if path.length = 0 then (p, cl, 0) else
    let cl1 := if onClient = true then HandleLibIncPath env.sys cl "in" false path else cl
    (applyCollect (Broadcast p env.send (some p.fActiveSlaves)).1 env.collect, cl1, 0)

/-! ## ValidateDSet: the elements of a node over its workers -/

/-- The values of `j` in the inner `for` of the distribution loop of
`ValidateDSet`, for worker `i` of a node with `nslaves` workers and
`nelements` elements: from `(i*nelements)/nslaves` up to, not including,
`((i+1)*nelements)/nslaves`, in `Int_t` arithmetic with the truncating
division of C++. -/
def elementRange (nslaves nelements i : Int) : List Int :=
  let lo := (toInt32 (i * nelements)).tdiv nslaves
  let hi := (toInt32 (toInt32 (i + 1) * nelements)).tdiv nslaves
  (List.range (hi - lo).toNat).map (fun (k : Nat) => lo + (k : Int))

/-- The outer `for` of the distribution loop of `ValidateDSet` for one node:
the indices of the elements put into the set of each of its workers. -/
def distributeElements (nslaves nelements : Int) : List (List Int) :=
  (List.range nslaves.toNat).map (fun (i : Nat) => elementRange nslaves nelements (i : Int))

/-! ## RecvLogFile -/

/-- The constant `kMAXBUF` of `RecvLogFile`, the size of its buffer. -/
def logBufferSize : Int := 16384

/-- The counters of `RecvLogFile`: `filesize`, and as instrumentation the
lengths asked of `RecvRaw` and the indices at which the closing zero byte was
written into the buffer, in order. -/
structure RecvLog where
  filesize : Int
  requested : List Int
  terminators : List Int
  deriving DecidableEq, Repr

/-- The `while (filesize < size)` of `RecvLogFile`; the list holds the
results of the calls of `RecvRaw` still to come, and the loop is followed as
far as they reach.  The copy of the chunk to the logging unit, which touches
neither the buffer nor the counters, is left out. -/
def recvLogLoop (fLogToWindowOnly : Bool) (size : Int) : List Int → RecvLog → RecvLog
  | [], st => st
  | rec :: rest, st =>
    if st.filesize < size then
      let left0 := toInt32 (size - st.filesize)
      let left := if left0 > logBufferSize then logBufferSize else left0
      let st1 : RecvLog :=
        { st with
          filesize := if rec > 0 then st.filesize + rec else st.filesize
          requested := st.requested ++ [left] }
      if fLogToWindowOnly = false ∧ ¬ (rec > 0) ∧ rec < 0 then st1
      else
        let st2 : RecvLog :=
          if rec > 0 then { st1 with terminators := st1.terminators ++ [rec] } else st1
        recvLogLoop fLogToWindowOnly size rest st2
    else st

/-- `TProof::RecvLogFile` for the announced size `size`; `fdout` is the
descriptor of the logging unit. -/
def RecvLogFile (fLogToWindowOnly : Bool) (fdout : Int) (size : Int) (recvs : List Int) :
    RecvLog :=
  if fLogToWindowOnly = false ∧ fdout < 0 then { filesize := 0, requested := [], terminators := [] }
  else recvLogLoop fLogToWindowOnly size recvs { filesize := 0, requested := [], terminators := [] }

/-! ## Sessions of the examples on ordinals -/

/-- Objects of a master with more than ten workers, of which two are looked
at: the worker at address 1 has the ordinal `0.10`, the worker at address 2
the ordinal `0.1`. -/
def wideObj (w : Nat) : TSlave :=
  match w with
  | 1 => mkSlave "0.10" "node10" 10 ESlaveType.kSlave
  | _ => mkSlave "0.1" "node1" 5 ESlaveType.kSlave

/-- An end-master on which the workers `0.10` and `0.1` are inactive, in this
order. -/
def wideSession : TProof := mkSession "" wideObj [1, 2] [] [1, 2] []

/-- An end-master whose only worker, `0.10`, is inactive. -/
def loneSession : TProof := mkSession "" wideObj [1] [] [1] []

/-- An environment of `ModifyWorkerLists` without transport failure. -/
def quietModify : ModifyIO := { send := fun _ => true, collect := CollectEffect.quiet }

/-! ## Examples on work-unit requests, search paths and log files -/

/-- A packetizer that has no unit at the first call and the unit `100 + k`
at the `k`-th call afterwards, whoever asks. -/
def lateUnits (k : Nat) (_w _m : Nat) : NextPacket :=
  if k = 0 then NextPacket.notYet else NextPacket.elem (some (100 + k))

/-- No request waiting, nothing asked or answered yet. -/
def emptyPackets : PacketState :=
  { fWaitingSlaves := [], requests := [], answers := [], kept := [] }

/-- A local session whose include path is one option per directory: adding a
directory appends its option, removing a directory deletes its option when it
is the whole path. -/
def optionSys (step : PathStep) (dir : String) (cl : ClientPaths) : ClientPaths :=
  match step with
  | PathStep.addLib => { cl with dynamicPath := dir ++ ":" ++ cl.dynamicPath }
  | PathStep.removeLib =>
    { cl with dynamicPath := if cl.dynamicPath = dir ++ ":" then "" else cl.dynamicPath }
  | PathStep.addInc => { cl with includePath := cl.includePath ++ " -I" ++ dir }
  | PathStep.removeInc =>
    { cl with includePath := if cl.includePath = "-I" ++ dir then "" else cl.includePath }

/-- An environment of the search-path functions without transport
failure. -/
def optionEnv : LibIncEnv :=
  { sys := optionSys, send := fun _ => true, collect := CollectEffect.quiet }

/-- A client whose include path holds the directory `/opt/inc`. -/
def optClient : ClientPaths :=
  { dynamicPath := ".:", includePath := "-I/opt/inc", calls := [] }

/-- The `TSlaveInfo` of a worker with the given ordinal. -/
def slaveInfoOf (ord : String) : TSlaveInfo :=
  { fOrdinal := ord, fHostName := "node", fPerfIndex := 100 }

/-! ## Vocabulary of the proofs -/

/-- The test "submaster with image `i`". -/
def isMasterWith (obj : Nat → TSlave) (i : String) (s : Nat) : Bool :=
  decide ((obj s).fSlaveType = ESlaveType.kMaster ∧ (obj s).fImage = i)

/-- The loop invariant of `FindUniqueSlaves` on the lists `U` (unique) and
`N` (non-unique masters), for the prefix `pre` of the active list visited so
far. -/
structure UniqueInv (obj : Nat → TSlave) (img : String) (pre U N : List Nat) : Prop where
  sub : ∀ x ∈ U, x ∈ pre ∧ (obj x).fImage ≠ img
  nodup : (U.map (fun x => (obj x).fImage)).Nodup
  cover : ∀ x ∈ pre, (obj x).fImage ≠ img → ∃ y ∈ U, (obj y).fImage = (obj x).fImage
  first : ∀ y ∈ U, ∀ x ∈ pre, (obj x).fSlaveType = ESlaveType.kMaster →
    (obj x).fImage = (obj y).fImage →
    pre.find? (isMasterWith obj (obj y).fImage) = some y
  nsub : ∀ x ∈ N, x ∈ pre ∧ (obj x).fSlaveType = ESlaveType.kMaster
  ncov : ∀ x ∈ pre, (obj x).fSlaveType = ESlaveType.kMaster → x ∈ U ∨ x ∈ N
  ndisj : pre.Nodup → ∀ x ∈ N, x ∉ U

/-- The fields of a session that `FindUniqueSlaves` leaves alone. -/
structure SameCore (p q : TProof) : Prop where
  fValid : q.fValid = p.fValid
  fMasterServ : q.fMasterServ = p.fMasterServ
  kIsMaster : q.kIsMaster = p.kIsMaster
  kIsClient : q.kIsClient = p.kIsClient
  fEndMaster : q.fEndMaster = p.fEndMaster
  fManager : q.fManager = p.fManager
  fImage : q.fImage = p.fImage
  fSendGroupView : q.fSendGroupView = p.fSendGroupView
  obj : q.obj = p.obj
  fSlaves : q.fSlaves = p.fSlaves
  fActiveSlaves : q.fActiveSlaves = p.fActiveSlaves
  fInactiveSlaves : q.fInactiveSlaves = p.fInactiveSlaves
  fBadSlaves : q.fBadSlaves = p.fBadSlaves
  fAllMonitor : q.fAllMonitor = p.fAllMonitor
  fActiveMonitor : q.fActiveMonitor = p.fActiveMonitor
  fPlayer : q.fPlayer = p.fPlayer
  markBadCalls : q.markBadCalls = p.markBadCalls

/-- The state `MarkBad` hands to `FindUniqueSlaves`. -/
def markBadPre (p : TProof) (w : Nat) (reason : Option String) : TProof :=
  let p0 : TProof := { p with markBadCalls := p.markBadCalls ++ [some w] }
  let p1 : TProof :=
    if p0.fMasterServ = true ∧ reason.isSome = true then
      if reason ≠ some kPROOF_TerminateWorker then packetizerMarkBad p0 w else p0
    else p0
  { p1 with fActiveSlaves := p1.fActiveSlaves.erase w }

/-- What `MarkBad` with a reason other than the sentinel does to a valid
master session. -/
structure BadStep (p q : TProof) (w : Nat) : Prop where
  fValid : q.fValid = true
  fMasterServ : q.fMasterServ = true
  kIsMaster : q.kIsMaster = p.kIsMaster
  kIsClient : q.kIsClient = p.kIsClient
  fEndMaster : q.fEndMaster = p.fEndMaster
  fManager : q.fManager = p.fManager
  fImage : q.fImage = p.fImage
  obj : q.obj = closeSlave p.obj w
  fSlaves : q.fSlaves = p.fSlaves
  fActiveSlaves : q.fActiveSlaves = p.fActiveSlaves.erase w
  fInactiveSlaves : q.fInactiveSlaves = p.fInactiveSlaves
  fBadSlaves : q.fBadSlaves = p.fBadSlaves ++ [w]
  markBadCalls : q.markBadCalls = p.markBadCalls ++ [some w]
  unique : UniqueInv p.obj p.fImage (p.fActiveSlaves.erase w) q.fUniqueSlaves q.fNonUniqueMasters
  allUnique : ∀ x ∈ q.fAllUniqueSlaves, x ∈ p.fActiveSlaves.erase w

/-- What `MarkBad` with the sentinel does to a valid master session. -/
structure TermStep (p q : TProof) (w : Nat) : Prop where
  fValid : q.fValid = true
  fMasterServ : q.fMasterServ = true
  fSlaves : q.fSlaves = p.fSlaves.erase w
  fActiveSlaves : q.fActiveSlaves = (p.fActiveSlaves.erase w).erase w
  fInactiveSlaves : q.fInactiveSlaves = p.fInactiveSlaves.erase w
  fBadSlaves : q.fBadSlaves = p.fBadSlaves.erase w
  markBadCalls : q.markBadCalls = p.markBadCalls ++ [some w]
  unique : ∀ x ∈ q.fUniqueSlaves, x ∈ p.fActiveSlaves.erase w
  nonUnique : ∀ x ∈ q.fNonUniqueMasters, x ∈ p.fActiveSlaves.erase w
  allUnique : ∀ x ∈ q.fAllUniqueSlaves, x ∈ p.fActiveSlaves.erase w

/-- The step from `p` to `q` keeps the roles of the session, the list of all
workers and the inactive list, and only removes workers from the active
list. -/
structure Shrinks (p q : TProof) : Prop where
  fMasterServ : q.fMasterServ = p.fMasterServ
  kIsMaster : q.kIsMaster = p.kIsMaster
  kIsClient : q.kIsClient = p.kIsClient
  fSlaves : q.fSlaves = p.fSlaves
  fInactiveSlaves : q.fInactiveSlaves = p.fInactiveSlaves
  fActiveSlaves : q.fActiveSlaves.Sublist p.fActiveSlaves

/-- The registry invariant: each of the lists of all, active and inactive
workers holds a worker at most once, active and inactive workers are workers
of the list of all workers, and no worker is both active and inactive. -/
structure RegInv (p : TProof) : Prop where
  all_nodup : p.fSlaves.Nodup
  act_nodup : p.fActiveSlaves.Nodup
  ina_nodup : p.fInactiveSlaves.Nodup
  act_sub : ∀ x ∈ p.fActiveSlaves, x ∈ p.fSlaves
  ina_sub : ∀ x ∈ p.fInactiveSlaves, x ∈ p.fSlaves
  disj : ∀ x ∈ p.fActiveSlaves, x ∉ p.fInactiveSlaves

/-- The objects `o2` are the objects `o1` up to the status field. -/
def SameButStatus (o1 o2 : Nat → TSlave) : Prop :=
  ∀ x, ∃ st, o2 x = { o1 x with fStatus := st }

/-- The invariant of the first loop of `GoParallel`, started in `p0`. -/
structure CandInv (p0 : TProof) (pre : List Nat) (s : TProof × List Nat) : Prop where
  wlst : s.2 = pre.filter (isCandidate p0)
  fInactiveSlaves : s.1.fInactiveSlaves = p0.fInactiveSlaves ++ pre.filter (isCandidate p0)
  fActiveSlaves : s.1.fActiveSlaves = p0.fActiveSlaves
  fSlaves : s.1.fSlaves = p0.fSlaves
  fBadSlaves : s.1.fBadSlaves = p0.fBadSlaves
  fValid : s.1.fValid = p0.fValid
  fMasterServ : s.1.fMasterServ = p0.fMasterServ
  kIsMaster : s.1.kIsMaster = p0.kIsMaster
  kIsClient : s.1.kIsClient = p0.kIsClient
  obj : SameButStatus p0.obj s.1.obj

/-- The state in which the first loop of `GoParallel` starts. -/
def goParallelStart (p : TProof) : TProof :=
  { p with
    fActiveSlaves := []
    fActiveMonitor := p.fActiveMonitor.RemoveAll
    fInactiveSlaves := [] }

/-- The number of turns of the selection loop, `nwrks`. -/
def goParallelCount (nodes : Int) (k : Nat) : Nat :=
  (if (if nodes < 0 then 0 else nodes) > (k : Int) then (k : Int)
    else (if nodes < 0 then 0 else nodes)).toNat

/-- The state of `GoParallel` when the selection loop is left. -/
def goParallelSelected (p : TProof) (io : GoParallelIO) (nodes : Int) (random : Bool) : TProof :=
  let c := (goParallelStart p).fSlaves.foldl candidateStep (goParallelStart p, [])
  selectLoop io random (goParallelCount nodes c.2.length) 0
    { c.1 with fEndMaster := c.1.kIsMaster } c.2

/-- The closing part of `GoParallel`, from the state left by the selection
loop. -/
def goParallelTail (p2 : TProof) (io : GoParallelIO) (attach : Bool) : TProof :=
  let p4 := FindUniqueSlaves (AskStatistics p2 io.sendStats io.collectStats)
  if attach = false then SendGroupView io.sendGroupView p4 else p4

/-- The invariant of the selection loop of `GoParallel`: the registry
invariant on a master, and the candidates still to choose from are pairwise
different workers of the list of all workers, none of them active. -/
structure SelInv (p : TProof) (wlst : List Nat) : Prop where
  reg : RegInv p
  master : p.fMasterServ = true
  nodup : wlst.Nodup
  sub : ∀ x ∈ wlst, x ∈ p.fSlaves
  fresh : ∀ x ∈ wlst, x ∉ p.fActiveSlaves

/-- From `p` to `q` no monitor of the registry that has no active socket gets
one. -/
structure KeepsIdle (p q : TProof) : Prop where
  all : p.fAllMonitor.fActive = [] → q.fAllMonitor.fActive = []
  active : p.fActiveMonitor.fActive = [] → q.fActiveMonitor.fActive = []
  unique : p.fUniqueMonitor.fActive = [] → q.fUniqueMonitor.fActive = []
  allUnique : p.fAllUniqueMonitor.fActive = [] → q.fAllUniqueMonitor.fActive = []

/-- The number of timed-out waits among the first `n` iterations of the
loop. -/
def timedOutWaits (io : CollectIO) (n : Nat) : Nat :=
  ((List.range n).filter (fun k => decide (io.select k = Selected.timedOut))).length

/-- The locals of the loop of `Collect`, started in `l0`, when `n` iterations
are done; `none` when the loop was left before. -/
def collectTrace (io : CollectIO) (mon : MonRef) (sm : Option MonRef) (endtype : Int)
    (l0 : CollectLoop) : Nat → Option CollectLoop
  | 0 => some l0
  | n + 1 =>
    match collectTrace io mon sm endtype l0 n with
    | none => none
    | some l =>
      if (collectCond io mon l).2 = true then
        some (collectBody io mon sm endtype (collectCond io mon l).1)
      else none

/-- The value of `fCheckFileStatus` after the confirmation round-trip: it
stays 0 unless the reply of a valid worker is handled. -/
def reportedStatus (c : Session) (slave : Nat) (e : WorkerCollect) : Int :=
  if (c.proof.obj slave).fValid = false then 0 else
  match e.reply with
  | none => 0
  | some st => handleCheckFile st

/-- The integer that a text of decimal digits denotes. -/
def decimalValue (ds : List Char) : Int :=
  ds.foldl (fun acc c => acc * 10 + ((c.toNat : Int) - 48)) 0

/-- A component of an ordinal: a text of decimal digits, not empty, whose
value is in the range of `Int_t`. -/
def IsComponent (c : List Char) : Prop :=
  c ≠ [] ∧ (∀ ch ∈ c, isdigit ch = true) ∧ decimalValue c < 2147483648

instance : DecidablePred IsComponent := fun c => by
  unfold IsComponent
  infer_instance

/-- The text of the ordinal with the given components: the components with a
dot between two of them. -/
def ordinalText : List (List Char) → List Char
  | [] => []
  | [c] => c
  | c :: d :: cs => c ++ '.' :: ordinalText (d :: cs)

/-- The pointer into the text of an ordinal of which the components `l` are
still to read: null when none is left. -/
def textLeft (l : List (List Char)) : Option (List Char) :=
  if l = [] then none else some (ordinalText l)

/-- The comparison of two sequences of integers as the claim words it: 1 if
the first differing component of the first is smaller, -1 if it is larger,
-1 if the second is a proper prefix of the first, 1 in the converse case, 0
if the sequences are equal. -/
def ordinalCompare : List Int → List Int → Int
  | [], [] => 0
  | [], _ :: _ => 1
  | _ :: _, [] => -1
  | a :: as, b :: bs =>
    if a < b then 1 else if a > b then -1 else ordinalCompare as bs

/-! ## Lemmas on FindUniqueSlaves -/

/-- A property of the prefix visited so far is kept along a left fold. -/
theorem foldl_prefix_inv {α β : Type} (f : β → α → β) (I : List α → β → Prop)
    (hstep : ∀ pre b a, I pre b → I (pre ++ [a]) (f b a)) :
    ∀ (l pre : List α) (b : β), I pre b → I (pre ++ l) (l.foldl f b)
  | [], pre, b, h => by simpa using h
  | a :: l, pre, b, h => by
    have h2 := foldl_prefix_inv f I hstep l (pre ++ [a]) (f b a) (hstep pre b a h)
    simpa using h2

/-- The outcome of the scan of the unique list, case by case. -/
theorem scanUnique_cases (obj : Nat → TSlave) (sl : Nat) (U : List Nat) :
    ((∀ y ∈ U, (obj sl).fImage ≠ (obj y).fImage) ∧
        scanUnique obj sl U = { add := true, replace_slave := none, nonUnique := false }) ∨
    (∃ y, y ∈ U ∧ (obj sl).fImage = (obj y).fImage ∧
      (((obj sl).fSlaveType = ESlaveType.kMaster ∧ (obj y).fSlaveType = ESlaveType.kSlave ∧
          scanUnique obj sl U = { add := true, replace_slave := some y, nonUnique := false }) ∨
       ((obj sl).fSlaveType = ESlaveType.kMaster ∧ (obj y).fSlaveType = ESlaveType.kMaster ∧
          scanUnique obj sl U = { add := false, replace_slave := none, nonUnique := true }) ∨
       ((obj sl).fSlaveType = ESlaveType.kSlave ∧
          scanUnique obj sl U = { add := false, replace_slave := none, nonUnique := false }))) := by
  induction U with
  | nil => left; simp [scanUnique]
  | cons sl2 rest ih =>
    by_cases h : (obj sl).fImage = (obj sl2).fImage
    · right
      refine ⟨sl2, by simp, h, ?_⟩
      cases h1 : (obj sl).fSlaveType <;> cases h2 : (obj sl2).fSlaveType <;>
        simp [scanUnique, h, h1, h2]
    · rcases ih with ⟨hno, hs⟩ | ⟨y, hy, hi, hc⟩
      · left
        refine ⟨?_, by simp [scanUnique, h, hs]⟩
        intro y hy
        rcases List.mem_cons.1 hy with rfl | hy
        · exact h
        · exact hno y hy
      · right
        refine ⟨y, List.mem_cons_of_mem _ hy, hi, ?_⟩
        simpa [scanUnique, h] using hc

theorem find_append_of_some {p : Nat → Bool} {l : List Nat} {y : Nat} (a : Nat)
    (h : l.find? p = some y) : (l ++ [a]).find? p = some y := by
  simp [List.find?_append, h]

theorem find_append_new {p : Nat → Bool} {l : List Nat} (a : Nat)
    (h : ∀ x ∈ l, p x = false) (ha : p a = true) : (l ++ [a]).find? p = some a := by
  have hn : l.find? p = none := by
    rw [List.find?_eq_none]
    intro x hx
    simp [h x hx]
  simp [List.find?_append, hn, ha]

theorem unique_of_image_nodup {obj : Nat → TSlave} {U : List Nat}
    (h : (U.map (fun x => (obj x).fImage)).Nodup) {a b : Nat} (ha : a ∈ U) (hb : b ∈ U)
    (hab : (obj a).fImage = (obj b).fImage) : a = b :=
  List.inj_on_of_nodup_map h ha hb hab

theorem master_of_first {obj : Nat → TSlave} {i : String} {pre : List Nat} {y : Nat}
    (h : pre.find? (isMasterWith obj i) = some y) :
    (obj y).fSlaveType = ESlaveType.kMaster := by
  have := List.find?_some h
  simp [isMasterWith] at this
  exact this.1

theorem not_mem_of_nodup_append {pre : List Nat} {sl : Nat} (h : (pre ++ [sl]).Nodup) :
    pre.Nodup ∧ sl ∉ pre := by
  rw [List.nodup_append] at h
  refine ⟨h.1, fun hm => ?_⟩
  exact h.2.2 hm (by simp)

/-- Case: the worker has the image of the coordinator. -/
theorem UniqueInv.own_image {obj : Nat → TSlave} {img : String} {pre U N : List Nat}
    (h : UniqueInv obj img pre U N) (sl : Nat) (hi : (obj sl).fImage = img) (N2 : List Nat)
    (hN : ((obj sl).fSlaveType = ESlaveType.kSlave ∧ N2 = N) ∨
      ((obj sl).fSlaveType = ESlaveType.kMaster ∧ N2 = N ++ [sl])) :
    UniqueInv obj img (pre ++ [sl]) U N2 := by
  refine
    { sub := fun x hx => ⟨List.mem_append_left _ (h.sub x hx).1, (h.sub x hx).2⟩
      nodup := h.nodup
      cover := ?_, first := ?_, nsub := ?_, ncov := ?_, ndisj := ?_ }
  · intro x hx hne
    rcases List.mem_append.1 hx with hx | hx
    · exact h.cover x hx hne
    · simp at hx; subst hx; exact absurd hi hne
  · intro y hy x hx hm hxy
    rcases List.mem_append.1 hx with hx | hx
    · exact find_append_of_some sl (h.first y hy x hx hm hxy)
    · simp at hx; subst hx
      exact absurd (hxy ▸ hi) (h.sub y hy).2
  · intro x hx
    rcases hN with ⟨_, rfl⟩ | ⟨hm, rfl⟩
    · exact ⟨List.mem_append_left _ (h.nsub x hx).1, (h.nsub x hx).2⟩
    · rcases List.mem_append.1 hx with hx | hx
      · exact ⟨List.mem_append_left _ (h.nsub x hx).1, (h.nsub x hx).2⟩
      · simp at hx; subst hx; exact ⟨by simp, hm⟩
  · intro x hx hm
    rcases List.mem_append.1 hx with hx | hx
    · rcases h.ncov x hx hm with hU | hNm
      · exact Or.inl hU
      · right
        rcases hN with ⟨_, rfl⟩ | ⟨_, rfl⟩
        · exact hNm
        · exact List.mem_append_left _ hNm
    · simp at hx; subst hx
      rcases hN with ⟨hs, _⟩ | ⟨_, rfl⟩
      · rw [hs] at hm; cases hm
      · right; simp
  · intro hnd x hx hU
    obtain ⟨hpre, hsl⟩ := not_mem_of_nodup_append hnd
    rcases hN with ⟨_, rfl⟩ | ⟨_, rfl⟩
    · exact h.ndisj hpre x hx hU
    · rcases List.mem_append.1 hx with hx | hx
      · exact h.ndisj hpre x hx hU
      · simp at hx; subst hx; exact hsl (h.sub x hU).1

/-- Case: no worker of the unique list has the image of `sl`. -/
theorem UniqueInv.fresh_image {obj : Nat → TSlave} {img : String} {pre U N : List Nat}
    (h : UniqueInv obj img pre U N) (sl : Nat) (hi : (obj sl).fImage ≠ img)
    (hno : ∀ y ∈ U, (obj sl).fImage ≠ (obj y).fImage) :
    UniqueInv obj img (pre ++ [sl]) (U ++ [sl]) N := by
  have hpre : ∀ x ∈ pre, (obj x).fImage ≠ (obj sl).fImage := by
    intro x hx he
    obtain ⟨y, hy, hye⟩ := h.cover x hx (he ▸ hi)
    exact hno y hy (by rw [hye, he])
  refine
    { sub := ?_, nodup := ?_, cover := ?_, first := ?_, nsub := ?_, ncov := ?_, ndisj := ?_ }
  · intro x hx
    rcases List.mem_append.1 hx with hx | hx
    · exact ⟨List.mem_append_left _ (h.sub x hx).1, (h.sub x hx).2⟩
    · simp at hx; subst hx; exact ⟨by simp, hi⟩
  · rw [List.map_append, List.nodup_append]
    refine ⟨h.nodup, by simp, ?_⟩
    intro a ha hb
    simp at hb
    obtain ⟨y, hy, hye⟩ := List.mem_map.1 ha
    exact hno y hy (by rw [← hb]; exact hye.symm)
  · intro x hx hne
    rcases List.mem_append.1 hx with hx | hx
    · obtain ⟨y, hy, hye⟩ := h.cover x hx hne
      exact ⟨y, List.mem_append_left _ hy, hye⟩
    · simp at hx; subst hx; exact ⟨x, by simp, rfl⟩
  · intro y hy0 x hx0 hm hxy
    rcases List.mem_append.1 hy0 with hy | hy
    · rcases List.mem_append.1 hx0 with hx | hx
      · exact find_append_of_some sl (h.first y hy x hx hm hxy)
      · have hx2 : x = sl := by simpa using hx
        rw [hx2] at hxy; exact absurd hxy (hno y hy)
    · have hy2 : y = sl := by simpa using hy
      rw [hy2] at hxy ⊢
      rcases List.mem_append.1 hx0 with hx | hx
      · exact absurd hxy (hpre x hx)
      · have hx2 : x = sl := by simpa using hx
        rw [hx2] at hm
        apply find_append_new
        · intro z hz
          have := hpre z hz
          simp [isMasterWith, this]
        · simp [isMasterWith, hm]
  · intro x hx
    exact ⟨List.mem_append_left _ (h.nsub x hx).1, (h.nsub x hx).2⟩
  · intro x hx hm
    rcases List.mem_append.1 hx with hx | hx
    · rcases h.ncov x hx hm with hU | hNm
      · exact Or.inl (List.mem_append_left _ hU)
      · exact Or.inr hNm
    · simp at hx; subst hx; left; simp
  · intro hnd x hx hU
    obtain ⟨hpre2, hsl⟩ := not_mem_of_nodup_append hnd
    rcases List.mem_append.1 hU with hU | hU
    · exact h.ndisj hpre2 x hx hU
    · simp at hU; subst hU; exact hsl (h.nsub x hx).1

/-- Case: `sl` is a leaf worker, or a submaster meeting a submaster, and the
unique list already holds `y` with the image of `sl`. -/
theorem UniqueInv.matched {obj : Nat → TSlave} {img : String} {pre U N : List Nat}
    (h : UniqueInv obj img pre U N) (sl y : Nat) (hy : y ∈ U)
    (hiy : (obj sl).fImage = (obj y).fImage) (N2 : List Nat)
    (hN : ((obj sl).fSlaveType = ESlaveType.kSlave ∧ N2 = N) ∨
      ((obj sl).fSlaveType = ESlaveType.kMaster ∧ (obj y).fSlaveType = ESlaveType.kMaster ∧
        N2 = N ++ [sl])) :
    UniqueInv obj img (pre ++ [sl]) U N2 := by
  refine
    { sub := fun x hx => ⟨List.mem_append_left _ (h.sub x hx).1, (h.sub x hx).2⟩
      nodup := h.nodup
      cover := ?_, first := ?_, nsub := ?_, ncov := ?_, ndisj := ?_ }
  · intro x hx hne
    rcases List.mem_append.1 hx with hx | hx
    · exact h.cover x hx hne
    · simp at hx; subst hx; exact ⟨y, hy, hiy.symm⟩
  · intro y2 hy2 x hx hm hxy
    rcases List.mem_append.1 hx with hx | hx
    · exact find_append_of_some sl (h.first y2 hy2 x hx hm hxy)
    · simp at hx; subst hx
      rcases hN with ⟨hs, _⟩ | ⟨_, hym, _⟩
      · rw [hs] at hm; cases hm
      · have he : y2 = y := unique_of_image_nodup h.nodup hy2 hy (hxy.symm.trans hiy)
        subst he
        exact find_append_of_some x (h.first y2 hy2 y2 (h.sub y2 hy2).1 hym rfl)
  · intro x hx
    rcases hN with ⟨_, rfl⟩ | ⟨hm, _, rfl⟩
    · exact ⟨List.mem_append_left _ (h.nsub x hx).1, (h.nsub x hx).2⟩
    · rcases List.mem_append.1 hx with hx | hx
      · exact ⟨List.mem_append_left _ (h.nsub x hx).1, (h.nsub x hx).2⟩
      · simp at hx; subst hx; exact ⟨by simp, hm⟩
  · intro x hx hm
    rcases List.mem_append.1 hx with hx | hx
    · rcases h.ncov x hx hm with hU | hNm
      · exact Or.inl hU
      · right
        rcases hN with ⟨_, rfl⟩ | ⟨_, _, rfl⟩
        · exact hNm
        · exact List.mem_append_left _ hNm
    · simp at hx; subst hx
      rcases hN with ⟨hs, _⟩ | ⟨_, _, rfl⟩
      · rw [hs] at hm; cases hm
      · right; simp
  · intro hnd x hx hU
    obtain ⟨hpre, hsl⟩ := not_mem_of_nodup_append hnd
    rcases hN with ⟨_, rfl⟩ | ⟨_, _, rfl⟩
    · exact h.ndisj hpre x hx hU
    · rcases List.mem_append.1 hx with hx | hx
      · exact h.ndisj hpre x hx hU
      · simp at hx; subst hx; exact hsl (h.sub x hU).1

/-- Case: the submaster `sl` replaces the leaf worker `y` of its image. -/
theorem UniqueInv.replaced {obj : Nat → TSlave} {img : String} {pre U N : List Nat}
    (h : UniqueInv obj img pre U N) (sl y : Nat) (hy : y ∈ U)
    (hiy : (obj sl).fImage = (obj y).fImage)
    (hm : (obj sl).fSlaveType = ESlaveType.kMaster)
    (hs : (obj y).fSlaveType = ESlaveType.kSlave) :
    UniqueInv obj img (pre ++ [sl]) ((U ++ [sl]).erase y) N := by
  have hUnd : U.Nodup := List.Nodup.of_map _ h.nodup
  have herase : (U ++ [sl]).erase y = U.erase y ++ [sl] := List.erase_append_left _ hy
  have hmemE : ∀ x, x ∈ U.erase y ↔ x ≠ y ∧ x ∈ U := fun x => hUnd.mem_erase_iff
  have hother : ∀ z ∈ U.erase y, (obj z).fImage ≠ (obj sl).fImage := by
    intro z hz he
    have hz2 := (hmemE z).1 hz
    exact hz2.1 (unique_of_image_nodup h.nodup hz2.2 hy (he.trans hiy))
  have hi : (obj sl).fImage ≠ img := hiy ▸ (h.sub y hy).2
  have hnomaster : ∀ x ∈ pre, isMasterWith obj (obj sl).fImage x = false := by
    intro x hx
    by_contra hc
    simp [isMasterWith] at hc
    have hf := h.first y hy x hx hc.1 (hc.2.trans hiy)
    have := master_of_first hf
    rw [hs] at this; cases this
  rw [herase]
  refine
    { sub := ?_, nodup := ?_, cover := ?_, first := ?_, nsub := ?_, ncov := ?_, ndisj := ?_ }
  · intro x hx
    rcases List.mem_append.1 hx with hx | hx
    · have hx2 := ((hmemE x).1 hx).2
      exact ⟨List.mem_append_left _ (h.sub x hx2).1, (h.sub x hx2).2⟩
    · simp at hx; subst hx; exact ⟨by simp, hi⟩
  · rw [List.map_append, List.nodup_append]
    refine ⟨(h.nodup.sublist ((List.erase_sublist y U).map _)), by simp, ?_⟩
    intro a ha hb
    simp at hb
    obtain ⟨z, hz, hze⟩ := List.mem_map.1 ha
    exact hother z hz (by rw [← hb]; exact hze)
  · intro x hx hne
    by_cases hxi : (obj x).fImage = (obj sl).fImage
    · exact ⟨sl, by simp, hxi.symm⟩
    · rcases List.mem_append.1 hx with hx | hx
      · obtain ⟨z, hz, hze⟩ := h.cover x hx hne
        refine ⟨z, List.mem_append_left _ ((hmemE z).2 ⟨?_, hz⟩), hze⟩
        intro hzy; subst hzy
        exact hxi (hze.symm.trans hiy.symm)
      · simp at hx; subst hx; exact absurd rfl hxi
  · intro y2 hy0 x hx0 hxm hxy
    rcases List.mem_append.1 hy0 with hy2 | hy2
    · have hy3 := (hmemE y2).1 hy2
      rcases List.mem_append.1 hx0 with hx | hx
      · exact find_append_of_some sl (h.first y2 hy3.2 x hx hxm hxy)
      · have hx2 : x = sl := by simpa using hx
        rw [hx2] at hxy; exact absurd hxy.symm (hother y2 hy2)
    · have hy3 : y2 = sl := by simpa using hy2
      rw [hy3]
      apply find_append_new _ hnomaster
      simp [isMasterWith, hm]
  · intro x hx
    exact ⟨List.mem_append_left _ (h.nsub x hx).1, (h.nsub x hx).2⟩
  · intro x hx hxm
    rcases List.mem_append.1 hx with hx | hx
    · rcases h.ncov x hx hxm with hU | hNm
      · left
        refine List.mem_append_left _ ((hmemE x).2 ⟨?_, hU⟩)
        intro hxy; subst hxy; rw [hs] at hxm; cases hxm
      · exact Or.inr hNm
    · simp at hx; subst hx; left; simp
  · intro hnd x hx hU
    obtain ⟨hpre2, hsl⟩ := not_mem_of_nodup_append hnd
    rcases List.mem_append.1 hU with hU | hU
    · exact h.ndisj hpre2 x hx ((hmemE x).1 hU).2
    · simp at hU; subst hU; exact hsl (h.nsub x hx).1

theorem SameCore.core_refl (p : TProof) : SameCore p p := by
  constructor <;> rfl

theorem SameCore.core_trans {p q r : TProof} (h1 : SameCore p q) (h2 : SameCore q r) :
    SameCore p r := by
  constructor
  · exact h2.fValid.trans h1.fValid
  · exact h2.fMasterServ.trans h1.fMasterServ
  · exact h2.kIsMaster.trans h1.kIsMaster
  · exact h2.kIsClient.trans h1.kIsClient
  · exact h2.fEndMaster.trans h1.fEndMaster
  · exact h2.fManager.trans h1.fManager
  · exact h2.fImage.trans h1.fImage
  · exact h2.fSendGroupView.trans h1.fSendGroupView
  · exact h2.obj.trans h1.obj
  · exact h2.fSlaves.trans h1.fSlaves
  · exact h2.fActiveSlaves.trans h1.fActiveSlaves
  · exact h2.fInactiveSlaves.trans h1.fInactiveSlaves
  · exact h2.fBadSlaves.trans h1.fBadSlaves
  · exact h2.fAllMonitor.trans h1.fAllMonitor
  · exact h2.fActiveMonitor.trans h1.fActiveMonitor
  · exact h2.fPlayer.trans h1.fPlayer
  · exact h2.markBadCalls.trans h1.markBadCalls

theorem addNonUnique_sameCore (p : TProof) (sl : Nat) : SameCore p (addNonUnique p sl) := by
  constructor <;> rfl

theorem addUnique_sameCore (p : TProof) (sl : Nat) (r : Option Nat) :
    SameCore p (addUnique p sl r) := by
  cases r <;> constructor <;> rfl

theorem findUniqueStep_sameCore (p : TProof) (sl : Nat) : SameCore p (findUniqueStep p sl) := by
  unfold findUniqueStep
  by_cases h1 : p.fImage = (p.obj sl).fImage
  · rw [if_pos h1]
    split_ifs
    · exact addNonUnique_sameCore p sl
    · exact SameCore.core_refl p
  · rw [if_neg h1]
    show SameCore p (if (scanUnique p.obj sl p.fUniqueSlaves).add = true then _ else _)
    split_ifs <;>
      first
      | exact (addNonUnique_sameCore p sl).core_trans (addUnique_sameCore _ _ _)
      | exact addUnique_sameCore _ _ _
      | exact addNonUnique_sameCore p sl
      | exact SameCore.core_refl p

theorem foldl_findUniqueStep_sameCore (l : List Nat) (p : TProof) :
    SameCore p (l.foldl findUniqueStep p) := by
  induction l generalizing p with
  | nil => exact SameCore.core_refl p
  | cons a l ih => exact (findUniqueStep_sameCore p a).core_trans (ih _)

theorem FindUniqueSlaves_sameCore (p : TProof) : SameCore p (FindUniqueSlaves p) := by
  have h := foldl_findUniqueStep_sameCore p.fActiveSlaves
    { p with
      fUniqueSlaves := []
      fUniqueMonitor := p.fUniqueMonitor.RemoveAll
      fAllUniqueSlaves := []
      fAllUniqueMonitor := p.fAllUniqueMonitor.RemoveAll
      fNonUniqueMasters := [] }
  constructor
  · exact h.fValid
  · exact h.fMasterServ
  · exact h.kIsMaster
  · exact h.kIsClient
  · exact h.fEndMaster
  · exact h.fManager
  · exact h.fImage
  · exact h.fSendGroupView
  · exact h.obj
  · exact h.fSlaves
  · exact h.fActiveSlaves
  · exact h.fInactiveSlaves
  · exact h.fBadSlaves
  · exact h.fAllMonitor
  · exact h.fActiveMonitor
  · exact h.fPlayer
  · exact h.markBadCalls

/-- One turn of the outer loop keeps the invariant. -/
theorem findUniqueStep_inv {obj : Nat → TSlave} {img : String} {pre : List Nat} {p : TProof}
    (ho : p.obj = obj) (hi : p.fImage = img)
    (h : UniqueInv obj img pre p.fUniqueSlaves p.fNonUniqueMasters) (sl : Nat) :
    UniqueInv obj img (pre ++ [sl]) (findUniqueStep p sl).fUniqueSlaves
      (findUniqueStep p sl).fNonUniqueMasters := by
  subst ho hi
  unfold findUniqueStep
  by_cases hown : p.fImage = (p.obj sl).fImage
  · rw [if_pos hown]
    cases hm : (p.obj sl).fSlaveType
    · simp only [if_true]
      exact h.own_image sl hown.symm _ (Or.inr ⟨hm, rfl⟩)
    · simp only [reduceCtorEq, if_false]
      exact h.own_image sl hown.symm _ (Or.inl ⟨hm, rfl⟩)
  · rw [if_neg hown]
    rcases scanUnique_cases p.obj sl p.fUniqueSlaves with
      ⟨hno, hs⟩ | ⟨y, hy, hiy, ⟨hm, hys, hs⟩ | ⟨hm, hym, hs⟩ | ⟨hsl, hs⟩⟩
    · simp only [hs]
      exact h.fresh_image sl (fun e => hown e.symm) hno
    · simp only [hs]
      exact h.replaced sl y hy hiy hm hys
    · simp only [hs]
      exact h.matched sl y hy hiy _ (Or.inr ⟨hm, hym, rfl⟩)
    · simp only [hs]
      exact h.matched sl y hy hiy _ (Or.inl ⟨hsl, rfl⟩)

/-- The invariant holds, for the whole active list, when `FindUniqueSlaves`
returns. -/
theorem FindUniqueSlaves_inv (p : TProof) :
    UniqueInv p.obj p.fImage p.fActiveSlaves (FindUniqueSlaves p).fUniqueSlaves
      (FindUniqueSlaves p).fNonUniqueMasters := by
  let p0 : TProof :=
    { p with
      fUniqueSlaves := []
      fUniqueMonitor := p.fUniqueMonitor.RemoveAll
      fAllUniqueSlaves := []
      fAllUniqueMonitor := p.fAllUniqueMonitor.RemoveAll
      fNonUniqueMasters := [] }
  have key := foldl_prefix_inv findUniqueStep
    (fun pre q => q.obj = p.obj ∧ q.fImage = p.fImage ∧
      UniqueInv p.obj p.fImage pre q.fUniqueSlaves q.fNonUniqueMasters)
    (by
      intro pre q a ⟨ho, hi, hinv⟩
      exact ⟨(findUniqueStep_sameCore q a).obj.trans ho,
        (findUniqueStep_sameCore q a).fImage.trans hi, findUniqueStep_inv ho hi hinv a⟩)
    p.fActiveSlaves [] p0
    ⟨rfl, rfl, by
      refine { sub := ?_, nodup := ?_, cover := ?_, first := ?_, nsub := ?_, ncov := ?_, ndisj := ?_ }
        <;> simp [p0]⟩
  simpa [FindUniqueSlaves] using key.2.2

/-! ## FindUniqueSlaves: the claims -/

theorem countP_image_eq_one {obj : Nat → TSlave} {U : List Nat} {i : String}
    (hnd : (U.map (fun x => (obj x).fImage)).Nodup) (hex : ∃ y ∈ U, (obj y).fImage = i) :
    U.countP (fun w => decide ((obj w).fImage = i)) = 1 := by
  have hmem : i ∈ U.map (fun x => (obj x).fImage) := by
    obtain ⟨y, hy, he⟩ := hex
    exact List.mem_map.2 ⟨y, hy, he⟩
  have h1 := List.count_eq_one_of_mem hnd hmem
  rw [List.count, List.countP_map] at h1
  rw [← h1]
  apply List.countP_congr
  intro x _
  simp [Function.comp]

/-- C1, as stated, fails: an active worker may carry the image of the
coordinator itself, and such workers are skipped, so that image has no
representative in the unique list. -/
theorem C1_counterexample :
    (∃ w ∈ sharedImageSession.fActiveSlaves, sharedImageSession.image w = "nfs") ∧
    (FindUniqueSlaves sharedImageSession).fUniqueSlaves.countP
      (fun w => decide (sharedImageSession.image w = "nfs")) = 0 := by
  refine ⟨⟨0, by decide, by decide⟩, by decide⟩

/-- C1, amended: for every image other than the image of the coordinator that
at least one active worker carries, after `FindUniqueSlaves` the unique list
holds exactly one worker with that image, and this worker is a submaster
whenever an active submaster has that image. -/
theorem C1_one_representative_per_foreign_image (p : TProof) (i : String)
    (hi : i ≠ p.fImage) (hex : ∃ w ∈ p.fActiveSlaves, p.image w = i) :
    (FindUniqueSlaves p).fUniqueSlaves.countP (fun w => decide (p.image w = i)) = 1 ∧
    ((∃ w ∈ p.fActiveSlaves, p.isMaster w = true ∧ p.image w = i) →
      ∀ u ∈ (FindUniqueSlaves p).fUniqueSlaves, p.image u = i → p.isMaster u = true) := by
  have inv := FindUniqueSlaves_inv p
  obtain ⟨w, hw, hwi⟩ := hex
  have hwi2 : (p.obj w).fImage = i := hwi
  constructor
  · apply countP_image_eq_one inv.nodup
    obtain ⟨y, hy, hye⟩ := inv.cover w hw (by rw [hwi2]; exact hi)
    exact ⟨y, hy, hye.trans hwi2⟩
  · rintro ⟨m, hm, hmm, hmi⟩ u hu hui
    have hmm2 : (p.obj m).fSlaveType = ESlaveType.kMaster := by
      simpa [TProof.isMaster] using hmm
    have hf := inv.first u hu m hm hmm2 (by
      show (p.obj m).fImage = (p.obj u).fImage
      exact (show (p.obj m).fImage = i from hmi).trans (show (p.obj u).fImage = i from hui).symm)
    simpa [TProof.isMaster] using master_of_first hf

/-- A use of the amended C1 on the two-level cluster, for the image `a`. -/
theorem C1_witness :
    (FindUniqueSlaves clusterSession).fUniqueSlaves.countP
        (fun w => decide (clusterSession.image w = "a")) = 1 :=
  (C1_one_representative_per_foreign_image clusterSession "a" (by decide)
    ⟨1, by decide, by decide⟩).1

/-- C6: after `FindUniqueSlaves` the images of the members of the unique list
are pairwise different (no two distinct members share an image, and no member
occurs twice), and every member of the unique list is an active worker. -/
theorem C6_unique_at_most_one_per_image (p : TProof) :
    ((FindUniqueSlaves p).fUniqueSlaves.map p.image).Nodup ∧
    (∀ a ∈ (FindUniqueSlaves p).fUniqueSlaves, ∀ b ∈ (FindUniqueSlaves p).fUniqueSlaves,
      a ≠ b → p.image a ≠ p.image b) ∧
    (∀ u ∈ (FindUniqueSlaves p).fUniqueSlaves, u ∈ p.fActiveSlaves) := by
  have inv := FindUniqueSlaves_inv p
  refine ⟨inv.nodup, ?_, fun u hu => (inv.sub u hu).1⟩
  intro a ha b hb hab he
  exact hab (unique_of_image_nodup inv.nodup ha hb he)

/-- C7: for an active list without repetition, after `FindUniqueSlaves` the
non-unique masters are exactly the active submasters that are not in the
unique list, and a member of the unique list whose image some active
submaster carries is the first submaster with that image in the order of
the active list. -/
theorem C7_non_unique_masters (p : TProof) (hnd : p.fActiveSlaves.Nodup) :
    (∀ x, x ∈ (FindUniqueSlaves p).fNonUniqueMasters ↔
      (x ∈ p.fActiveSlaves ∧ p.isMaster x = true ∧ x ∉ (FindUniqueSlaves p).fUniqueSlaves)) ∧
    (∀ u ∈ (FindUniqueSlaves p).fUniqueSlaves, ∀ x ∈ p.fActiveSlaves,
      p.isMaster x = true → p.image x = p.image u →
      p.fActiveSlaves.find? (fun s => p.isMaster s && decide (p.image s = p.image u)) = some u) := by
  have inv := FindUniqueSlaves_inv p
  constructor
  · intro x
    constructor
    · intro hx
      exact ⟨(inv.nsub x hx).1, by simpa [TProof.isMaster] using (inv.nsub x hx).2,
        inv.ndisj hnd x hx⟩
    · rintro ⟨hx, hm, hU⟩
      rcases inv.ncov x hx (by simpa [TProof.isMaster] using hm) with h | h
      · exact absurd h hU
      · exact h
  · intro u hu x hx hm hxu
    have hf := inv.first u hu x hx (by simpa [TProof.isMaster] using hm) hxu
    have hfun : (fun s => p.isMaster s && decide (p.image s = p.image u)) =
        isMasterWith p.obj (p.obj u).fImage := by
      funext s
      simp [isMasterWith, TProof.isMaster, TProof.image, Bool.decide_and]
    rw [hfun]
    exact hf

/-- A use of C7 on the two-level cluster, for the submaster at address 3. -/
theorem C7_witness :
    clusterSession.fActiveSlaves.Nodup ∧
    (3 ∈ (FindUniqueSlaves clusterSession).fNonUniqueMasters ↔
      (3 ∈ clusterSession.fActiveSlaves ∧ clusterSession.isMaster 3 = true ∧
        3 ∉ (FindUniqueSlaves clusterSession).fUniqueSlaves)) :=
  ⟨by decide, (C7_non_unique_masters clusterSession (by decide)).1 3⟩

/-! ## Lemmas on MarkBad -/

/-- Members of the all-unique list are active workers. -/
theorem FindUniqueSlaves_allUnique_sub (p : TProof) :
    ∀ x ∈ (FindUniqueSlaves p).fAllUniqueSlaves, x ∈ p.fActiveSlaves := by
  have key := foldl_prefix_inv findUniqueStep
    (fun pre q => ∀ x ∈ q.fAllUniqueSlaves, x ∈ pre)
    (by
      intro pre q a hinv x hx
      simp only [findUniqueStep] at hx
      have hadd : ∀ (r : TProof) (o : Option Nat), (∀ z ∈ r.fAllUniqueSlaves, z ∈ pre ++ [a]) →
          ∀ z ∈ (addUnique r a o).fAllUniqueSlaves, z ∈ pre ++ [a] := by
        intro r o hr z hz
        cases o with
        | none =>
          simp only [addUnique] at hz
          rcases List.mem_append.1 hz with hz | hz
          · exact hr z hz
          · exact List.mem_append_right _ hz
        | some y =>
          simp only [addUnique] at hz
          rcases List.mem_append.1 (List.mem_of_mem_erase hz) with hz | hz
          · exact hr z hz
          · exact List.mem_append_right _ hz
      have hnon : ∀ z ∈ (addNonUnique q a).fAllUniqueSlaves, z ∈ pre ++ [a] := by
        intro z hz
        simp only [addNonUnique] at hz
        rcases List.mem_append.1 hz with hz | hz
        · exact List.mem_append_left _ (hinv z hz)
        · exact List.mem_append_right _ hz
      have hq : ∀ z ∈ q.fAllUniqueSlaves, z ∈ pre ++ [a] :=
        fun z hz => List.mem_append_left _ (hinv z hz)
      split_ifs at hx <;>
        first
        | exact hadd _ _ hnon x hx
        | exact hadd _ _ hq x hx
        | exact hnon x hx
        | exact hq x hx)
    p.fActiveSlaves []
    { p with
      fUniqueSlaves := []
      fUniqueMonitor := p.fUniqueMonitor.RemoveAll
      fAllUniqueSlaves := []
      fAllUniqueMonitor := p.fAllUniqueMonitor.RemoveAll
      fNonUniqueMasters := [] }
    (by simp)
  simpa [FindUniqueSlaves] using key

theorem packetizerMarkBad_sameLists (p : TProof) (w : Nat) :
    (packetizerMarkBad p w).fValid = p.fValid ∧
    (packetizerMarkBad p w).fMasterServ = p.fMasterServ ∧
    (packetizerMarkBad p w).kIsMaster = p.kIsMaster ∧
    (packetizerMarkBad p w).kIsClient = p.kIsClient ∧
    (packetizerMarkBad p w).fEndMaster = p.fEndMaster ∧
    (packetizerMarkBad p w).fManager = p.fManager ∧
    (packetizerMarkBad p w).fImage = p.fImage ∧
    (packetizerMarkBad p w).obj = p.obj ∧
    (packetizerMarkBad p w).fSlaves = p.fSlaves ∧
    (packetizerMarkBad p w).fActiveSlaves = p.fActiveSlaves ∧
    (packetizerMarkBad p w).fInactiveSlaves = p.fInactiveSlaves ∧
    (packetizerMarkBad p w).fBadSlaves = p.fBadSlaves ∧
    (packetizerMarkBad p w).markBadCalls = p.markBadCalls := by
  unfold packetizerMarkBad
  split
  · simp
  · split <;> simp

theorem markBadPre_fields (p : TProof) (w : Nat) (reason : Option String) :
    (markBadPre p w reason).fValid = p.fValid ∧
    (markBadPre p w reason).fMasterServ = p.fMasterServ ∧
    (markBadPre p w reason).kIsMaster = p.kIsMaster ∧
    (markBadPre p w reason).kIsClient = p.kIsClient ∧
    (markBadPre p w reason).fEndMaster = p.fEndMaster ∧
    (markBadPre p w reason).fManager = p.fManager ∧
    (markBadPre p w reason).fImage = p.fImage ∧
    (markBadPre p w reason).obj = p.obj ∧
    (markBadPre p w reason).fSlaves = p.fSlaves ∧
    (markBadPre p w reason).fActiveSlaves = p.fActiveSlaves.erase w ∧
    (markBadPre p w reason).fInactiveSlaves = p.fInactiveSlaves ∧
    (markBadPre p w reason).fBadSlaves = p.fBadSlaves ∧
    (markBadPre p w reason).markBadCalls = p.markBadCalls ++ [some w] := by
  unfold markBadPre
  have h := packetizerMarkBad_sameLists { p with markBadCalls := p.markBadCalls ++ [some w] } w
  simp only [] at h ⊢
  split_ifs <;> simp [h]

/-- `MarkBad` of a valid session on a worker, unfolded once. -/
theorem MarkBad_valid (p : TProof) (w : Nat) (reason : Option String) (hv : p.fValid = true) :
    MarkBad p (some w) reason =
      (let p2 := FindUniqueSlaves (markBadPre p w reason)
       let p3 : TProof :=
        { p2 with
          fAllMonitor := p2.fAllMonitor.Remove w
          fActiveMonitor := p2.fActiveMonitor.Remove w
          fSendGroupView := true }
       if p3.fMasterServ = true then
        if reason = some kPROOF_TerminateWorker then
          { p3 with
            fSlaves := p3.fSlaves.erase w
            fBadSlaves := p3.fBadSlaves.erase w
            fActiveSlaves := p3.fActiveSlaves.erase w
            fInactiveSlaves := p3.fInactiveSlaves.erase w
            fUniqueSlaves := p3.fUniqueSlaves.erase w
            fAllUniqueSlaves := p3.fAllUniqueSlaves.erase w
            fNonUniqueMasters := p3.fNonUniqueMasters.erase w
            obj := closeSlave p3.obj w }
        else
          { p3 with
            fBadSlaves := p3.fBadSlaves ++ [w]
            obj := closeSlave p3.obj w }
       else
        let p4 : TProof := { p3 with fSlaves := p3.fSlaves.erase w }
        if p4.fManager = true then ShutdownSession p4 else p4) := by
  simp only [MarkBad, hv, markBadPre]
  rfl

theorem MarkBad_badStep (p : TProof) (w : Nat) (reason : Option String)
    (hv : p.fValid = true) (hm : p.fMasterServ = true)
    (hr : reason ≠ some kPROOF_TerminateWorker) :
    BadStep p (MarkBad p (some w) reason) w := by
  have hf := markBadPre_fields p w reason
  have hc := FindUniqueSlaves_sameCore (markBadPre p w reason)
  have hinv := FindUniqueSlaves_inv (markBadPre p w reason)
  have hall := FindUniqueSlaves_allUnique_sub (markBadPre p w reason)
  obtain ⟨f1, f2, f3, f4, f5, f6, f7, f8, f9, f10, f11, f12, f13⟩ := hf
  rw [f8, f7, f10] at hinv
  rw [f10] at hall
  have hm2 : (FindUniqueSlaves (markBadPre p w reason)).fMasterServ = true := by
    rw [hc.fMasterServ, f2, hm]
  rw [MarkBad_valid p w reason hv]
  simp only [hm2, if_true, if_neg hr]
  constructor
  · show (FindUniqueSlaves (markBadPre p w reason)).fValid = true
    rw [hc.fValid, f1, hv]
  · rfl
  · exact hc.kIsMaster.trans f3
  · exact hc.kIsClient.trans f4
  · exact hc.fEndMaster.trans f5
  · exact hc.fManager.trans f6
  · exact hc.fImage.trans f7
  · show closeSlave (FindUniqueSlaves (markBadPre p w reason)).obj w = closeSlave p.obj w
    rw [hc.obj, f8]
  · exact hc.fSlaves.trans f9
  · exact hc.fActiveSlaves.trans f10
  · exact hc.fInactiveSlaves.trans f11
  · show (FindUniqueSlaves (markBadPre p w reason)).fBadSlaves ++ [w] = p.fBadSlaves ++ [w]
    rw [hc.fBadSlaves, f12]
  · exact hc.markBadCalls.trans f13
  · exact hinv
  · exact hall

theorem MarkBad_termStep (p : TProof) (w : Nat)
    (hv : p.fValid = true) (hm : p.fMasterServ = true) :
    TermStep p (MarkBad p (some w) (some kPROOF_TerminateWorker)) w := by
  have hf := markBadPre_fields p w (some kPROOF_TerminateWorker)
  have hc := FindUniqueSlaves_sameCore (markBadPre p w (some kPROOF_TerminateWorker))
  have hinv := FindUniqueSlaves_inv (markBadPre p w (some kPROOF_TerminateWorker))
  have hall := FindUniqueSlaves_allUnique_sub (markBadPre p w (some kPROOF_TerminateWorker))
  obtain ⟨f1, f2, f3, f4, f5, f6, f7, f8, f9, f10, f11, f12, f13⟩ := hf
  rw [f8, f7, f10] at hinv
  rw [f10] at hall
  have hm2 : (FindUniqueSlaves (markBadPre p w (some kPROOF_TerminateWorker))).fMasterServ
      = true := by
    rw [hc.fMasterServ, f2, hm]
  rw [MarkBad_valid p w _ hv]
  simp only [hm2, if_true]
  constructor
  · show (FindUniqueSlaves (markBadPre p w _)).fValid = true
    rw [hc.fValid, f1, hv]
  · rfl
  · show (FindUniqueSlaves (markBadPre p w _)).fSlaves.erase w = _
    rw [hc.fSlaves, f9]
  · show (FindUniqueSlaves (markBadPre p w _)).fActiveSlaves.erase w = _
    rw [hc.fActiveSlaves, f10]
  · show (FindUniqueSlaves (markBadPre p w _)).fInactiveSlaves.erase w = _
    rw [hc.fInactiveSlaves, f11]
  · show (FindUniqueSlaves (markBadPre p w _)).fBadSlaves.erase w = _
    rw [hc.fBadSlaves, f12]
  · exact hc.markBadCalls.trans f13
  · intro x hx
    exact (hinv.sub x (List.mem_of_mem_erase hx)).1
  · intro x hx
    exact (hinv.nsub x (List.mem_of_mem_erase hx)).1
  · intro x hx
    exact hall x (List.mem_of_mem_erase hx)

theorem not_mem_erase_of_count_le_one {l : List Nat} {w : Nat} (h : l.count w ≤ 1) :
    w ∉ l.erase w := by
  rw [← List.count_eq_zero, List.count_erase_self]
  omega

/-! ## MarkBad: the claims -/

/-- C2, as stated, fails: a worker that is in the inactive list when it is
marked bad for a reason other than planned termination is still in the
inactive list afterwards. -/
theorem C2_counterexample :
    idleSession.fValid = true ∧ idleSession.fMasterServ = true ∧
    some "worker lost" ≠ some kPROOF_TerminateWorker ∧
    4 ∈ idleSession.fSlaves ∧
    4 ∈ (MarkBad idleSession (some 4) (some "worker lost")).fBadSlaves ∧
    4 ∈ (MarkBad idleSession (some 4) (some "worker lost")).fInactiveSlaves := by
  decide

/-- C2, amended: on a valid master session, `MarkBad(w, reason)` with a
reason (possibly null) other than the planned-termination sentinel, for a
worker that occurs at most once in the active list, leaves `w` in the bad
list and out of the active, unique, all-unique and non-unique-masters lists,
and leaves the list of all workers and the inactive list as they were. -/
theorem C2_markBad_other_reason (p : TProof) (w : Nat) (reason : Option String)
    (hv : p.fValid = true) (hm : p.fMasterServ = true)
    (hr : reason ≠ some kPROOF_TerminateWorker) (hw : p.fActiveSlaves.count w ≤ 1) :
    w ∈ (MarkBad p (some w) reason).fBadSlaves ∧
    w ∉ (MarkBad p (some w) reason).fActiveSlaves ∧
    w ∉ (MarkBad p (some w) reason).fUniqueSlaves ∧
    w ∉ (MarkBad p (some w) reason).fAllUniqueSlaves ∧
    w ∉ (MarkBad p (some w) reason).fNonUniqueMasters ∧
    (MarkBad p (some w) reason).fSlaves = p.fSlaves ∧
    (MarkBad p (some w) reason).fInactiveSlaves = p.fInactiveSlaves := by
  have h := MarkBad_badStep p w reason hv hm hr
  have hne := not_mem_erase_of_count_le_one hw
  refine ⟨?_, ?_, ?_, ?_, ?_, h.fSlaves, h.fInactiveSlaves⟩
  · rw [h.fBadSlaves]; simp
  · rw [h.fActiveSlaves]; exact hne
  · exact fun hx => hne (h.unique.sub w hx).1
  · exact fun hx => hne (h.allUnique w hx)
  · exact fun hx => hne (h.unique.nsub w hx).1

/-- A use of the amended C2: the submaster at address 2 of the two-level
cluster is lost. -/
theorem C2_witness :
    2 ∈ (MarkBad clusterSession (some 2) (some "worker lost")).fBadSlaves ∧
    2 ∉ (MarkBad clusterSession (some 2) (some "worker lost")).fActiveSlaves ∧
    2 ∉ (MarkBad clusterSession (some 2) (some "worker lost")).fUniqueSlaves ∧
    2 ∉ (MarkBad clusterSession (some 2) (some "worker lost")).fAllUniqueSlaves ∧
    2 ∉ (MarkBad clusterSession (some 2) (some "worker lost")).fNonUniqueMasters ∧
    (MarkBad clusterSession (some 2) (some "worker lost")).fSlaves = clusterSession.fSlaves ∧
    (MarkBad clusterSession (some 2) (some "worker lost")).fInactiveSlaves =
      clusterSession.fInactiveSlaves :=
  C2_markBad_other_reason clusterSession 2 (some "worker lost") (by decide) (by decide)
    (by decide) (by decide)

/-- C3, as stated, fails: on a valid session that is not a master, `MarkBad`
with the planned-termination sentinel takes the client branch, which removes
the worker from the list of all workers only, so a worker of the inactive
list stays there. -/
theorem C3_counterexample :
    clientSession.fValid = true ∧ 0 ∈ clientSession.fSlaves ∧
    0 ∈ (MarkBad clientSession (some 0) (some kPROOF_TerminateWorker)).fInactiveSlaves := by
  decide

/-- C3, amended: on a valid master session, `MarkBad(w, sentinel)` for a
worker that occurs at most once in each of the lists of all, active, inactive
and bad workers leaves `w` in none of the seven registry lists. -/
theorem C3_markBad_planned_termination (p : TProof) (w : Nat)
    (hv : p.fValid = true) (hm : p.fMasterServ = true)
    (hall : p.fSlaves.count w ≤ 1) (hact : p.fActiveSlaves.count w ≤ 1)
    (hina : p.fInactiveSlaves.count w ≤ 1) (hbad : p.fBadSlaves.count w ≤ 1) :
    w ∉ (MarkBad p (some w) (some kPROOF_TerminateWorker)).fSlaves ∧
    w ∉ (MarkBad p (some w) (some kPROOF_TerminateWorker)).fActiveSlaves ∧
    w ∉ (MarkBad p (some w) (some kPROOF_TerminateWorker)).fInactiveSlaves ∧
    w ∉ (MarkBad p (some w) (some kPROOF_TerminateWorker)).fUniqueSlaves ∧
    w ∉ (MarkBad p (some w) (some kPROOF_TerminateWorker)).fAllUniqueSlaves ∧
    w ∉ (MarkBad p (some w) (some kPROOF_TerminateWorker)).fNonUniqueMasters ∧
    w ∉ (MarkBad p (some w) (some kPROOF_TerminateWorker)).fBadSlaves := by
  have h := MarkBad_termStep p w hv hm
  have hne := not_mem_erase_of_count_le_one hact
  refine ⟨?_, ?_, ?_, ?_, ?_, ?_, ?_⟩
  · rw [h.fSlaves]; exact not_mem_erase_of_count_le_one hall
  · rw [h.fActiveSlaves]; exact fun hx => hne (List.mem_of_mem_erase hx)
  · rw [h.fInactiveSlaves]; exact not_mem_erase_of_count_le_one hina
  · exact fun hx => hne (h.unique w hx)
  · exact fun hx => hne (h.allUnique w hx)
  · exact fun hx => hne (h.nonUnique w hx)
  · rw [h.fBadSlaves]; exact not_mem_erase_of_count_le_one hbad

/-- A use of the amended C3: the submaster at address 3 of the two-level
cluster is asked to terminate. -/
theorem C3_witness :
    3 ∉ (MarkBad clusterSession (some 3) (some kPROOF_TerminateWorker)).fSlaves ∧
    3 ∉ (MarkBad clusterSession (some 3) (some kPROOF_TerminateWorker)).fActiveSlaves ∧
    3 ∉ (MarkBad clusterSession (some 3) (some kPROOF_TerminateWorker)).fInactiveSlaves ∧
    3 ∉ (MarkBad clusterSession (some 3) (some kPROOF_TerminateWorker)).fUniqueSlaves ∧
    3 ∉ (MarkBad clusterSession (some 3) (some kPROOF_TerminateWorker)).fAllUniqueSlaves ∧
    3 ∉ (MarkBad clusterSession (some 3) (some kPROOF_TerminateWorker)).fNonUniqueMasters ∧
    3 ∉ (MarkBad clusterSession (some 3) (some kPROOF_TerminateWorker)).fBadSlaves :=
  C3_markBad_planned_termination clusterSession 3 (by decide) (by decide) (by decide)
    (by decide) (by decide) (by decide)

theorem MarkBad_null_player (p : TProof) (w : Nat) :
    (MarkBad p (some w) none).fPlayer = p.fPlayer := by
  by_cases hv : p.fValid = true
  · have hc := FindUniqueSlaves_sameCore (markBadPre p w none)
    have hpre : (markBadPre p w none).fPlayer = p.fPlayer := by simp [markBadPre]
    have hpl := hc.fPlayer.trans hpre
    rw [MarkBad_valid p w none hv]
    simp only []
    split_ifs <;> exact hpl
  · have hv2 : p.fValid = false := by simpa using hv
    simp [MarkBad, hv2]

/-- C4 at the failing input: `MarkBad(w, reason)` with a null reason never
sends the Work Planner a reassignment request; on a valid master session
with a packetizer it marks the worker bad all the same.  On that session a
non-null reason other than the sentinel produces exactly one request for the
worker, and the sentinel none. -/
theorem C4_null_reason_no_reassignment :
    (∀ (p : TProof) (w : Nat),
      (MarkBad p (some w) none).reassignRequests = p.reassignRequests) ∧
    clusterSession.fValid = true ∧ clusterSession.fMasterServ = true ∧
    clusterSession.fPlayer = some { fPacketizer := some { markBadRequests := [] } } ∧
    2 ∈ (MarkBad clusterSession (some 2) none).fBadSlaves ∧
    (MarkBad clusterSession (some 2) none).reassignRequests = [] ∧
    (MarkBad clusterSession (some 2) (some "worker lost")).reassignRequests = [2] ∧
    (MarkBad clusterSession (some 2) (some kPROOF_TerminateWorker)).reassignRequests = [] := by
  refine ⟨?_, by decide⟩
  intro p w
  unfold TProof.reassignRequests
  rw [MarkBad_null_player]

/-! ## Broadcast -/

theorem MarkBad_calls (p : TProof) (wrk : Option Nat) (reason : Option String) :
    (MarkBad p wrk reason).markBadCalls = p.markBadCalls ++ [wrk] := by
  by_cases hv : p.fValid = true
  · cases wrk with
    | none => simp [MarkBad, hv]
    | some w =>
      have hf := markBadPre_fields p w reason
      have hc := FindUniqueSlaves_sameCore (markBadPre p w reason)
      have hcalls := hc.markBadCalls.trans hf.2.2.2.2.2.2.2.2.2.2.2.2
      rw [MarkBad_valid p w reason hv]
      simp only []
      split_ifs <;> exact hcalls
  · have hv2 : p.fValid = false := by simpa using hv
    simp [MarkBad, hv2]

theorem MarkBad_obj_cases (p : TProof) (w : Nat) (reason : Option String) :
    (MarkBad p (some w) reason).obj = p.obj ∨
    (MarkBad p (some w) reason).obj = closeSlave p.obj w := by
  by_cases hv : p.fValid = true
  · have hf := markBadPre_fields p w reason
    have hc := FindUniqueSlaves_sameCore (markBadPre p w reason)
    have hobj : (FindUniqueSlaves (markBadPre p w reason)).obj = p.obj :=
      hc.obj.trans hf.2.2.2.2.2.2.2.1
    rw [MarkBad_valid p w reason hv]
    simp only []
    split_ifs
    · right; show closeSlave _ w = _; rw [hobj]
    · right; show closeSlave _ w = _; rw [hobj]
    · left; exact hobj
    · left; exact hobj
  · have hv2 : p.fValid = false := by simpa using hv
    left
    simp [MarkBad, hv2]

theorem closeSlave_other (obj : Nat → TSlave) (w x : Nat) (h : x ≠ w) :
    closeSlave obj w x = obj x := by
  simp [closeSlave, Function.update, h]

theorem closeSlave_self (obj : Nat → TSlave) (w : Nat) :
    (closeSlave obj w w).fValid = false := by
  simp [closeSlave]

theorem MarkBad_obj_other (p : TProof) (w : Nat) (reason : Option String) (x : Nat)
    (h : x ≠ w) : (MarkBad p (some w) reason).obj x = p.obj x := by
  rcases MarkBad_obj_cases p w reason with h1 | h1
  · rw [h1]
  · rw [h1, closeSlave_other _ _ _ h]

theorem MarkBad_valid_mono (p : TProof) (w : Nat) (reason : Option String) (x : Nat)
    (h : ((MarkBad p (some w) reason).obj x).fValid = true) : (p.obj x).fValid = true := by
  by_cases hx : x = w
  · subst hx
    rcases MarkBad_obj_cases p x reason with h1 | h1
    · rwa [h1] at h
    · rw [h1, closeSlave_self] at h; cases h
  · rwa [MarkBad_obj_other p w reason x hx] at h

theorem broadcastLoop_fail (send : Nat → Bool) (sl : Nat) (rest : List Nat) (p : TProof)
    (n : Int) (hv : (p.obj sl).fValid = true) (hs : send sl = false) :
    broadcastLoop send (sl :: rest) p n =
      broadcastLoop send rest (MarkBad p (some sl) (some "could not broadcast request")) n := by
  simp [broadcastLoop, hv, hs]

theorem broadcastLoop_sent (send : Nat → Bool) (sl : Nat) (rest : List Nat) (p : TProof)
    (n : Int) (hv : (p.obj sl).fValid = true) (hs : send sl = true) :
    broadcastLoop send (sl :: rest) p n = broadcastLoop send rest p (n + 1) := by
  simp [broadcastLoop, hv, hs]

theorem broadcastLoop_skip (send : Nat → Bool) (sl : Nat) (rest : List Nat) (p : TProof)
    (n : Int) (hv : (p.obj sl).fValid = false) :
    broadcastLoop send (sl :: rest) p n = broadcastLoop send rest p n := by
  simp [broadcastLoop, hv]

/-- The loop of `Broadcast`: the count it returns, the calls of `MarkBad` it
makes, and the validity of the workers afterwards. -/
theorem broadcastLoop_spec (send : Nat → Bool) :
    ∀ (l : List Nat) (p : TProof) (n : Int),
      (broadcastLoop send l p n).2 =
        n + (l.countP (fun w => (p.obj w).fValid && send w) : Nat) ∧
      ∃ calls, (broadcastLoop send l p n).1.markBadCalls = p.markBadCalls ++ calls ∧
        ∀ x, x ∈ calls ↔ ∃ w ∈ l, x = some w ∧ (p.obj w).fValid = true ∧ send w = false
  | [], p, n => by
    refine ⟨by simp [broadcastLoop], [], by simp [broadcastLoop], by simp⟩
  | sl :: rest, p, n => by
    by_cases hv : (p.obj sl).fValid = true
    · by_cases hs : send sl = false
      · obtain ⟨ih1, calls, ih2, ih3⟩ := broadcastLoop_spec send rest
          (MarkBad p (some sl) (some "could not broadcast request")) n
        have hsame : ∀ w, send w = true →
            ((MarkBad p (some sl) (some "could not broadcast request")).obj w).fValid
              = (p.obj w).fValid := by
          intro w hw
          have hne : w ≠ sl := by
            intro he; rw [he, hs] at hw; cases hw
          rw [MarkBad_obj_other p sl _ w hne]
        have hcount : rest.countP (fun w =>
              ((MarkBad p (some sl) (some "could not broadcast request")).obj w).fValid && send w)
            = rest.countP (fun w => (p.obj w).fValid && send w) := by
          apply List.countP_congr
          intro w _
          by_cases hw : send w = true
          · simp [hsame w hw]
          · have hw2 : send w = false := by simpa using hw
            simp [hw2]
        refine ⟨?_, some sl :: calls, ?_, ?_⟩
        · rw [broadcastLoop_fail send sl rest p n hv hs, ih1, hcount]
          simp [List.countP_cons, hs]
        · rw [broadcastLoop_fail send sl rest p n hv hs, ih2, MarkBad_calls]
          simp
        · intro x
          constructor
          · intro hx
            rcases List.mem_cons.1 hx with hx | hx
            · exact ⟨sl, by simp, hx, hv, hs⟩
            · obtain ⟨w, hw, hxw, hwv, hws⟩ := (ih3 x).1 hx
              exact ⟨w, List.mem_cons_of_mem _ hw, hxw, MarkBad_valid_mono p sl _ w hwv, hws⟩
          · rintro ⟨w, hw, hxw, hwv, hws⟩
            by_cases hwsl : w = sl
            · rw [hxw, hwsl]; simp
            · rcases List.mem_cons.1 hw with hw | hw
              · exact absurd hw hwsl
              · apply List.mem_cons_of_mem
                refine (ih3 x).2 ⟨w, hw, hxw, ?_, hws⟩
                rw [MarkBad_obj_other p sl _ w hwsl]; exact hwv
      · have hs2 : send sl = true := by simpa using hs
        obtain ⟨ih1, calls, ih2, ih3⟩ := broadcastLoop_spec send rest p (n + 1)
        refine ⟨?_, calls, ?_, ?_⟩
        · rw [broadcastLoop_sent send sl rest p n hv hs2, ih1]
          simp [List.countP_cons, hv, hs2]
          ring
        · rw [broadcastLoop_sent send sl rest p n hv hs2]
          exact ih2
        · intro x
          rw [ih3 x]
          constructor
          · rintro ⟨w, hw, h⟩
            exact ⟨w, List.mem_cons_of_mem _ hw, h⟩
          · rintro ⟨w, hw, hxw, hwv, hws⟩
            rcases List.mem_cons.1 hw with hw | hw
            · rw [hw, hs2] at hws; cases hws
            · exact ⟨w, hw, hxw, hwv, hws⟩
    · have hv2 : (p.obj sl).fValid = false := by simpa using hv
      obtain ⟨ih1, calls, ih2, ih3⟩ := broadcastLoop_spec send rest p n
      refine ⟨?_, calls, ?_, ?_⟩
      · rw [broadcastLoop_skip send sl rest p n hv2, ih1]
        simp [List.countP_cons, hv2]
      · rw [broadcastLoop_skip send sl rest p n hv2]
        exact ih2
      · intro x
        rw [ih3 x]
        constructor
        · rintro ⟨w, hw, h⟩
          exact ⟨w, List.mem_cons_of_mem _ hw, h⟩
        · rintro ⟨w, hw, hxw, hwv, hws⟩
          rcases List.mem_cons.1 hw with hw | hw
          · rw [hw, hv2] at hwv; cases hwv
          · exact ⟨w, hw, hxw, hwv, hws⟩

/-- C8: `Broadcast(mess, slaves)` returns -1 exactly when the session is
invalid; on a valid session it returns the number of workers of the list
that are valid and to which the message could be sent (0 for a null or empty
list), and `MarkBad` is called exactly for the valid workers of the list
whose send failed (none of which is counted); invalid workers are neither
counted nor marked. -/
theorem C8_broadcast_count (p : TProof) (send : Nat → Bool) (slaves : Option (List Nat)) :
    ((Broadcast p send slaves).2 = -1 ↔ p.fValid = false) ∧
    (Broadcast p send slaves).2 =
      (if p.fValid = true then
        (((slaves.getD []).countP (fun w => (p.obj w).fValid && send w) : Nat) : Int)
       else -1) ∧
    ∃ calls, (Broadcast p send slaves).1.markBadCalls = p.markBadCalls ++ calls ∧
      ∀ x, x ∈ calls ↔
        (p.fValid = true ∧
          ∃ w ∈ slaves.getD [], x = some w ∧ (p.obj w).fValid = true ∧ send w = false) := by
  have hval : (Broadcast p send slaves).2 =
      (if p.fValid = true then
        (((slaves.getD []).countP (fun w => (p.obj w).fValid && send w) : Nat) : Int)
       else -1) ∧
    ∃ calls, (Broadcast p send slaves).1.markBadCalls = p.markBadCalls ++ calls ∧
      ∀ x, x ∈ calls ↔
        (p.fValid = true ∧
          ∃ w ∈ slaves.getD [], x = some w ∧ (p.obj w).fValid = true ∧ send w = false) := by
    by_cases hv : p.fValid = true
    · cases slaves with
      | none =>
        refine ⟨by simp [Broadcast, hv], [], by simp [Broadcast, hv], by simp⟩
      | some l =>
        cases l with
        | nil => refine ⟨by simp [Broadcast, hv], [], by simp [Broadcast, hv], by simp⟩
        | cons a l =>
          obtain ⟨h1, calls, h2, h3⟩ := broadcastLoop_spec send (a :: l) p 0
          refine ⟨?_, calls, ?_, ?_⟩
          · simp only [Broadcast, hv, Option.getD_some, if_true]
            simpa using h1
          · simp only [Broadcast, hv]
            simpa using h2
          · intro x
            rw [h3 x]
            simp [hv]
    · have hv2 : p.fValid = false := by simpa using hv
      refine ⟨by simp [Broadcast, hv2], [], by simp [Broadcast, hv2], by simp [hv2]⟩
  refine ⟨?_, hval⟩
  rw [hval.1]
  by_cases hv : p.fValid = true
  · simp only [hv, if_true]
    constructor
    · intro h
      have : (0 : Int) ≤ -1 := by rw [← h]; exact Int.natCast_nonneg _
      omega
    · intro h; cases h
  · have hv2 : p.fValid = false := by simpa using hv
    simp [hv2]

/-! ## Effects of marking workers bad on a master -/

theorem Shrinks.shrinks_refl (p : TProof) : Shrinks p p :=
  ⟨rfl, rfl, rfl, rfl, rfl, List.Sublist.refl _⟩

theorem Shrinks.shrinks_trans {p q r : TProof} (h1 : Shrinks p q) (h2 : Shrinks q r) : Shrinks p r :=
  ⟨h2.fMasterServ.trans h1.fMasterServ, h2.kIsMaster.trans h1.kIsMaster,
    h2.kIsClient.trans h1.kIsClient, h2.fSlaves.trans h1.fSlaves,
    h2.fInactiveSlaves.trans h1.fInactiveSlaves,
    h2.fActiveSlaves.trans h1.fActiveSlaves⟩

theorem FindUniqueSlaves_shrinks (p : TProof) : Shrinks p (FindUniqueSlaves p) := by
  have h := FindUniqueSlaves_sameCore p
  exact ⟨h.fMasterServ, h.kIsMaster, h.kIsClient, h.fSlaves, h.fInactiveSlaves,
    h.fActiveSlaves ▸ List.Sublist.refl _⟩

theorem MarkBad_shrinks (p : TProof) (wrk : Option Nat) (reason : Option String)
    (hm : p.fMasterServ = true) (hr : reason ≠ some kPROOF_TerminateWorker) :
    Shrinks p (MarkBad p wrk reason) := by
  by_cases hv : p.fValid = true
  · cases wrk with
    | none =>
      have : MarkBad p none reason = { p with markBadCalls := p.markBadCalls ++ [none] } := by
        simp [MarkBad, hv]
      rw [this]
      exact ⟨rfl, rfl, rfl, rfl, rfl, List.Sublist.refl _⟩
    | some w =>
      have h := MarkBad_badStep p w reason hv hm hr
      exact ⟨h.fMasterServ.trans hm.symm, h.kIsMaster, h.kIsClient, h.fSlaves,
        h.fInactiveSlaves, h.fActiveSlaves ▸ List.erase_sublist w _⟩
  · have hv2 : p.fValid = false := by simpa using hv
    have : MarkBad p wrk reason = { p with markBadCalls := p.markBadCalls ++ [wrk] } := by
      simp [MarkBad, hv2]
    rw [this]
    exact ⟨rfl, rfl, rfl, rfl, rfl, List.Sublist.refl _⟩

theorem broadcastLoop_shrinks (send : Nat → Bool) :
    ∀ (l : List Nat) (p : TProof) (n : Int), p.fMasterServ = true →
      Shrinks p (broadcastLoop send l p n).1
  | [], p, n, _ => by simpa [broadcastLoop] using Shrinks.shrinks_refl p
  | sl :: rest, p, n, hm => by
    unfold broadcastLoop
    split_ifs
    · have h1 := MarkBad_shrinks p (some sl) (some "could not broadcast request") hm (by decide)
      exact h1.shrinks_trans (broadcastLoop_shrinks send rest _ n (h1.fMasterServ.trans hm))
    · exact broadcastLoop_shrinks send rest p (n + 1) hm
    · exact broadcastLoop_shrinks send rest p n hm

theorem Broadcast_shrinks (p : TProof) (send : Nat → Bool) (slaves : Option (List Nat))
    (hm : p.fMasterServ = true) : Shrinks p (Broadcast p send slaves).1 := by
  unfold Broadcast
  split_ifs
  · exact Shrinks.shrinks_refl p
  · cases slaves with
    | none => exact Shrinks.shrinks_refl p
    | some l =>
      simp only []
      split_ifs
      · exact Shrinks.shrinks_refl p
      · exact broadcastLoop_shrinks send l p 0 hm

theorem foldl_MarkBad_shrinks (reason : String) (hr : some reason ≠ some kPROOF_TerminateWorker) :
    ∀ (l : List Nat) (p : TProof), p.fMasterServ = true →
      Shrinks p (l.foldl (fun q w => MarkBad q (some w) (some reason)) p)
  | [], p, _ => Shrinks.shrinks_refl p
  | w :: l, p, hm => by
    have h1 := MarkBad_shrinks p (some w) (some reason) hm hr
    exact h1.shrinks_trans (foldl_MarkBad_shrinks reason hr l _ (h1.fMasterServ.trans hm))

theorem applyCollect_shrinks (p : TProof) (e : CollectEffect) (hm : p.fMasterServ = true) :
    Shrinks p (applyCollect p e) := by
  have h := foldl_MarkBad_shrinks
    "problems receiving a message in TProof::CollectInputFrom(...)" (by decide) e.lost p hm
  exact ⟨h.fMasterServ, h.kIsMaster, h.kIsClient, h.fSlaves, h.fInactiveSlaves, h.fActiveSlaves⟩

theorem AskStatistics_shrinks (p : TProof) (send : Nat → Bool) (e : CollectEffect)
    (hm : p.fMasterServ = true) : Shrinks p (AskStatistics p send e) := by
  unfold AskStatistics
  split_ifs
  · exact Shrinks.shrinks_refl p
  · have h1 := Broadcast_shrinks p send (some p.fActiveSlaves) hm
    exact h1.shrinks_trans (applyCollect_shrinks _ e (h1.fMasterServ.trans hm))

theorem sendGroupViewLoop_shrinks (send : Nat → Bool) :
    ∀ (l : List Nat) (p : TProof) (bad : Nat), p.fMasterServ = true →
      Shrinks p (sendGroupViewLoop send l p bad).1
  | [], p, bad, _ => by simpa [sendGroupViewLoop] using Shrinks.shrinks_refl p
  | sl :: rest, p, bad, hm => by
    unfold sendGroupViewLoop
    split_ifs
    · have h1 := MarkBad_shrinks p (some sl)
        (some "could not send kPROOF_GROUPVIEW message") hm (by decide)
      exact h1.shrinks_trans (sendGroupViewLoop_shrinks send rest _ (bad + 1) (h1.fMasterServ.trans hm))
    · exact sendGroupViewLoop_shrinks send rest p bad hm

theorem SendGroupViewAux_shrinks (send : Nat → Nat → Bool) :
    ∀ (fuel r : Nat) (p : TProof), p.fMasterServ = true →
      Shrinks p (SendGroupViewAux send fuel r p)
  | 0, r, p, _ => by simpa [SendGroupViewAux] using Shrinks.shrinks_refl p
  | fuel + 1, r, p, hm => by
    unfold SendGroupViewAux
    have h1 : Shrinks p
        (sendGroupViewLoop (send r) p.fActiveSlaves { p with fSendGroupView := false } 0).1 :=
      Shrinks.shrinks_trans
        (show Shrinks p { p with fSendGroupView := false } from
          ⟨rfl, rfl, rfl, rfl, rfl, List.Sublist.refl _⟩)
        (sendGroupViewLoop_shrinks (send r) _ _ 0 hm)
    simp only []
    split_ifs
    · exact Shrinks.shrinks_refl p
    · exact Shrinks.shrinks_refl p
    · exact Shrinks.shrinks_refl p
    · exact h1.shrinks_trans (SendGroupViewAux_shrinks send fuel (r + 1) _ (h1.fMasterServ.trans hm))
    · exact h1

theorem SendGroupView_shrinks (send : Nat → Nat → Bool) (p : TProof)
    (hm : p.fMasterServ = true) : Shrinks p (SendGroupView send p) :=
  SendGroupViewAux_shrinks send _ 0 p hm

theorem RegInv.reg_of_shrinks {p q : TProof} (h : RegInv p) (s : Shrinks p q) : RegInv q := by
  refine ⟨s.fSlaves ▸ h.all_nodup, h.act_nodup.sublist s.fActiveSlaves,
    s.fInactiveSlaves ▸ h.ina_nodup, ?_, ?_, ?_⟩
  · intro x hx
    rw [s.fSlaves]
    exact h.act_sub x (s.fActiveSlaves.subset hx)
  · intro x hx
    rw [s.fSlaves]
    rw [s.fInactiveSlaves] at hx
    exact h.ina_sub x hx
  · intro x hx
    rw [s.fInactiveSlaves]
    exact h.disj x (s.fActiveSlaves.subset hx)

/-! ## GoParallel: the candidate list -/

theorem SameButStatus.status_refl (o : Nat → TSlave) : SameButStatus o o :=
  fun x => ⟨(o x).fStatus, rfl⟩

theorem SameButStatus.setStatus {o1 o2 : Nat → TSlave} (h : SameButStatus o1 o2) (w : Nat)
    (st : ESlaveStatus) : SameButStatus o1 (setStatus o2 w st) := by
  intro x
  by_cases hx : x = w
  · subst hx
    obtain ⟨st2, h2⟩ := h x
    exact ⟨st, by simp [TProofModel.setStatus, h2]⟩
  · obtain ⟨st2, h2⟩ := h x
    exact ⟨st2, by simp [TProofModel.setStatus, Function.update, hx, h2]⟩

theorem SameButStatus.fValid {o1 o2 : Nat → TSlave} (h : SameButStatus o1 o2) (x : Nat) :
    (o2 x).fValid = (o1 x).fValid := by
  obtain ⟨st, h2⟩ := h x; rw [h2]

theorem SameButStatus.fImage {o1 o2 : Nat → TSlave} (h : SameButStatus o1 o2) (x : Nat) :
    (o2 x).fImage = (o1 x).fImage := by
  obtain ⟨st, h2⟩ := h x; rw [h2]

theorem SameButStatus.fSlaveType {o1 o2 : Nat → TSlave} (h : SameButStatus o1 o2) (x : Nat) :
    (o2 x).fSlaveType = (o1 x).fSlaveType := by
  obtain ⟨st, h2⟩ := h x; rw [h2]

theorem candidateStep_inv (p0 : TProof) (pre : List Nat) (s : TProof × List Nat) (sl : Nat)
    (h : CandInv p0 pre s) : CandInv p0 (pre ++ [sl]) (candidateStep s sl) := by
  have hv := h.obj.fValid sl
  have hi := h.obj.fImage sl
  unfold candidateStep
  by_cases hc : isCandidate p0 sl = true
  · have hf : (pre ++ [sl]).filter (isCandidate p0) = pre.filter (isCandidate p0) ++ [sl] := by
      simp [List.filter_append, hc]
    simp only [isCandidate, Bool.and_eq_true, decide_eq_true_eq] at hc
    have c1 : (s.1.obj sl).fValid = true ∧ sl ∉ s.1.fBadSlaves := by
      rw [hv, h.fBadSlaves]; exact hc.1
    have c2 : ¬ (s.1.obj sl).fImage = "IGNORE" := by rw [hi]; exact hc.2
    rw [if_pos c1, if_neg c2]
    exact
      { wlst := by rw [hf]; simp [h.wlst]
        fInactiveSlaves := by rw [hf]; simp [h.fInactiveSlaves]
        fActiveSlaves := h.fActiveSlaves
        fSlaves := h.fSlaves
        fBadSlaves := h.fBadSlaves
        fValid := h.fValid
        fMasterServ := h.fMasterServ
        kIsMaster := h.kIsMaster
        kIsClient := h.kIsClient
        obj := h.obj.setStatus sl _ }
  · have hc2 : isCandidate p0 sl = false := by simpa using hc
    have hf : (pre ++ [sl]).filter (isCandidate p0) = pre.filter (isCandidate p0) := by
      simp [List.filter_append, hc2]
    have hs : (if (s.1.obj sl).fValid = true ∧ sl ∉ s.1.fBadSlaves then
          if (s.1.obj sl).fImage = "IGNORE" then s
          else
            ({ s.1 with
                fInactiveSlaves := s.1.fInactiveSlaves ++ [sl]
                obj := setStatus s.1.obj sl ESlaveStatus.kInactive },
             s.2 ++ [sl])
        else s) = s := by
      by_cases c1 : (s.1.obj sl).fValid = true ∧ sl ∉ s.1.fBadSlaves
      · rw [if_pos c1]
        by_cases c2 : (s.1.obj sl).fImage = "IGNORE"
        · rw [if_pos c2]
        · exfalso
          rw [hv, h.fBadSlaves] at c1
          rw [hi] at c2
          simp [isCandidate, c1.1, c1.2, c2] at hc2
      · rw [if_neg c1]
    rw [hs]
    exact
      { wlst := by rw [hf]; exact h.wlst
        fInactiveSlaves := by rw [hf]; exact h.fInactiveSlaves
        fActiveSlaves := h.fActiveSlaves
        fSlaves := h.fSlaves
        fBadSlaves := h.fBadSlaves
        fValid := h.fValid
        fMasterServ := h.fMasterServ
        kIsMaster := h.kIsMaster
        kIsClient := h.kIsClient
        obj := h.obj }

theorem candidates_fold (p0 : TProof) :
    CandInv p0 p0.fSlaves (p0.fSlaves.foldl candidateStep (p0, [])) := by
  have key := foldl_prefix_inv candidateStep (CandInv p0) (candidateStep_inv p0)
    p0.fSlaves [] (p0, [])
    { wlst := by simp
      fInactiveSlaves := by simp
      fActiveSlaves := rfl
      fSlaves := rfl
      fBadSlaves := rfl
      fValid := rfl
      fMasterServ := rfl
      kIsMaster := rfl
      kIsClient := rfl
      obj := SameButStatus.status_refl _ }
  simpa using key

/-! ## GoParallel: the selection loop over leaf workers -/

theorem GoParallel_valid (p : TProof) (io : GoParallelIO) (nodes : Int) (attach random : Bool)
    (hv : p.fValid = true) :
    (GoParallel p io nodes attach random).1 =
      goParallelTail (goParallelSelected p io nodes random) io attach := by
  unfold GoParallel
  rw [if_neg (by simp [hv])]
  rfl

theorem goParallelCount_eq (nodes : Int) (k : Nat) :
    goParallelCount nodes k = min (max nodes 0).toNat k := by
  unfold goParallelCount
  split_ifs <;> omega

theorem selectOne_leaf (io : GoParallelIO) (p : TProof) (sl : Nat)
    (h : (p.obj sl).fSlaveType = ESlaveType.kSlave) : selectOne io p sl = activate p sl := by
  simp [selectOne, h]

/-- Without random choice, and with leaf candidates only, the selection loop
moves the first `left` candidates, in order, from the inactive to the active
list. -/
theorem selectLoop_first (io : GoParallelIO) (o : Nat → TSlave) :
    ∀ (left cnt : Nat) (p : TProof) (wlst : List Nat),
      SameButStatus o p.obj → (∀ w ∈ wlst, (o w).fSlaveType = ESlaveType.kSlave) →
      p.fInactiveSlaves = wlst → left ≤ wlst.length →
      (selectLoop io false left cnt p wlst).fActiveSlaves = p.fActiveSlaves ++ wlst.take left ∧
      (selectLoop io false left cnt p wlst).fInactiveSlaves = wlst.drop left
  | 0, cnt, p, wlst, _, _, hin, _ => by simp [selectLoop, hin]
  | left + 1, cnt, p, [], _, _, _, hlen => by simp at hlen
  | left + 1, cnt, p, a :: t, ho, hleaf, hin, hlen => by
    have ha : (p.obj a).fSlaveType = ESlaveType.kSlave := by
      rw [ho.fSlaveType a]; exact hleaf a (by simp)
    have ih := selectLoop_first io o left (cnt + 1) (activate p a) t
      (ho.setStatus a _) (fun w hw => hleaf w (List.mem_cons_of_mem _ hw))
      (by simp [activate, hin]) (by simpa using hlen)
    have hstep : selectLoop io false (left + 1) cnt p (a :: t) =
        selectLoop io false left (cnt + 1) (activate p a) t := by
      simp [selectLoop, selectOne_leaf io p a ha]
    rw [hstep]
    refine ⟨?_, ?_⟩
    · rw [ih.1]; simp [activate]
    · rw [ih.2]; simp

/-! ## GoParallel: the closing part without transport failure -/

theorem broadcastLoop_all_sent (send : Nat → Bool) (hs : ∀ w, send w = true) :
    ∀ (l : List Nat) (p : TProof) (n : Int), (broadcastLoop send l p n).1 = p
  | [], p, n => by simp [broadcastLoop]
  | sl :: rest, p, n => by
    unfold broadcastLoop
    split_ifs with h1 h2
    · rw [hs sl] at h2; cases h2
    · exact broadcastLoop_all_sent send hs rest p (n + 1)
    · exact broadcastLoop_all_sent send hs rest p n

theorem Broadcast_all_sent (send : Nat → Bool) (hs : ∀ w, send w = true) (p : TProof)
    (slaves : Option (List Nat)) : (Broadcast p send slaves).1 = p := by
  unfold Broadcast
  split_ifs
  · rfl
  · cases slaves with
    | none => rfl
    | some l =>
      simp only []
      split_ifs
      · rfl
      · exact broadcastLoop_all_sent send hs l p 0

theorem sendGroupViewLoop_all_sent (send : Nat → Bool) (hs : ∀ w, send w = true) :
    ∀ (l : List Nat) (p : TProof) (bad : Nat), sendGroupViewLoop send l p bad = (p, bad)
  | [], p, bad => by simp [sendGroupViewLoop]
  | sl :: rest, p, bad => by
    unfold sendGroupViewLoop
    split_ifs with h1
    · rw [hs sl] at h1; cases h1
    · exact sendGroupViewLoop_all_sent send hs rest p bad

theorem SendGroupViewAux_all_sent (send : Nat → Nat → Bool) (hs : ∀ r w, send r w = true) :
    ∀ (fuel r : Nat) (q : TProof),
      (SendGroupViewAux send fuel r q).fActiveSlaves = q.fActiveSlaves ∧
      (SendGroupViewAux send fuel r q).fInactiveSlaves = q.fInactiveSlaves
  | 0, r, q => by simp [SendGroupViewAux]
  | fuel + 1, r, q => by
    unfold SendGroupViewAux
    simp only [sendGroupViewLoop_all_sent _ (hs r), ne_eq, not_true_eq_false, if_false]
    split_ifs <;> exact ⟨rfl, rfl⟩

/-- Without transport failure the closing part of `GoParallel` leaves the
active and the inactive list as the selection loop built them. -/
theorem goParallelTail_lists (p2 : TProof) (io : GoParallelIO) (attach : Bool)
    (hio : io.noFailure) :
    (goParallelTail p2 io attach).fActiveSlaves = p2.fActiveSlaves ∧
    (goParallelTail p2 io attach).fInactiveSlaves = p2.fInactiveSlaves := by
  obtain ⟨h1, h2, h3⟩ := hio
  have hask : (AskStatistics p2 io.sendStats io.collectStats).fActiveSlaves = p2.fActiveSlaves ∧
      (AskStatistics p2 io.sendStats io.collectStats).fInactiveSlaves = p2.fInactiveSlaves := by
    unfold AskStatistics
    split_ifs
    · exact ⟨rfl, rfl⟩
    · rw [Broadcast_all_sent _ h1]
      simp [applyCollect, h2]
  have hu := FindUniqueSlaves_sameCore (AskStatistics p2 io.sendStats io.collectStats)
  have hp4 : (FindUniqueSlaves (AskStatistics p2 io.sendStats io.collectStats)).fActiveSlaves
        = p2.fActiveSlaves ∧
      (FindUniqueSlaves (AskStatistics p2 io.sendStats io.collectStats)).fInactiveSlaves
        = p2.fInactiveSlaves :=
    ⟨hu.fActiveSlaves.trans hask.1, hu.fInactiveSlaves.trans hask.2⟩
  have hsgv : ∀ q : TProof, (SendGroupView io.sendGroupView q).fActiveSlaves = q.fActiveSlaves ∧
      (SendGroupView io.sendGroupView q).fInactiveSlaves = q.fInactiveSlaves :=
    fun q => SendGroupViewAux_all_sent io.sendGroupView h3 _ 0 q
  unfold goParallelTail
  simp only []
  split_ifs
  · exact ⟨(hsgv _).1.trans hp4.1, (hsgv _).2.trans hp4.2⟩
  · exact hp4

/-! ## GoParallel: the claims on the selection -/

theorem goParallelSelected_setup (p : TProof) :
    let c := (goParallelStart p).fSlaves.foldl candidateStep (goParallelStart p, [])
    c.2 = candidates p ∧ c.1.fInactiveSlaves = candidates p ∧ c.1.fActiveSlaves = [] ∧
    SameButStatus p.obj c.1.obj := by
  have h := candidates_fold (goParallelStart p)
  have hc : (goParallelStart p).fSlaves.filter (isCandidate (goParallelStart p)) =
      candidates p := rfl
  refine ⟨h.wlst.trans hc, ?_, h.fActiveSlaves, h.obj⟩
  rw [h.fInactiveSlaves, hc]
  rfl

/-- C9: on a valid session whose list of all workers is in descending order
of performance index and whose candidates (valid, not bad, image other than
`IGNORE`) are all leaf workers, when no transport operation fails,
`GoParallel(nodes, attach, random = false)` leaves in the active list the
first min(max(nodes,0), k) candidates, in registry order, and in the inactive
list the remaining candidates; so no inactive worker has a higher
performance index than an active one. -/
theorem C9_goParallel_first_candidates (p : TProof) (io : GoParallelIO) (nodes : Int)
    (attach : Bool) (hv : p.fValid = true)
    (hsorted : p.fSlaves.Pairwise (fun a b => (p.obj b).fPerfIdx ≤ (p.obj a).fPerfIdx))
    (hleaf : ∀ w ∈ candidates p, (p.obj w).fSlaveType = ESlaveType.kSlave)
    (hio : io.noFailure) :
    (GoParallel p io nodes attach false).1.fActiveSlaves =
      (candidates p).take (min (max nodes 0).toNat (candidates p).length) ∧
    (GoParallel p io nodes attach false).1.fInactiveSlaves =
      (candidates p).drop (min (max nodes 0).toNat (candidates p).length) ∧
    (∀ a ∈ (GoParallel p io nodes attach false).1.fActiveSlaves,
      ∀ b ∈ (GoParallel p io nodes attach false).1.fInactiveSlaves,
        (p.obj b).fPerfIdx ≤ (p.obj a).fPerfIdx) := by
  obtain ⟨hw, hin, hact, hobj⟩ := goParallelSelected_setup p
  have hsel := selectLoop_first io p.obj
    (goParallelCount nodes (candidates p).length) 0
    { ((goParallelStart p).fSlaves.foldl candidateStep (goParallelStart p, [])).1 with
      fEndMaster :=
        ((goParallelStart p).fSlaves.foldl candidateStep (goParallelStart p, [])).1.kIsMaster }
    (candidates p) hobj hleaf hin (by rw [goParallelCount_eq]; exact Nat.min_le_right _ _)
  have htail := goParallelTail_lists (goParallelSelected p io nodes false) io attach hio
  have hA : (GoParallel p io nodes attach false).1.fActiveSlaves =
      (candidates p).take (min (max nodes 0).toNat (candidates p).length) := by
    rw [GoParallel_valid p io nodes attach false hv, htail.1]
    unfold goParallelSelected
    simp only [hw]
    rw [hsel.1, goParallelCount_eq]
    simp [hact]
  have hI : (GoParallel p io nodes attach false).1.fInactiveSlaves =
      (candidates p).drop (min (max nodes 0).toNat (candidates p).length) := by
    rw [GoParallel_valid p io nodes attach false hv, htail.2]
    unfold goParallelSelected
    simp only [hw]
    rw [hsel.2, goParallelCount_eq]
  refine ⟨hA, hI, ?_⟩
  rw [hA, hI]
  have hcand : (candidates p).Pairwise (fun a b => (p.obj b).fPerfIdx ≤ (p.obj a).fPerfIdx) :=
    hsorted.sublist (List.filter_sublist _)
  rw [← List.take_append_drop (min (max nodes 0).toNat (candidates p).length) (candidates p),
    List.pairwise_append] at hcand
  intro a ha b hb
  exact hcand.2.2 a ha b hb

/-- Scenario A: with performance indices 10, 8, 8, 5, 1 and three nodes asked
for, the active list is the workers with indices 10, 8, 8, in that order. -/
theorem C9_witness :
    (GoParallel scenarioSession quietIO 3 false false).1.fActiveSlaves = [1, 2, 3] ∧
    (GoParallel scenarioSession quietIO 3 false false).1.fInactiveSlaves = [4, 5] :=
  have h := C9_goParallel_first_candidates scenarioSession quietIO 3 false (by decide)
    (by decide) (by decide) ⟨fun _ => rfl, rfl, fun _ _ => rfl⟩
  ⟨h.1.trans (by decide), h.2.1.trans (by decide)⟩

/-- With a draw in [0,1) the position `(Int_t)(draw * size)` is a position of
the list. -/
theorem TListAt_draw (l : List Nat) (r : ℚ) (h0 : 0 ≤ r) (h1 : r < 1) (hl : l ≠ []) :
    ∃ sl ∈ l, TListAt l (truncToInt (r * (l.length : ℚ))) = some sl := by
  have hlen : 0 < l.length := List.length_pos.2 hl
  have hlenq : (0 : ℚ) < (l.length : ℚ) := by exact_mod_cast hlen
  have hx0 : 0 ≤ r * (l.length : ℚ) := mul_nonneg h0 hlenq.le
  have hx1 : r * (l.length : ℚ) < ((l.length : Int) : ℚ) := by
    have : r * (l.length : ℚ) < 1 * (l.length : ℚ) := mul_lt_mul_of_pos_right h1 hlenq
    simpa using this
  have hf0 : 0 ≤ ⌊r * (l.length : ℚ)⌋ := Int.floor_nonneg.2 hx0
  have hf1 : ⌊r * (l.length : ℚ)⌋ < (l.length : Int) := Int.floor_lt.2 hx1
  have hidx : ⌊r * (l.length : ℚ)⌋.toNat < l.length := by omega
  refine ⟨l.get ⟨_, hidx⟩, List.get_mem _ _ _, ?_⟩
  unfold TListAt truncToInt
  rw [if_pos hx0, if_neg (by omega)]
  exact List.get?_eq_get hidx

/-- With random choice among leaf candidates, the selection loop moves
`left` pairwise different candidates from the inactive to the active list. -/
theorem selectLoop_random (io : GoParallelIO) (o : Nat → TSlave)
    (hdraw : ∀ i, 0 ≤ io.rndm i ∧ io.rndm i < 1) :
    ∀ (left cnt : Nat) (p : TProof) (wlst : List Nat),
      SameButStatus o p.obj → (∀ w ∈ wlst, (o w).fSlaveType = ESlaveType.kSlave) →
      p.fInactiveSlaves = wlst → left ≤ wlst.length → wlst.Nodup →
      ∃ chosen : List Nat,
        (selectLoop io true left cnt p wlst).fActiveSlaves = p.fActiveSlaves ++ chosen ∧
        chosen.length = left ∧ chosen.Nodup ∧ (∀ x ∈ chosen, x ∈ wlst) ∧
        (selectLoop io true left cnt p wlst).fInactiveSlaves =
          wlst.filter (fun x => decide (x ∉ chosen))
  | 0, cnt, p, wlst, _, _, hin, _, _ => by
    refine ⟨[], by simp [selectLoop], rfl, List.nodup_nil, by simp, ?_⟩
    simp [selectLoop, hin]
  | left + 1, cnt, p, wlst, ho, hleaf, hin, hlen, hnd => by
    have hne : wlst ≠ [] := by
      intro h; rw [h] at hlen; simp at hlen
    obtain ⟨sl, hsl, hat⟩ := TListAt_draw wlst (io.rndm cnt) (hdraw cnt).1 (hdraw cnt).2 hne
    have ha : (p.obj sl).fSlaveType = ESlaveType.kSlave := by
      rw [ho.fSlaveType sl]; exact hleaf sl hsl
    have hstep : selectLoop io true (left + 1) cnt p wlst =
        selectLoop io true left (cnt + 1) (activate p sl) (wlst.erase sl) := by
      simp [selectLoop, hat, selectOne_leaf io p sl ha]
    have hlen2 : left ≤ (wlst.erase sl).length := by
      rw [List.length_erase_of_mem hsl]; omega
    obtain ⟨chosen, h1, h2, h3, h4, h5⟩ := selectLoop_random io o hdraw left (cnt + 1)
      (activate p sl) (wlst.erase sl) (ho.setStatus sl _)
      (fun w hw => hleaf w (List.mem_of_mem_erase hw))
      (by simp [activate, hin]) hlen2 (hnd.erase sl)
    have hslc : sl ∉ chosen := fun hc => (hnd.not_mem_erase) (h4 sl hc)
    refine ⟨sl :: chosen, ?_, by simp [h2], List.nodup_cons.2 ⟨hslc, h3⟩, ?_, ?_⟩
    · rw [hstep, h1]; simp [activate]
    · intro x hx
      rcases List.mem_cons.1 hx with hx | hx
      · rw [hx]; exact hsl
      · exact List.mem_of_mem_erase (h4 x hx)
    · rw [hstep, h5, hnd.erase_eq_filter, List.filter_filter]
      apply List.filter_congr
      intro x _
      by_cases hxs : x = sl
      · simp [hxs]
      · simp [hxs]

/-- C10: on a valid session whose candidates are pairwise different leaf
workers, for every sequence of random draws in [0,1), when no transport
operation fails, `GoParallel(nodes, attach, random = true)` leaves in the
active list exactly min(max(nodes,0), k) pairwise different candidates, and
in the inactive list exactly the candidates that were not chosen, in
registry order; every draw designates a position of the list of candidates
not yet chosen. -/
theorem C10_goParallel_random (p : TProof) (io : GoParallelIO) (nodes : Int) (attach : Bool)
    (hv : p.fValid = true) (hnd : (candidates p).Nodup)
    (hleaf : ∀ w ∈ candidates p, (p.obj w).fSlaveType = ESlaveType.kSlave)
    (hdraw : ∀ i, 0 ≤ io.rndm i ∧ io.rndm i < 1) (hio : io.noFailure) :
    (GoParallel p io nodes attach true).1.fActiveSlaves.length =
      min (max nodes 0).toNat (candidates p).length ∧
    (GoParallel p io nodes attach true).1.fActiveSlaves.Nodup ∧
    (∀ x ∈ (GoParallel p io nodes attach true).1.fActiveSlaves, x ∈ candidates p) ∧
    (GoParallel p io nodes attach true).1.fInactiveSlaves =
      (candidates p).filter
        (fun x => decide (x ∉ (GoParallel p io nodes attach true).1.fActiveSlaves)) ∧
    (∀ (remaining : List Nat) (i : Nat), remaining ≠ [] →
      ∃ sl ∈ remaining,
        TListAt remaining (truncToInt (io.rndm i * (remaining.length : ℚ))) = some sl) := by
  obtain ⟨hw, hin, hact, hobj⟩ := goParallelSelected_setup p
  obtain ⟨chosen, h1, h2, h3, h4, h5⟩ := selectLoop_random io p.obj hdraw
    (goParallelCount nodes (candidates p).length) 0
    { ((goParallelStart p).fSlaves.foldl candidateStep (goParallelStart p, [])).1 with
      fEndMaster :=
        ((goParallelStart p).fSlaves.foldl candidateStep (goParallelStart p, [])).1.kIsMaster }
    (candidates p) hobj hleaf hin (by rw [goParallelCount_eq]; exact Nat.min_le_right _ _) hnd
  have htail := goParallelTail_lists (goParallelSelected p io nodes true) io attach hio
  have hA : (GoParallel p io nodes attach true).1.fActiveSlaves = chosen := by
    rw [GoParallel_valid p io nodes attach true hv, htail.1]
    unfold goParallelSelected
    simp only [hw]
    rw [h1]
    simp [hact]
  have hI : (GoParallel p io nodes attach true).1.fInactiveSlaves =
      (candidates p).filter (fun x => decide (x ∉ chosen)) := by
    rw [GoParallel_valid p io nodes attach true hv, htail.2]
    unfold goParallelSelected
    simp only [hw]
    rw [h5]
  rw [hA, hI]
  refine ⟨by rw [h2, goParallelCount_eq], h3, h4, rfl, ?_⟩
  intro remaining i hne
  exact TListAt_draw remaining (io.rndm i) (hdraw i).1 (hdraw i).2 hne

/-- Scenario B: three nodes asked for with random choice and the draws
3/4, 1/3, 1/3: three pairwise different workers are active. -/
theorem C10_witness :
    (GoParallel scenarioSession drawIO 3 false true).1.fActiveSlaves.length = 3 ∧
    (GoParallel scenarioSession drawIO 3 false true).1.fActiveSlaves.Nodup :=
  have h := C10_goParallel_random scenarioSession drawIO 3 false (by decide) (by decide)
    (by decide)
    (fun i => by
      show 0 ≤ (if i = 0 then (3 / 4 : ℚ) else 1 / 3) ∧ (if i = 0 then (3 / 4 : ℚ) else 1 / 3) < 1
      split_ifs <;> norm_num)
    ⟨fun _ => rfl, rfl, fun _ _ => rfl⟩
  ⟨h.1.trans (by decide), h.2.1⟩

/-! ## The registry invariant -/

theorem SelInv.sel_of_shrinks {p q : TProof} {wlst : List Nat} (h : SelInv p wlst)
    (s : Shrinks p q) : SelInv q wlst :=
  { reg := h.reg.reg_of_shrinks s
    master := s.fMasterServ.trans h.master
    nodup := h.nodup
    sub := fun x hx => s.fSlaves ▸ h.sub x hx
    fresh := fun x hx hq => h.fresh x hx (s.fActiveSlaves.subset hq) }

theorem SelInv.erase {p : TProof} {wlst : List Nat} (h : SelInv p wlst) (sl : Nat) :
    SelInv p (wlst.erase sl) :=
  { reg := h.reg
    master := h.master
    nodup := h.nodup.erase sl
    sub := fun x hx => h.sub x (List.mem_of_mem_erase hx)
    fresh := fun x hx => h.fresh x (List.mem_of_mem_erase hx) }

theorem SelInv.activate {p : TProof} {wlst : List Nat} (h : SelInv p wlst) (sl : Nat)
    (hsl : sl ∈ wlst) : SelInv (activate p sl) (wlst.erase sl) := by
  have hfresh := h.fresh sl hsl
  refine
    { reg := ?_
      master := h.master
      nodup := h.nodup.erase sl
      sub := fun x hx => h.sub x (List.mem_of_mem_erase hx)
      fresh := ?_ }
  · refine ⟨h.reg.all_nodup, ?_, h.reg.ina_nodup.erase sl, ?_, ?_, ?_⟩
    · show (p.fActiveSlaves ++ [sl]).Nodup
      rw [List.nodup_append]
      refine ⟨h.reg.act_nodup, List.nodup_singleton sl, ?_⟩
      intro a ha hb
      have : a = sl := by simpa using hb
      exact hfresh (this ▸ ha)
    · intro x hx
      rcases List.mem_append.1 (show x ∈ p.fActiveSlaves ++ [sl] from hx) with hx | hx
      · exact h.reg.act_sub x hx
      · have : x = sl := by simpa using hx
        rw [this]; exact h.sub sl hsl
    · intro x hx
      exact h.reg.ina_sub x (List.mem_of_mem_erase (show x ∈ p.fInactiveSlaves.erase sl from hx))
    · intro x hx hina
      have hina2 : x ∈ p.fInactiveSlaves.erase sl := hina
      rcases List.mem_append.1 (show x ∈ p.fActiveSlaves ++ [sl] from hx) with hx | hx
      · exact h.reg.disj x hx (List.mem_of_mem_erase hina2)
      · have : x = sl := by simpa using hx
        rw [this] at hina2
        exact h.reg.ina_nodup.not_mem_erase hina2
  · intro x hx hact
    rcases List.mem_append.1 (show x ∈ p.fActiveSlaves ++ [sl] from hact) with hact | hact
    · exact h.fresh x (List.mem_of_mem_erase hx) hact
    · have : x = sl := by simpa using hact
      rw [this] at hx
      exact h.nodup.not_mem_erase hx

theorem selectOne_selInv (io : GoParallelIO) {p : TProof} {wlst : List Nat}
    (h : SelInv p wlst) (sl : Nat) (hsl : sl ∈ wlst) :
    SelInv (selectOne io p sl) (wlst.erase sl) := by
  unfold selectOne
  cases (p.obj sl).fSlaveType with
  | kSlave => exact h.activate sl hsl
  | kMaster =>
    have h0 : SelInv { p with fEndMaster := false } wlst :=
      h.sel_of_shrinks ⟨rfl, rfl, rfl, rfl, rfl, List.Sublist.refl _⟩
    simp only []
    split_ifs
    · exact (h0.sel_of_shrinks (MarkBad_shrinks _ _ _ h0.master (by decide))).erase sl
    · have h1 := h0.sel_of_shrinks (applyCollect_shrinks _ (io.collectParallel sl) h0.master)
      exact h1.activate sl hsl
    · have h1 := h0.sel_of_shrinks (applyCollect_shrinks _ (io.collectParallel sl) h0.master)
      exact (h1.sel_of_shrinks (MarkBad_shrinks _ _ _ h1.master (by decide))).erase sl

theorem TListAt_mem {l : List Nat} {i : Int} {sl : Nat} (h : TListAt l i = some sl) :
    sl ∈ l := by
  unfold TListAt at h
  split_ifs at h
  exact List.get?_mem h

theorem selectLoop_selInv (io : GoParallelIO) (random : Bool) :
    ∀ (left cnt : Nat) (p : TProof) (wlst : List Nat), SelInv p wlst →
      RegInv (selectLoop io random left cnt p wlst) ∧
      (selectLoop io random left cnt p wlst).fMasterServ = true
  | 0, cnt, p, wlst, h => by simpa [selectLoop] using ⟨h.reg, h.master⟩
  | left + 1, cnt, p, wlst, h => by
    unfold selectLoop
    simp only []
    split
    · exact ⟨h.reg, h.master⟩
    · rename_i sl hsl
      have hmem : sl ∈ wlst := by
        split_ifs at hsl
        · exact TListAt_mem hsl
        · exact List.mem_of_mem_head? hsl
      exact selectLoop_selInv io random left (cnt + 1) _ _ (selectOne_selInv io h sl hmem)

theorem goParallelTail_shrinks (p2 : TProof) (io : GoParallelIO) (attach : Bool)
    (hm : p2.fMasterServ = true) : Shrinks p2 (goParallelTail p2 io attach) := by
  have h1 := AskStatistics_shrinks p2 io.sendStats io.collectStats hm
  have h2 := h1.shrinks_trans (FindUniqueSlaves_shrinks _)
  unfold goParallelTail
  simp only []
  split_ifs
  · exact h2.shrinks_trans (SendGroupView_shrinks _ _ (h2.fMasterServ.trans hm))
  · exact h2

theorem SelInv.of_filter (q : TProof) (wlst all : List Nat) (f : Nat → Bool)
    (hnd : all.Nodup) (hm : q.fMasterServ = true) (hfs : q.fSlaves = all)
    (hact : q.fActiveSlaves = []) (hina : q.fInactiveSlaves = all.filter f)
    (hw : wlst = all.filter f) : SelInv q wlst := by
  refine
    { reg := ⟨hfs ▸ hnd, ?_, ?_, ?_, ?_, ?_⟩
      master := hm
      nodup := hw ▸ hnd.filter _
      sub := ?_
      fresh := ?_ }
  · rw [hact]; exact List.nodup_nil
  · rw [hina]; exact hnd.filter _
  · intro x hx; rw [hact] at hx; cases hx
  · intro x hx; rw [hina] at hx; rw [hfs]; exact List.mem_of_mem_filter hx
  · intro x hx; rw [hact] at hx; cases hx
  · intro x hx; rw [hw] at hx; rw [hfs]; exact List.mem_of_mem_filter hx
  · intro x _ hx; rw [hact] at hx; cases hx

/-- `GoParallel` on a valid master whose list of all workers has no
repetition establishes the registry invariant. -/
theorem GoParallel_regInv (p : TProof) (io : GoParallelIO) (nodes : Int) (attach random : Bool)
    (hv : p.fValid = true) (hm : p.fMasterServ = true) (hnd : p.fSlaves.Nodup) :
    RegInv (GoParallel p io nodes attach random).1 ∧
    (GoParallel p io nodes attach random).1.fMasterServ = true := by
  have hc := candidates_fold (goParallelStart p)
  have hsel : SelInv
      { ((goParallelStart p).fSlaves.foldl candidateStep (goParallelStart p, [])).1 with
        fEndMaster :=
          ((goParallelStart p).fSlaves.foldl candidateStep (goParallelStart p, [])).1.kIsMaster }
      ((goParallelStart p).fSlaves.foldl candidateStep (goParallelStart p, [])).2 :=
    SelInv.of_filter _ _ p.fSlaves (isCandidate (goParallelStart p)) hnd
      (hc.fMasterServ.trans hm) hc.fSlaves hc.fActiveSlaves
      (by
        show (_ : TProof).fInactiveSlaves = _
        rw [hc.fInactiveSlaves]; rfl)
      hc.wlst
  have h2 := selectLoop_selInv io random
    (goParallelCount nodes
      ((goParallelStart p).fSlaves.foldl candidateStep (goParallelStart p, [])).2.length) 0 _ _ hsel
  have h3 := goParallelTail_shrinks (goParallelSelected p io nodes random) io attach h2.2
  rw [GoParallel_valid p io nodes attach random hv]
  exact ⟨RegInv.reg_of_shrinks h2.1 h3, h3.fMasterServ.trans h2.2⟩

theorem moveWorker_regInv (add : Bool) (p : TProof) (wrk : Nat) (h : RegInv p)
    (hwrk : wrk ∈ p.fSlaves) : RegInv (moveWorker add p wrk) := by
  unfold moveWorker
  by_cases ha : add = true
  · rw [if_pos ha]
    by_cases hin : wrk ∈ p.fActiveSlaves
    · simp only [if_pos hin]
      exact ⟨h.all_nodup, h.act_nodup, h.ina_nodup.erase wrk, h.act_sub,
        fun x hx => h.ina_sub x (List.mem_of_mem_erase hx),
        fun x hx hi => h.disj x hx (List.mem_of_mem_erase hi)⟩
    · simp only [if_neg hin]
      refine ⟨h.all_nodup, ?_, h.ina_nodup.erase wrk, ?_,
        fun x hx => h.ina_sub x (List.mem_of_mem_erase hx), ?_⟩
      · show (p.fActiveSlaves ++ [wrk]).Nodup
        rw [List.nodup_append]
        refine ⟨h.act_nodup, List.nodup_singleton wrk, ?_⟩
        intro a ha2 hb
        have : a = wrk := by simpa using hb
        exact hin (this ▸ ha2)
      · intro x hx
        rcases List.mem_append.1 (show x ∈ p.fActiveSlaves ++ [wrk] from hx) with hx | hx
        · exact h.act_sub x hx
        · have : x = wrk := by simpa using hx
          rw [this]; exact hwrk
      · intro x hx hi
        have hi2 : x ∈ p.fInactiveSlaves.erase wrk := hi
        rcases List.mem_append.1 (show x ∈ p.fActiveSlaves ++ [wrk] from hx) with hx | hx
        · exact h.disj x hx (List.mem_of_mem_erase hi2)
        · have : x = wrk := by simpa using hx
          rw [this] at hi2
          exact h.ina_nodup.not_mem_erase hi2
  · rw [if_neg ha]
    by_cases hin : wrk ∈ p.fInactiveSlaves
    · simp only [if_pos hin]
      exact ⟨h.all_nodup, h.act_nodup.erase wrk, h.ina_nodup,
        fun x hx => h.act_sub x (List.mem_of_mem_erase hx), h.ina_sub,
        fun x hx hi => h.disj x (List.mem_of_mem_erase hx) hi⟩
    · simp only [if_neg hin]
      refine ⟨h.all_nodup, h.act_nodup.erase wrk, ?_,
        fun x hx => h.act_sub x (List.mem_of_mem_erase hx), ?_, ?_⟩
      · show (p.fInactiveSlaves ++ [wrk]).Nodup
        rw [List.nodup_append]
        refine ⟨h.ina_nodup, List.nodup_singleton wrk, ?_⟩
        intro a ha2 hb
        have : a = wrk := by simpa using hb
        exact hin (this ▸ ha2)
      · intro x hx
        rcases List.mem_append.1 (show x ∈ p.fInactiveSlaves ++ [wrk] from hx) with hx | hx
        · exact h.ina_sub x hx
        · have : x = wrk := by simpa using hx
          rw [this]; exact hwrk
      · intro x hx hi
        have hx2 : x ∈ p.fActiveSlaves.erase wrk := hx
        rcases List.mem_append.1 (show x ∈ p.fInactiveSlaves ++ [wrk] from hi) with hi | hi
        · exact h.disj x (List.mem_of_mem_erase hx2) hi
        · have : x = wrk := by simpa using hi
          rw [this] at hx2
          exact h.act_nodup.not_mem_erase hx2

theorem moveWorker_frame (add : Bool) (p : TProof) (wrk : Nat) :
    (moveWorker add p wrk).fSlaves = p.fSlaves ∧
    (moveWorker add p wrk).fMasterServ = p.fMasterServ := by
  unfold moveWorker
  split_ifs <;> exact ⟨rfl, rfl⟩

/-- The loop of `ModifyWorkerLists` keeps the registry invariant. -/
theorem modifyLoop_regInv (ord : String) (add : Bool) :
    ∀ (l : List Nat) (p : TProof) (moved : Bool), RegInv p → (∀ x ∈ l, x ∈ p.fSlaves) →
      RegInv (modifyLoop ord add l p moved).1 ∧
      (modifyLoop ord add l p moved).1.fMasterServ = p.fMasterServ
  | [], p, moved, h, _ => by simpa [modifyLoop] using h
  | wrk :: rest, p, moved, h, hl => by
    have hwrk : wrk ∈ p.fSlaves := hl wrk (by simp)
    have hrest : ∀ x ∈ rest, x ∈ p.fSlaves := fun x hx => hl x (List.mem_cons_of_mem _ hx)
    have hmove := moveWorker_regInv add p wrk h hwrk
    have hframe := moveWorker_frame add p wrk
    unfold modifyLoop
    split_ifs
    · have ih := modifyLoop_regInv ord add rest (moveWorker add p wrk) true hmove
        (fun x hx => hframe.1 ▸ hrest x hx)
      exact ⟨ih.1, ih.2.trans hframe.2⟩
    · exact ⟨hmove, hframe.2⟩
    · exact modifyLoop_regInv ord add rest p moved h hrest

theorem modify_rescan (r : TProof × Bool) (h : RegInv r.1) (hm : r.1.fMasterServ = true) :
    RegInv (if r.2 = true then FindUniqueSlaves r.1 else r.1) ∧
    (if r.2 = true then FindUniqueSlaves r.1 else r.1).fMasterServ = true := by
  by_cases hr : r.2 = true
  · rw [if_pos hr]
    have h1 := FindUniqueSlaves_shrinks r.1
    exact ⟨h.reg_of_shrinks h1, h1.fMasterServ.trans hm⟩
  · rw [if_neg hr]
    exact ⟨h, hm⟩

theorem modify_forward (p1 : TProof) (fw : Bool) (io : ModifyIO) (h : RegInv p1)
    (hm : p1.fMasterServ = true) :
    RegInv (if fw = true then
        applyCollect (Broadcast p1 io.send (some p1.fActiveSlaves)).1 io.collect
      else p1) ∧
    (if fw = true then
        applyCollect (Broadcast p1 io.send (some p1.fActiveSlaves)).1 io.collect
      else p1).fMasterServ = true := by
  by_cases hfw : fw = true
  · rw [if_pos hfw]
    have h2 := Broadcast_shrinks p1 io.send (some p1.fActiveSlaves) hm
    have h3 := applyCollect_shrinks _ io.collect (h2.fMasterServ.trans hm)
    have h4 := h2.shrinks_trans h3
    exact ⟨h.reg_of_shrinks h4, h4.fMasterServ.trans hm⟩
  · rw [if_neg hfw]
    exact ⟨h, hm⟩

theorem modify_scan (p : TProof) (o : String) (add : Bool) (h : RegInv p)
    (hm : p.fMasterServ = true) :
    RegInv (if p.kIsMaster = true then
        if (if add = true then p.fInactiveSlaves else p.fActiveSlaves).length > 0 then
          modifyLoop o add (if add = true then p.fInactiveSlaves else p.fActiveSlaves) p false
        else (p, false)
      else (p, false)).1 ∧
    (if p.kIsMaster = true then
        if (if add = true then p.fInactiveSlaves else p.fActiveSlaves).length > 0 then
          modifyLoop o add (if add = true then p.fInactiveSlaves else p.fActiveSlaves) p false
        else (p, false)
      else (p, false)).1.fMasterServ = true := by
  have hin : ∀ x ∈ (if add = true then p.fInactiveSlaves else p.fActiveSlaves),
      x ∈ p.fSlaves := by
    intro x hx
    split_ifs at hx
    · exact h.ina_sub x hx
    · exact h.act_sub x hx
  have hl := modifyLoop_regInv o add
    (if add = true then p.fInactiveSlaves else p.fActiveSlaves) p false h hin
  by_cases hk : p.kIsMaster = true
  · rw [if_pos hk]
    by_cases hlen : (if add = true then p.fInactiveSlaves else p.fActiveSlaves).length > 0
    · rw [if_pos hlen]
      exact ⟨hl.1, hl.2.trans hm⟩
    · rw [if_neg hlen]
      exact ⟨h, hm⟩
  · rw [if_neg hk]
    exact ⟨h, hm⟩

/-- `ModifyWorkerLists` on a master keeps the registry invariant. -/
theorem ModifyWorkerLists_regInv (p : TProof) (io : ModifyIO) (ord : Option String)
    (add : Bool) (h : RegInv p) (hm : p.fMasterServ = true) :
    RegInv (ModifyWorkerLists p io ord add) ∧
    (ModifyWorkerLists p io ord add).fMasterServ = true := by
  cases ord with
  | none => exact ⟨h, hm⟩
  | some o =>
    by_cases h0 : o.length ≤ 0
    · have : ModifyWorkerLists p io (some o) add = p := by
        unfold ModifyWorkerLists
        simp only [if_pos h0]
      rw [this]; exact ⟨h, hm⟩
    · have hs := modify_scan p o add h hm
      have hr := modify_rescan _ hs.1 hs.2
      have hf := modify_forward _
        (if p.kIsMaster = true then
          (if (if p.kIsMaster = true then
              if (if add = true then p.fInactiveSlaves else p.fActiveSlaves).length > 0 then
                modifyLoop o add (if add = true then p.fInactiveSlaves else p.fActiveSlaves)
                  p false
              else (p, false)
            else (p, false)).2 = true then false else !p.fEndMaster)
          else true) io hr.1 hr.2
      unfold ModifyWorkerLists
      simp only [if_neg h0]
      exact hf

theorem Reachable.regInv {p0 p : TProof} (hv : p0.fValid = true) (hm : p0.fMasterServ = true)
    (hnd : p0.fSlaves.Nodup) (h : Reachable p0 p) : RegInv p ∧ p.fMasterServ = true := by
  induction h with
  | start io nodes attach random => exact GoParallel_regInv p0 io nodes attach random hv hm hnd
  | @goParallel q io nodes attach random _ ih =>
    by_cases hq : q.fValid = true
    · exact GoParallel_regInv q io nodes attach random hq ih.2 ih.1.all_nodup
    · have hq2 : q.fValid = false := by simpa using hq
      have : (GoParallel q io nodes attach random).1 = q := by simp [GoParallel, hq2]
      rw [this]; exact ih
  | @markBad q wrk reason hr _ ih =>
    have hs := MarkBad_shrinks q wrk reason ih.2 hr
    exact ⟨ih.1.reg_of_shrinks hs, hs.fMasterServ.trans ih.2⟩
  | @activateWorker q io ord _ ih => exact ModifyWorkerLists_regInv q io ord true ih.1 ih.2
  | @deactivateWorker q io ord _ ih => exact ModifyWorkerLists_regInv q io ord false ih.1 ih.2

/-- C5, as stated, fails.  A valid worker whose image is `IGNORE` is a worker
of the list of all workers that `GoParallel` puts in none of the active,
inactive and bad lists; and a worker that is marked bad while it is inactive
is afterwards in both the inactive and the bad list. -/
theorem C5_counterexample :
    (Reachable ignoredSession (GoParallel ignoredSession quietIO 1 false false).1 ∧
      0 ∈ (GoParallel ignoredSession quietIO 1 false false).1.fSlaves ∧
      0 ∉ (GoParallel ignoredSession quietIO 1 false false).1.fActiveSlaves ∧
      0 ∉ (GoParallel ignoredSession quietIO 1 false false).1.fInactiveSlaves ∧
      0 ∉ (GoParallel ignoredSession quietIO 1 false false).1.fBadSlaves) ∧
    (Reachable scenarioSession
        (MarkBad (GoParallel scenarioSession quietIO 3 false false).1 (some 5)
          (some "worker lost")) ∧
      5 ∈ (MarkBad (GoParallel scenarioSession quietIO 3 false false).1 (some 5)
          (some "worker lost")).fInactiveSlaves ∧
      5 ∈ (MarkBad (GoParallel scenarioSession quietIO 3 false false).1 (some 5)
          (some "worker lost")).fBadSlaves) := by
  refine ⟨⟨Reachable.start _ _ _ _, by decide, by decide, by decide, by decide⟩,
    Reachable.markBad _ _ (by decide) (Reachable.start _ _ _ _), by decide, by decide⟩

/-- C5, amended: on a valid master session whose list of all workers holds
each worker once, in every registry state reached from the result of
`GoParallel` by any sequence of `GoParallel`, `MarkBad` (reason other than
planned termination), `ActivateWorker` and `DeactivateWorker` calls, each of
the lists of all, active and inactive workers holds a worker at most once,
every active and every inactive worker is in the list of all workers, and no
worker is both active and inactive. -/
theorem C5_registry_invariant (p0 p : TProof) (hv : p0.fValid = true)
    (hm : p0.fMasterServ = true) (hnd : p0.fSlaves.Nodup) (h : Reachable p0 p) :
    p.fSlaves.Nodup ∧ p.fActiveSlaves.Nodup ∧ p.fInactiveSlaves.Nodup ∧
    (∀ x ∈ p.fActiveSlaves, x ∈ p.fSlaves) ∧ (∀ x ∈ p.fInactiveSlaves, x ∈ p.fSlaves) ∧
    (∀ x ∈ p.fActiveSlaves, x ∉ p.fInactiveSlaves) := by
  have hr := (Reachable.regInv hv hm hnd h).1
  exact ⟨hr.all_nodup, hr.act_nodup, hr.ina_nodup, hr.act_sub, hr.ina_sub, hr.disj⟩

/-- A use of the amended C5 on Scenario A: three nodes are selected, the
worker at address 2 is lost, and the workers `0.3` and `0.4` are activated. -/
theorem C5_witness :
    (ActivateWorker (MarkBad (GoParallel scenarioSession quietIO 3 false false).1 (some 2)
      (some "worker lost")) ⟨fun _ => true, CollectEffect.quiet⟩ (some "0.")).fActiveSlaves.Nodup :=
  (C5_registry_invariant scenarioSession _ (by decide) (by decide) (by decide)
    (Reachable.activateWorker ⟨fun _ => true, CollectEffect.quiet⟩ (some "0.")
      (Reachable.markBad (some 2) (some "worker lost") (by decide)
        (Reachable.start quietIO 3 false false)))).2.1

/-! ## SendGroupView: the bound on the number of rounds -/

/-- The active list after `MarkBad` with a reason other than the sentinel, on
a master or not. -/
theorem MarkBad_active (p : TProof) (w : Nat) (reason : Option String)
    (hr : reason ≠ some kPROOF_TerminateWorker) :
    (MarkBad p (some w) reason).fActiveSlaves =
      if p.fValid = true then p.fActiveSlaves.erase w else p.fActiveSlaves := by
  by_cases hv : p.fValid = true
  · rw [if_pos hv]
    have hf := markBadPre_fields p w reason
    have hc := FindUniqueSlaves_sameCore (markBadPre p w reason)
    have hact : (FindUniqueSlaves (markBadPre p w reason)).fActiveSlaves
        = p.fActiveSlaves.erase w := hc.fActiveSlaves.trans hf.2.2.2.2.2.2.2.2.2.1
    rw [MarkBad_valid p w reason hv]
    simp only [if_neg hr]
    split_ifs <;> exact hact
  · rw [if_neg hv]
    have hv2 : p.fValid = false := by simpa using hv
    simp [MarkBad, hv2]

theorem MarkBad_active_le (p : TProof) (w : Nat) (reason : Option String)
    (hr : reason ≠ some kPROOF_TerminateWorker) :
    (MarkBad p (some w) reason).fActiveSlaves.length ≤ p.fActiveSlaves.length := by
  rw [MarkBad_active p w reason hr]
  split_ifs
  · exact (List.erase_sublist w _).length_le
  · exact le_refl _

theorem sendGroupViewLoop_active_le (send : Nat → Bool) :
    ∀ (l : List Nat) (p : TProof) (bad : Nat),
      (sendGroupViewLoop send l p bad).1.fActiveSlaves.length ≤ p.fActiveSlaves.length
  | [], p, bad => by simp [sendGroupViewLoop]
  | sl :: rest, p, bad => by
    unfold sendGroupViewLoop
    split_ifs
    · exact le_trans (sendGroupViewLoop_active_le send rest _ (bad + 1))
        (MarkBad_active_le p sl _ (by decide))
    · exact sendGroupViewLoop_active_le send rest p bad

theorem sendGroupViewLoop_bad_ge (send : Nat → Bool) :
    ∀ (l : List Nat) (p : TProof) (bad : Nat), bad ≤ (sendGroupViewLoop send l p bad).2
  | [], p, bad => by simp [sendGroupViewLoop]
  | sl :: rest, p, bad => by
    unfold sendGroupViewLoop
    split_ifs
    · exact le_trans (Nat.le_succ bad) (sendGroupViewLoop_bad_ge send rest _ (bad + 1))
    · exact sendGroupViewLoop_bad_ge send rest p bad

/-- A round of `SendGroupView` on a valid session in which some `Send` fails
shortens the active list. -/
theorem sendGroupViewLoop_active_lt (send : Nat → Bool) :
    ∀ (l : List Nat) (p : TProof) (bad : Nat), p.fValid = true →
      (∀ x ∈ l, x ∈ p.fActiveSlaves) → (sendGroupViewLoop send l p bad).2 ≠ bad →
      (sendGroupViewLoop send l p bad).1.fActiveSlaves.length < p.fActiveSlaves.length
  | [], p, bad, _, _, hb => by simp [sendGroupViewLoop] at hb
  | sl :: rest, p, bad, hv, hl, hb => by
    unfold sendGroupViewLoop at hb ⊢
    by_cases hs : send sl = false
    · rw [if_pos hs]
      have h1 := sendGroupViewLoop_active_le send rest
        (MarkBad p (some sl) (some "could not send kPROOF_GROUPVIEW message")) (bad + 1)
      have h2 : (MarkBad p (some sl)
          (some "could not send kPROOF_GROUPVIEW message")).fActiveSlaves.length
          < p.fActiveSlaves.length := by
        rw [MarkBad_active p sl _ (by decide), if_pos hv,
          List.length_erase_of_mem (hl sl (by simp))]
        have : 0 < p.fActiveSlaves.length := List.length_pos_of_mem (hl sl (by simp))
        omega
      omega
    · rw [if_neg hs] at hb ⊢
      exact sendGroupViewLoop_active_lt send rest p bad hv
        (fun x hx => hl x (List.mem_cons_of_mem _ hx)) hb

/-- The number of rounds `SendGroupView` is given is enough: with more rounds
allowed the result is the same. -/
theorem SendGroupViewAux_fuel (send : Nat → Nat → Bool) :
    ∀ (fuel more r : Nat) (p : TProof), p.fActiveSlaves.length < fuel →
      SendGroupViewAux send (fuel + more) r p = SendGroupViewAux send fuel r p
  | 0, more, r, p, h => by omega
  | fuel + 1, more, r, p, h => by
    have hadd : fuel + 1 + more = (fuel + more) + 1 := by omega
    rw [hadd]
    unfold SendGroupViewAux
    by_cases hv : p.fValid = false
    · simp only [if_pos hv]
    · simp only [if_neg hv]
      by_cases hc : p.kIsClient = true
      · simp only [if_pos hc]
      · simp only [if_neg hc]
        by_cases hg : p.fSendGroupView = false
        · simp only [if_pos hg]
        · simp only [if_neg hg]
          by_cases hb : (sendGroupViewLoop (send r) p.fActiveSlaves
              { p with fSendGroupView := false } 0).2 ≠ 0
          · simp only [if_pos hb]
            have hv2 : p.fValid = true := by simpa using hv
            have hlt := sendGroupViewLoop_active_lt (send r) p.fActiveSlaves
              { p with fSendGroupView := false } 0 hv2 (fun x hx => hx) hb
            exact SendGroupViewAux_fuel send fuel more (r + 1) _
              (by
                have : ({ p with fSendGroupView := false } : TProof).fActiveSlaves.length
                    = p.fActiveSlaves.length := rfl
                omega)
          · simp only [if_neg hb]

/-- `SendGroupView` is the limit of its bounded version. -/
theorem SendGroupView_enough_rounds (send : Nat → Nat → Bool) (p : TProof) (more : Nat) :
    SendGroupViewAux send (p.fActiveSlaves.length + 1 + more) 0 p = SendGroupView send p :=
  SendGroupViewAux_fuel send (p.fActiveSlaves.length + 1) more 0 p (Nat.lt_succ_self _)

/-! ## GetParallel -/

theorem toInt32_of_fits (x : Int) (h0 : 0 ≤ x) (h1 : x < 2147483648) : toInt32 x = x := by
  unfold toInt32
  omega

theorem toInt32_add_left (a b : Int) : toInt32 (toInt32 a + b) = toInt32 (a + b) := by
  unfold toInt32
  omega

theorem GetParallel_foldl (f : Nat → Int) :
    ∀ (l : List Nat) (acc : Int), toInt32 acc = acc →
      l.foldl (fun nparallel sl => if f sl ≥ 0 then toInt32 (nparallel + f sl) else nparallel)
        acc = toInt32 (acc + (l.map (fun sl => max (f sl) 0)).sum)
  | [], acc, hacc => by simp [hacc]
  | sl :: rest, acc, hacc => by
    rw [List.foldl_cons]
    simp only [List.map_cons, List.sum_cons]
    split_ifs with h
    · rw [GetParallel_foldl f rest _ (by unfold toInt32; omega), toInt32_add_left,
        max_eq_left h, add_assoc]
    · rw [GetParallel_foldl f rest acc hacc, max_eq_right (by omega), zero_add]

theorem GetParallel_eq_sum (p : TProof) :
    GetParallel p =
      (if p.fValid = true then
        toInt32 (p.fActiveSlaves.map (fun sl => max (p.obj sl).fParallel 0)).sum
       else -1) := by
  unfold GetParallel
  by_cases hv : p.fValid = true
  · rw [if_neg (by simp [hv]), if_pos hv,
      GetParallel_foldl (fun sl => (p.obj sl).fParallel) _ 0 (by decide), zero_add]
  · have hv2 : p.fValid = false := by simpa using hv
    rw [if_pos hv2, if_neg hv]

theorem sum_max_nonneg (f : Nat → Int) (l : List Nat) :
    0 ≤ (l.map (fun sl => max (f sl) 0)).sum :=
  List.sum_nonneg (by
    intro x hx
    obtain ⟨sl, _, rfl⟩ := List.mem_map.mp hx
    exact le_max_right _ _)

theorem sum_leaves_and_masters (p : TProof) (leaves : Nat → Nat) :
    ∀ (l : List Nat),
      (∀ sl ∈ l, p.isMaster sl = false → (p.obj sl).fParallel = 1) →
      (∀ sl ∈ l, p.isMaster sl = true → (p.obj sl).fParallel = (leaves sl : Int)) →
      (l.map (fun sl => max (p.obj sl).fParallel 0)).sum =
        ((l.countP (fun sl => !p.isMaster sl) : Nat) : Int) +
          (((l.filter (fun sl => p.isMaster sl)).map leaves).sum : Nat)
  | [], _, _ => by simp
  | sl :: rest, hl, hm => by
    have ih := sum_leaves_and_masters p leaves rest
      (fun x hx => hl x (List.mem_cons_of_mem _ hx))
      (fun x hx => hm x (List.mem_cons_of_mem _ hx))
    rw [List.map_cons, List.sum_cons, ih]
    by_cases h : p.isMaster sl = true
    · have hp := hm sl (by simp) h
      simp [List.countP_cons, List.filter_cons, h, hp]
      ring
    · have h2 : p.isMaster sl = false := by simpa using h
      have hp := hl sl (by simp) h2
      simp [List.countP_cons, List.filter_cons, h2, hp]
      ring

/-- C11: `GetParallel` returns -1 on an invalid session and otherwise the
sum, over the active workers, of the parallelism each last reported, values
below 0 counting for nothing; the sum is accumulated in an `Int_t`, so the
value is the sum taken in 32 bits, which is the sum itself whenever the sum
is in the range of `Int_t`.  `GoParallel` returns `GetParallel` of the state
it leaves; and when every active leaf worker reports 1 and every active
submaster `sl` reports its number `leaves sl` of leaves, with a total in the
range of `Int_t`, the value is the number of active leaf workers plus the
leaves under the active submasters. -/
theorem C11_total_parallelism (p : TProof) (io : GoParallelIO) (nodes : Int)
    (attach random : Bool) (leaves : Nat → Nat) :
    (p.fValid = false → GetParallel p = -1) ∧
    (p.fValid = true →
      GetParallel p =
        toInt32 (p.fActiveSlaves.map (fun sl => max (p.obj sl).fParallel 0)).sum) ∧
    (p.fValid = true →
      (p.fActiveSlaves.map (fun sl => max (p.obj sl).fParallel 0)).sum < 2147483648 →
      GetParallel p = (p.fActiveSlaves.map (fun sl => max (p.obj sl).fParallel 0)).sum) ∧
    (GoParallel p io nodes attach random).2 =
      GetParallel (GoParallel p io nodes attach random).1 ∧
    (p.fValid = true →
      (∀ sl ∈ p.fActiveSlaves, p.isMaster sl = false → (p.obj sl).fParallel = 1) →
      (∀ sl ∈ p.fActiveSlaves, p.isMaster sl = true →
        (p.obj sl).fParallel = (leaves sl : Int)) →
      p.fActiveSlaves.countP (fun sl => !p.isMaster sl) +
        ((p.fActiveSlaves.filter (fun sl => p.isMaster sl)).map leaves).sum < 2147483648 →
      GetParallel p =
        ((p.fActiveSlaves.countP (fun sl => !p.isMaster sl) : Nat) : Int) +
          (((p.fActiveSlaves.filter (fun sl => p.isMaster sl)).map leaves).sum : Nat)) := by
  refine ⟨fun hv => ?_, fun hv => ?_, fun hv hfit => ?_, ?_, ?_⟩
  · simp [GetParallel, hv]
  · rw [GetParallel_eq_sum, if_pos hv]
  · rw [GetParallel_eq_sum, if_pos hv]
    exact toInt32_of_fits _ (sum_max_nonneg _ _) hfit
  · unfold GoParallel
    by_cases hv : p.fValid = false
    · rw [if_pos hv]
      simp [GetParallel, hv]
    · rw [if_neg hv]
  · intro hv hl hm hfit
    rw [GetParallel_eq_sum, if_pos hv, sum_leaves_and_masters p leaves p.fActiveSlaves hl hm]
    exact toInt32_of_fits _ (by omega) (by omega)

/-- A use of C11 on the two-tier session: two leaf workers reporting 1 and
three submasters with 4, 0 and 7 leaves give 13. -/
theorem C11_witness :
    GetParallel tieredSession =
      ((tieredSession.fActiveSlaves.countP (fun sl => !tieredSession.isMaster sl) : Nat) : Int) +
        (((tieredSession.fActiveSlaves.filter (fun sl => tieredSession.isMaster sl)).map
          tieredLeaves).sum : Nat) ∧
    GetParallel tieredSession = 13 :=
  ⟨(C11_total_parallelism tieredSession quietIO 0 false false tieredLeaves).2.2.2.2
    (by decide) (by decide) (by decide) (by decide), by decide⟩

/-! ## Monitors -/

theorem TMonitor.GetActive_idle (m : TMonitor) (timeout : Int) (stale : Nat → Bool)
    (h : m.fActive = []) : m.GetActive timeout stale = (m, 0) := by
  cases m with
  | mk a d =>
    simp only at h
    subst h
    simp [TMonitor.GetActive]

theorem TMonitor.GetActive_fresh (m : TMonitor) (timeout : Int) (stale : Nat → Bool)
    (h : ∀ s ∈ m.fActive, stale s = false) :
    m.GetActive timeout stale = (m, m.fActive.length) := by
  cases m with
  | mk a d =>
    simp only at h
    have h1 : a.filter (fun s => !stale s) = a := by
      rw [List.filter_eq_self]
      intro s hs
      simp [h s hs]
    have h2 : a.filter (fun s => stale s) = [] := by
      rw [List.filter_eq_nil_iff]
      intro s hs
      simp [h s hs]
    simp only [TMonitor.GetActive, h1, h2, List.append_nil]
    split_ifs <;> rfl

theorem TMonitor.GetActive_count (m : TMonitor) (timeout : Int) (stale : Nat → Bool) :
    (m.GetActive timeout stale).2 = (m.GetActive timeout stale).1.fActive.length := rfl

theorem TMonitor.Remove_idle (m : TMonitor) (s : Nat) (h : m.fActive = []) :
    (m.Remove s).fActive = [] := by
  unfold TMonitor.Remove
  split_ifs with h1
  · rw [h] at h1; cases h1
  · exact h

theorem TMonitor.DeActivateAll_idle (m : TMonitor) : m.DeActivateAll.fActive = [] := rfl

theorem Session.setMon_getMon (c : Session) (r : MonRef) : c.setMon r (c.getMon r) = c := by
  cases r with
  | created n =>
    simp only [Session.setMon, Session.getMon]
    have : (fun k => if k = n then c.created n else c.created k) = c.created := by
      funext k
      split_ifs with h
      · rw [h]
      · rfl
    rw [this]
  | _ => rfl

theorem Session.getMon_setMon (c : Session) (r : MonRef) (m : TMonitor) :
    (c.setMon r m).getMon r = m := by
  cases r <;> simp [Session.setMon, Session.getMon]

theorem Session.getMon_setMon_ne (c : Session) (r r2 : MonRef) (m : TMonitor) (h : r2 ≠ r) :
    (c.setMon r m).getMon r2 = c.getMon r2 := by
  cases r <;> cases r2 <;> simp_all [Session.setMon, Session.getMon]

theorem Session.setMon_fields (c : Session) (r : MonRef) (m : TMonitor) :
    (c.setMon r m).fCurrentMonitor = c.fCurrentMonitor ∧
    (c.setMon r m).fStatus = c.fStatus ∧
    (c.setMon r m).fRecvMessages = c.fRecvMessages ∧
    (c.setMon r m).fCheckFileStatus = c.fCheckFileStatus ∧
    (c.setMon r m).fFileMap = c.fFileMap ∧
    (c.setMon r m).proof.fSlaves = c.proof.fSlaves ∧
    (c.setMon r m).proof.fActiveSlaves = c.proof.fActiveSlaves ∧
    (c.setMon r m).proof.fInactiveSlaves = c.proof.fInactiveSlaves ∧
    (c.setMon r m).proof.fBadSlaves = c.proof.fBadSlaves ∧
    (c.setMon r m).proof.fUniqueSlaves = c.proof.fUniqueSlaves ∧
    (c.setMon r m).proof.obj = c.proof.obj ∧
    (c.setMon r m).proof.fPlayer = c.proof.fPlayer ∧
    (c.setMon r m).proof.fValid = c.proof.fValid ∧
    (c.setMon r m).proof.fSendGroupView = c.proof.fSendGroupView := by
  cases r <;> simp [Session.setMon]

/-! ## Collect on a monitor without active socket -/

theorem Collect_idle (fuel : Nat) (c : Session) (io : CollectIO) (mon : MonRef)
    (timeout endtype : Int) (h : (c.getMon mon).fActive = []) :
    Collect fuel c io mon timeout endtype =
      some { c := { c with fStatus := 0, fRecvMessages := [] }, cnt := 0, selects := 0 } := by
  have h0 : ({ c with fStatus := 0, fRecvMessages := [] } : Session).getMon mon = c.getMon mon := by
    cases mon <;> rfl
  unfold Collect
  simp only [h0, TMonitor.GetActive_idle _ _ _ h, if_true]
  rw [← h0, Session.setMon_getMon]

/-! ## Monitors without active socket -/

theorem KeepsIdle.idle_refl (p : TProof) : KeepsIdle p p := ⟨id, id, id, id⟩

theorem KeepsIdle.idle_trans {p q r : TProof} (h1 : KeepsIdle p q) (h2 : KeepsIdle q r) :
    KeepsIdle p r :=
  ⟨fun h => h2.all (h1.all h), fun h => h2.active (h1.active h),
   fun h => h2.unique (h1.unique h), fun h => h2.allUnique (h1.allUnique h)⟩

theorem packetizerMarkBad_monitors (p : TProof) (w : Nat) :
    (packetizerMarkBad p w).fAllMonitor = p.fAllMonitor ∧
    (packetizerMarkBad p w).fActiveMonitor = p.fActiveMonitor := by
  unfold packetizerMarkBad
  split
  · simp
  · split <;> simp

theorem markBadPre_monitors (p : TProof) (w : Nat) (reason : Option String) :
    (markBadPre p w reason).fAllMonitor = p.fAllMonitor ∧
    (markBadPre p w reason).fActiveMonitor = p.fActiveMonitor := by
  unfold markBadPre
  have h := packetizerMarkBad_monitors { p with markBadCalls := p.markBadCalls ++ [some w] } w
  simp only [] at h ⊢
  split_ifs <;> simp [h]

theorem FindUniqueSlaves_idle (p : TProof) :
    (FindUniqueSlaves p).fUniqueMonitor.fActive = [] ∧
    (FindUniqueSlaves p).fAllUniqueMonitor.fActive = [] := ⟨rfl, rfl⟩

theorem MarkBad_keepsIdle (p : TProof) (wrk : Option Nat) (reason : Option String) :
    KeepsIdle p (MarkBad p wrk reason) := by
  by_cases hv : p.fValid = true
  · cases wrk with
    | none =>
      have : MarkBad p none reason = { p with markBadCalls := p.markBadCalls ++ [none] } := by
        simp [MarkBad, hv]
      rw [this]
      exact ⟨id, id, id, id⟩
    | some w =>
      have hc := FindUniqueSlaves_sameCore (markBadPre p w reason)
      have hm := markBadPre_monitors p w reason
      have hu := FindUniqueSlaves_idle (markBadPre p w reason)
      have ha : (FindUniqueSlaves (markBadPre p w reason)).fAllMonitor = p.fAllMonitor :=
        hc.fAllMonitor.trans hm.1
      have hb : (FindUniqueSlaves (markBadPre p w reason)).fActiveMonitor = p.fActiveMonitor :=
        hc.fActiveMonitor.trans hm.2
      rw [MarkBad_valid p w reason hv]
      refine ⟨fun h => ?_, fun h => ?_, fun _ => ?_, fun _ => ?_⟩
      · simp only []
        split_ifs <;> simp [ShutdownSession, ha, TMonitor.Remove_idle _ _ h]
      · simp only []
        split_ifs <;> simp [ShutdownSession, hb, TMonitor.Remove_idle _ _ h]
      · simp only []
        split_ifs <;> simp [ShutdownSession, hu.1]
      · simp only []
        split_ifs <;> simp [ShutdownSession, hu.2]
  · have hv2 : p.fValid = false := by simpa using hv
    have : MarkBad p wrk reason = { p with markBadCalls := p.markBadCalls ++ [wrk] } := by
      simp [MarkBad, hv2]
    rw [this]
    exact ⟨id, id, id, id⟩

theorem sendGroupViewLoop_keepsIdle (send : Nat → Bool) :
    ∀ (l : List Nat) (p : TProof) (bad : Nat), KeepsIdle p (sendGroupViewLoop send l p bad).1
  | [], p, bad => KeepsIdle.idle_refl p
  | sl :: rest, p, bad => by
    unfold sendGroupViewLoop
    split_ifs
    · exact (MarkBad_keepsIdle p _ _).idle_trans (sendGroupViewLoop_keepsIdle send rest _ _)
    · exact sendGroupViewLoop_keepsIdle send rest p bad

theorem SendGroupViewAux_keepsIdle (send : Nat → Nat → Bool) :
    ∀ (fuel r : Nat) (p : TProof), KeepsIdle p (SendGroupViewAux send fuel r p)
  | 0, r, p => KeepsIdle.idle_refl p
  | fuel + 1, r, p => by
    unfold SendGroupViewAux
    have h0 : KeepsIdle p { p with fSendGroupView := false } := ⟨id, id, id, id⟩
    have h1 := sendGroupViewLoop_keepsIdle (send r)
      ({ p with fSendGroupView := false } : TProof).fActiveSlaves { p with fSendGroupView := false } 0
    simp only []
    split_ifs
    · exact KeepsIdle.idle_refl p
    · exact KeepsIdle.idle_refl p
    · exact KeepsIdle.idle_refl p
    · exact (h0.idle_trans h1).idle_trans (SendGroupViewAux_keepsIdle send fuel (r + 1) _)
    · exact h0.idle_trans h1

theorem SendGroupView_keepsIdle (send : Nat → Nat → Bool) (p : TProof) :
    KeepsIdle p (SendGroupView send p) :=
  SendGroupViewAux_keepsIdle send _ 0 p

theorem Session.idle_after (c : Session) (q : TProof) (r : MonRef) (h : KeepsIdle c.proof q)
    (hi : (c.getMon r).fActive = []) :
    (({ c with proof := q } : Session).getMon r).fActive = [] := by
  cases r with
  | fAllMonitor => exact h.all hi
  | fActiveMonitor => exact h.active hi
  | fUniqueMonitor => exact h.unique hi
  | fAllUniqueMonitor => exact h.allUnique hi
  | created n => exact hi

/-- With every group-view message sent, `SendGroupView` at most resets the
flag. -/
theorem SendGroupView_all_sent (send : Nat → Nat → Bool) (hs : ∀ r w, send r w = true)
    (p : TProof) :
    SendGroupView send p = p ∨ SendGroupView send p = { p with fSendGroupView := false } := by
  unfold SendGroupView SendGroupViewAux
  simp only [sendGroupViewLoop_all_sent _ (hs 0), ne_eq, not_true_eq_false, if_false]
  split_ifs
  · exact Or.inl rfl
  · exact Or.inl rfl
  · exact Or.inl rfl
  · exact Or.inr rfl

/-! ## The loop of Collect -/

theorem collectCond_fields (io : CollectIO) (mon : MonRef) (l : CollectLoop) :
    (collectCond io mon l).1.cnt = l.cnt ∧ (collectCond io mon l).1.nto = l.nto ∧
    (collectCond io mon l).1.sto = l.sto ∧ (collectCond io mon l).1.nsto = l.nsto ∧
    (collectCond io mon l).1.iter = l.iter := ⟨rfl, rfl, rfl, rfl, rfl⟩

/-- When the condition of the loop fails, the monitor has no active socket
or the budget is used up. -/
theorem collectCond_false (io : CollectIO) (mon : MonRef) (l : CollectLoop)
    (h : (collectCond io mon l).2 = false) :
    (((collectCond io mon l).1.c).getMon mon).fActive = [] ∨ (collectCond io mon l).1.nto = 0 := by
  unfold collectCond at h ⊢
  simp only [Session.getMon_setMon] at h ⊢
  simp only [Bool.and_eq_false_iff, Bool.or_eq_false_iff, decide_eq_false_iff_not,
    TMonitor.GetActive_count, ne_eq, not_not, List.length_eq_zero] at h
  rcases h with h | h
  · exact Or.inl h
  · right
    omega

theorem collectLoop_exit (io : CollectIO) (mon : MonRef) (sm : Option MonRef) (endtype : Int) :
    ∀ (fuel : Nat) (l l2 : CollectLoop), collectLoop io mon sm endtype fuel l = some l2 →
      (l2.c.getMon mon).fActive = [] ∨ l2.nto = 0
  | 0, l, l2, h => by simp [collectLoop] at h
  | fuel + 1, l, l2, h => by
    unfold collectLoop at h
    simp only [] at h
    split_ifs at h with hc
    · exact collectLoop_exit io mon sm endtype fuel _ l2 h
    · have hc2 : (collectCond io mon l).2 = false := by simpa using hc
      have := collectCond_false io mon l hc2
      simp only [Option.some.injEq] at h
      rw [← h]
      exact this

/-- Whatever happened during it, a `Collect` that returns leaves no socket
active in the monitor it worked on. -/
theorem Collect_leaves_idle (fuel : Nat) (c : Session) (io : CollectIO) (mon : MonRef)
    (timeout endtype : Int) (r : Collected)
    (h : Collect fuel c io mon timeout endtype = some r) : (r.c.getMon mon).fActive = [] := by
  unfold Collect at h
  simp only [] at h
  split_ifs at h with h0
  · simp only [Option.some.injEq] at h
    rw [← h]
    simp only [Session.getMon_setMon]
    rw [TMonitor.GetActive_count] at h0
    exact List.length_eq_zero.mp h0
  · split at h
    · cases h
    · rename_i l hl
      simp only [Option.some.injEq] at h
      rw [← h]
      have hx := collectLoop_exit io mon _ endtype fuel _ l hl
      have h3 : ((if l.nto = 0 then l.c.monDo mon (fun m => m.DeActivateAll) else l.c).getMon
          mon).fActive = [] := by
        split_ifs with hn
        · simp [Session.monDo, Session.getMon_setMon, TMonitor.DeActivateAll]
        · rcases hx with hx | hx
          · exact hx
          · exact absurd hx hn
      have h4 := Session.idle_after _ _ mon (SendGroupView_keepsIdle io.sendGroupView _) h3
      cases mon <;> exact h4

/-- C12: `Collect` on a monitor without activated socket returns 0 without
any `Select`, with the current-monitor pointer, the registry, the monitors
and the file map as they were (only `fStatus` and the list of received
messages are reset); and since a `Collect` that returns leaves no socket
activated in its monitor, a second `Collect` on that monitor right after it
returns 0 in the same way. -/
theorem C12_collect_without_active_socket (fuel : Nat) (c : Session) (io : CollectIO)
    (mon : MonRef) (timeout endtype : Int) :
    ((c.getMon mon).fActive = [] →
      Collect fuel c io mon timeout endtype =
        some { c := { c with fStatus := 0, fRecvMessages := [] }, cnt := 0, selects := 0 }) ∧
    (∀ r, Collect fuel c io mon timeout endtype = some r →
      ∀ (fuel2 : Nat) (io2 : CollectIO) (timeout2 endtype2 : Int),
        Collect fuel2 r.c io2 mon timeout2 endtype2 =
          some { c := { r.c with fStatus := 0, fRecvMessages := [] }, cnt := 0, selects := 0 }) :=
  ⟨fun h => Collect_idle fuel c io mon timeout endtype h,
   fun r hr fuel2 io2 timeout2 endtype2 =>
    Collect_idle fuel2 r.c io2 mon timeout2 endtype2
      (Collect_leaves_idle fuel c io mon timeout endtype r hr)⟩

/-- A use of C12: on the two-worker session the monitor of all workers has
no activated socket, and a `Collect` on it returns 0 at once; a `Collect` on
the monitor of the active workers with a budget of 2 returns, and a second
one right after it returns 0. -/
theorem C12_witness :
    (pairSession.getMon MonRef.fAllMonitor).fActive = [] ∧
    (Collect 0 pairSession silentIO MonRef.fAllMonitor 2 (-1)).map (fun r => (r.cnt, r.selects)) =
      some (0, 0) ∧
    (Collect 3 pairSession silentIO MonRef.fActiveMonitor 2 (-1)).isSome = true ∧
    ((Collect 3 pairSession silentIO MonRef.fActiveMonitor 2 (-1)).bind
      (fun r => Collect 0 r.c silentIO MonRef.fActiveMonitor 2 (-1))).map
        (fun r => (r.cnt, r.selects)) = some (0, 0) := by
  have hsome : (Collect 3 pairSession silentIO MonRef.fActiveMonitor 2 (-1)).isSome = true := by
    decide
  obtain ⟨r, hr⟩ := Option.isSome_iff_exists.mp hsome
  have h1 := (C12_collect_without_active_socket 0 pairSession silentIO MonRef.fAllMonitor 2
    (-1)).1 rfl
  have h2 := (C12_collect_without_active_socket 3 pairSession silentIO MonRef.fActiveMonitor 2
    (-1)).2 r hr 0 silentIO 2 (-1)
  refine ⟨rfl, ?_, hsome, ?_⟩
  · rw [h1]; rfl
  · rw [hr, Option.some_bind, h2]; rfl

/-! ## Collect when every wait times out -/

theorem collectCond_fresh (io : CollectIO) (mon : MonRef) (l : CollectLoop)
    (h : ∀ s ∈ (l.c.getMon mon).fActive, io.stale l.iter s = false) :
    collectCond io mon l =
      (l, decide ((l.c.getMon mon).fActive.length ≠ 0) &&
        (decide (l.nto < 0) || decide (l.nto > 0))) := by
  unfold collectCond
  simp only [TMonitor.GetActive_fresh _ _ _ h, Session.setMon_getMon]

theorem collectBody_timedOut (io : CollectIO) (mon : MonRef) (sm : Option MonRef)
    (endtype : Int) (l : CollectLoop) (h : io.select l.iter = Selected.timedOut) :
    (collectBody io mon sm endtype l).c = l.c ∧
    (collectBody io mon sm endtype l).cnt = l.cnt ∧
    (collectBody io mon sm endtype l).nto = (if l.nto > 0 then l.nto - 1 else l.nto) ∧
    (collectBody io mon sm endtype l).iter = l.iter + 1 := by
  unfold collectBody
  rw [h]
  simp only []
  split_ifs <;> exact ⟨rfl, rfl, rfl, rfl⟩

/-- With nothing but timeouts and no socket found stale, the loop runs for as
many iterations as the budget has units left and changes nothing else. -/
theorem collectLoop_timeouts (io : CollectIO) (mon : MonRef) (sm : Option MonRef)
    (endtype : Int) (hsel : ∀ n, io.select n = Selected.timedOut) :
    ∀ (k fuel : Nat) (l : CollectLoop), k < fuel → l.nto = (k : Int) →
      (l.c.getMon mon).fActive ≠ [] →
      (∀ n, ∀ s ∈ (l.c.getMon mon).fActive, io.stale n s = false) →
      ∃ l2, collectLoop io mon sm endtype fuel l = some l2 ∧ l2.c = l.c ∧ l2.cnt = l.cnt ∧
        l2.nto = 0 ∧ l2.iter = l.iter + k
  | 0, fuel, l, hf, hn, ha, hst => by
    obtain ⟨f, rfl⟩ : ∃ f, fuel = f + 1 := ⟨fuel - 1, by omega⟩
    refine ⟨l, ?_, rfl, rfl, by simpa using hn, rfl⟩
    unfold collectLoop
    simp only [collectCond_fresh io mon l (hst l.iter), hn]
    simp
  | k + 1, fuel, l, hf, hn, ha, hst => by
    obtain ⟨f, rfl⟩ : ∃ f, fuel = f + 1 := ⟨fuel - 1, by omega⟩
    have hb := collectBody_timedOut io mon sm endtype l (hsel l.iter)
    have hlen : (l.c.getMon mon).fActive.length ≠ 0 := by
      intro h0
      exact ha (List.length_eq_zero.mp h0)
    have hpos : l.nto > 0 := by rw [hn]; push_cast; omega
    have hnto : (collectBody io mon sm endtype l).nto = (k : Int) := by
      rw [hb.2.2.1, if_pos hpos, hn]
      push_cast
      omega
    obtain ⟨l2, h1, h2, h3, h4, h5⟩ := collectLoop_timeouts io mon sm endtype hsel k f
      (collectBody io mon sm endtype l) (by omega) hnto (by rw [hb.1]; exact ha)
      (by rw [hb.1]; exact hst)
    refine ⟨l2, ?_, h2.trans hb.1, h3.trans hb.2.1, h4, ?_⟩
    · unfold collectLoop
      simp only [collectCond_fresh io mon l (hst l.iter)]
      rw [if_pos (by simp [hlen, hpos])]
      exact h1
    · rw [h5, hb.2.2.2]
      omega

theorem Collect_timeouts (fuel : Nat) (c : Session) (io : CollectIO) (mon : MonRef) (t : Nat)
    (endtype : Int) (hact : (c.getMon mon).fActive ≠ [])
    (hsel : ∀ n, io.select n = Selected.timedOut)
    (hstale : ∀ n, ∀ s ∈ (c.getMon mon).fActive, io.stale n s = false)
    (hsend : ∀ r w, io.sendGroupView r w = true) (hfuel : t < fuel) :
    ∃ c2, Collect fuel c io mon t endtype = some { c := c2, cnt := 0, selects := t } ∧
      c2.getMon mon = (c.getMon mon).DeActivateAll ∧
      (∀ r, r ≠ mon → c2.getMon r = c.getMon r) ∧
      c2.fCurrentMonitor = c.fCurrentMonitor ∧
      c2.proof.fSlaves = c.proof.fSlaves ∧
      c2.proof.fActiveSlaves = c.proof.fActiveSlaves ∧
      c2.proof.fInactiveSlaves = c.proof.fInactiveSlaves ∧
      c2.proof.fBadSlaves = c.proof.fBadSlaves := by
  have h0 : ({ c with fStatus := 0, fRecvMessages := [] } : Session).getMon mon = c.getMon mon := by
    cases mon <;> rfl
  have hlen : (c.getMon mon).fActive.length ≠ 0 := fun h => hact (List.length_eq_zero.mp h)
  obtain ⟨l2, h1, h2, h3, h4, h5⟩ := collectLoop_timeouts io mon c.fCurrentMonitor endtype hsel
    t fuel
    { c := { c with fStatus := 0, fRecvMessages := [], fCurrentMonitor := some mon },
      cnt := 0, nto := t, sto := -1, nsto := 60, iter := 0 }
    hfuel rfl (by cases mon <;> exact hact) (by cases mon <;> exact hstale)
  have hc : Collect fuel c io mon t endtype =
      some { c := { ({ (l2.c.monDo mon (fun m => m.DeActivateAll)) with
                proof := SendGroupView io.sendGroupView
                  (l2.c.monDo mon (fun m => m.DeActivateAll)).proof } : Session) with
              fCurrentMonitor := c.fCurrentMonitor },
             cnt := l2.cnt, selects := l2.iter } := by
    unfold Collect
    simp only [h0, TMonitor.GetActive_fresh _ _ _ (hstale 0)]
    rw [if_neg hlen, ← h0, Session.setMon_getMon]
    simp only []
    rw [h1]
    simp only [h4, if_true]
  rw [hc, h3, h5, h2]
  simp only [Nat.zero_add]
  refine ⟨_, rfl, ?_⟩
  rcases SendGroupView_all_sent io.sendGroupView hsend
    (({ c with fStatus := 0, fRecvMessages := [], fCurrentMonitor := some mon } : Session).monDo
      mon (fun m => m.DeActivateAll)).proof with hs | hs
  all_goals
    rw [hs]
    refine ⟨?_, ?_, rfl, ?_⟩
    · cases mon <;> simp [Session.monDo, Session.setMon, Session.getMon]
    · intro r hr
      cases mon <;> cases r <;> simp_all [Session.monDo, Session.setMon, Session.getMon]
    · cases mon <;> simp [Session.monDo, Session.setMon]

/-- C13 (counterexample): the claim as stated fails.  With an activity
timeout of 30 s and a budget of 100, two activated sockets and nothing but
timed-out waits, the sweep made after 60 iterations finds both sockets stale
and de-activates them, so `Collect` returns after 60 waits, not 100; and when
a group view is pending and cannot be sent to worker 1, the closing
`SendGroupView` moves worker 1 from the active to the bad list although every
wait timed out. -/
theorem C13_counterexample :
    (∀ n, staleIO.select n = Selected.timedOut) ∧
    (pairSession.getMon MonRef.fActiveMonitor).fActive = [1, 2] ∧
    (Collect 200 pairSession staleIO MonRef.fActiveMonitor 100 (-1)).map
      (fun r => (r.cnt, r.selects)) = some (0, 60) ∧
    (∀ n, unreachableIO.select n = Selected.timedOut) ∧
    pendingViewSession.proof.fActiveSlaves = [1, 2] ∧
    pendingViewSession.proof.fBadSlaves = [] ∧
    (Collect 200 pendingViewSession unreachableIO MonRef.fActiveMonitor 2 (-1)).map
      (fun r => (r.cnt, r.selects, r.c.proof.fActiveSlaves, r.c.proof.fBadSlaves)) =
        some (0, 2, [2], [1]) := by
  refine ⟨fun _ => rfl, rfl, ?_, fun _ => rfl, rfl, rfl, ?_⟩
  · decide
  · decide

/-- C13 (amended): for every budget `t ≥ 0` and every monitor with an
activated socket, if every wait times out, no activated socket is found
stale by the activity check, and no group-view message fails to be sent,
then `Collect` makes exactly `t` waits and returns 0; it leaves every socket
of the monitor de-activated, the other monitors and the current-monitor
pointer as they were, and the lists of all, active, inactive and bad workers
unchanged. -/
theorem C13_silent_workers (fuel : Nat) (c : Session) (io : CollectIO) (mon : MonRef)
    (t : Nat) (endtype : Int) (hact : (c.getMon mon).fActive ≠ [])
    (hsel : ∀ n, io.select n = Selected.timedOut)
    (hstale : ∀ n, ∀ s ∈ (c.getMon mon).fActive, io.stale n s = false)
    (hsend : ∀ r w, io.sendGroupView r w = true) (hfuel : t < fuel) :
    ∃ c2, Collect fuel c io mon t endtype = some { c := c2, cnt := 0, selects := t } ∧
      (c2.getMon mon).fActive = [] ∧
      c2.getMon mon = (c.getMon mon).DeActivateAll ∧
      (∀ r, r ≠ mon → c2.getMon r = c.getMon r) ∧
      c2.fCurrentMonitor = c.fCurrentMonitor ∧
      c2.proof.fSlaves = c.proof.fSlaves ∧
      c2.proof.fActiveSlaves = c.proof.fActiveSlaves ∧
      c2.proof.fInactiveSlaves = c.proof.fInactiveSlaves ∧
      c2.proof.fBadSlaves = c.proof.fBadSlaves := by
  obtain ⟨c2, h1, h2, h3⟩ := Collect_timeouts fuel c io mon t endtype hact hsel hstale hsend hfuel
  exact ⟨c2, h1, by rw [h2]; rfl, h2, h3⟩

/-- A use of C13, Scenario D: a budget of 2 on the two silent workers. -/
theorem C13_witness :
    ∃ c2, Collect 3 pairSession silentIO MonRef.fActiveMonitor ((2 : Nat) : Int) (-1) =
        some { c := c2, cnt := 0, selects := 2 } ∧
      (c2.getMon MonRef.fActiveMonitor).fActive = [] ∧
      c2.getMon MonRef.fActiveMonitor =
        (pairSession.getMon MonRef.fActiveMonitor).DeActivateAll ∧
      (∀ r, r ≠ MonRef.fActiveMonitor → c2.getMon r = pairSession.getMon r) ∧
      c2.fCurrentMonitor = pairSession.fCurrentMonitor ∧
      c2.proof.fSlaves = pairSession.proof.fSlaves ∧
      c2.proof.fActiveSlaves = pairSession.proof.fActiveSlaves ∧
      c2.proof.fInactiveSlaves = pairSession.proof.fInactiveSlaves ∧
      c2.proof.fBadSlaves = pairSession.proof.fBadSlaves :=
  C13_silent_workers 3 pairSession silentIO MonRef.fActiveMonitor 2 (-1) (by decide)
    (fun _ => rfl) (fun _ _ _ => rfl) (fun _ _ => rfl) (by decide)

/-! ## The timeout budget -/

theorem timedOutWaits_succ (io : CollectIO) (n : Nat) :
    timedOutWaits io (n + 1) =
      timedOutWaits io n + (if io.select n = Selected.timedOut then 1 else 0) := by
  unfold timedOutWaits
  rw [List.range_succ, List.filter_append, List.length_append]
  by_cases h : io.select n = Selected.timedOut <;> simp [List.filter_cons, h]

theorem collectBody_budget (io : CollectIO) (mon : MonRef) (sm : Option MonRef)
    (endtype : Int) (l : CollectLoop) :
    (collectBody io mon sm endtype l).nto =
      (if io.select l.iter = Selected.timedOut ∧ l.nto > 0 then l.nto - 1 else l.nto) ∧
    (collectBody io mon sm endtype l).iter = l.iter + 1 := by
  unfold collectBody
  cases hs : io.select l.iter with
  | socket s =>
    simp only []
    split_ifs <;> simp_all
  | interrupted =>
    simp only []
    split_ifs <;> simp_all
  | timedOut =>
    simp only []
    split_ifs <;> simp_all

theorem collectCond_budget (io : CollectIO) (mon : MonRef) (l : CollectLoop)
    (h : (collectCond io mon l).2 = true) : l.nto < 0 ∨ l.nto > 0 := by
  unfold collectCond at h
  simp only [Bool.and_eq_true, Bool.or_eq_true, decide_eq_true_eq] at h
  exact h.2

theorem collectTrace_succ (io : CollectIO) (mon : MonRef) (sm : Option MonRef) (endtype : Int)
    (l0 : CollectLoop) (n : Nat) (l2 : CollectLoop)
    (h : collectTrace io mon sm endtype l0 (n + 1) = some l2) :
    ∃ l, collectTrace io mon sm endtype l0 n = some l ∧ (collectCond io mon l).2 = true ∧
      l2 = collectBody io mon sm endtype (collectCond io mon l).1 := by
  rw [collectTrace] at h
  split at h
  · cases h
  · rename_i l hl
    split_ifs at h with hc
    simp only [Option.some.injEq] at h
    exact ⟨l, hl, hc, h.symm⟩

/-- The budget along the loop: it is never negative when it started
positive, and it is the starting value less the timed-out waits made. -/
theorem collectTrace_budget (io : CollectIO) (mon : MonRef) (sm : Option MonRef)
    (endtype : Int) (l0 : CollectLoop) (h0 : l0.iter = 0) :
    ∀ (n : Nat) (l : CollectLoop), collectTrace io mon sm endtype l0 n = some l →
      l.iter = n ∧
      (l0.nto > 0 → 0 ≤ l.nto ∧ l.nto = l0.nto - (timedOutWaits io n : Int)) ∧
      (l0.nto < 0 → l.nto = l0.nto)
  | 0, l, h => by
    simp only [collectTrace, Option.some.injEq] at h
    subst h
    exact ⟨h0, fun hp => ⟨le_of_lt hp, by simp [timedOutWaits]⟩, fun _ => rfl⟩
  | n + 1, l2, h => by
    obtain ⟨l, hl, hc, rfl⟩ := collectTrace_succ io mon sm endtype l0 n l2 h
    obtain ⟨hi, hp, hn⟩ := collectTrace_budget io mon sm endtype l0 h0 n l hl
    have hb := collectBody_budget io mon sm endtype (collectCond io mon l).1
    have hcf := collectCond_fields io mon l
    have hbud := collectCond_budget io mon l hc
    rw [hcf.2.1, hcf.2.2.2.2, hi] at hb
    refine ⟨by rw [hb.2], fun h => ?_, fun h => ?_⟩
    · obtain ⟨h1, h2⟩ := hp h
      have hpos : l.nto > 0 := by omega
      rw [hb.1, timedOutWaits_succ]
      by_cases hs : io.select n = Selected.timedOut
      · rw [if_pos ⟨hs, hpos⟩, if_pos hs]
        push_cast
        omega
      · rw [if_neg (fun hh => hs hh.1), if_neg hs]
        push_cast
        omega
    · have h1 := hn h
      rw [hb.1, if_neg (by omega)]
      exact h1

/-- What the loop returns is a state of its trace at which the condition
fails. -/
theorem collectLoop_trace (io : CollectIO) (mon : MonRef) (sm : Option MonRef) (endtype : Int)
    (l0 : CollectLoop) :
    ∀ (fuel n : Nat) (l l2 : CollectLoop), collectTrace io mon sm endtype l0 n = some l →
      collectLoop io mon sm endtype fuel l = some l2 →
      ∃ k l3, collectTrace io mon sm endtype l0 k = some l3 ∧
        (collectCond io mon l3).2 = false ∧ l2 = (collectCond io mon l3).1
  | 0, n, l, l2, _, h => by simp [collectLoop] at h
  | fuel + 1, n, l, l2, ht, h => by
    unfold collectLoop at h
    simp only [] at h
    split_ifs at h with hc
    · refine collectLoop_trace io mon sm endtype l0 fuel (n + 1) _ l2 ?_ h
      rw [collectTrace, ht]
      simp only [hc, if_true]
    · simp only [Option.some.injEq] at h
      exact ⟨n, l, ht, by simpa using hc, h.symm⟩

/-- C19: in the loop of `Collect` the budget goes down by exactly 1 in an
iteration whose wait timed out while the budget is positive, and is unchanged
in an iteration where a socket was ready or the wait was interrupted.  So,
started with `t > 0`, after `n` iterations the budget is `t` less the number
of timed-out waits among them, whatever the other iterations did, and the
budget test of the loop fails exactly when that number is `t`; the same holds
for the state in which the loop is left.  Started with `t < 0`, the budget
stays `t` and its test never fails. -/
theorem C19_timeout_budget (io : CollectIO) (mon : MonRef) (sm : Option MonRef)
    (endtype : Int) (l0 : CollectLoop) (t : Int) :
    (∀ l : CollectLoop,
      (collectBody io mon sm endtype l).nto =
        (if io.select l.iter = Selected.timedOut ∧ l.nto > 0 then l.nto - 1 else l.nto)) ∧
    (l0.iter = 0 → l0.nto = t → 0 < t →
      ∀ (n : Nat) (l : CollectLoop), collectTrace io mon sm endtype l0 n = some l →
        l.nto = t - (timedOutWaits io n : Int) ∧
        ((decide (l.nto < 0) || decide (l.nto > 0)) = false ↔ (timedOutWaits io n : Int) = t)) ∧
    (l0.iter = 0 → l0.nto = t → 0 < t →
      ∀ (fuel : Nat) (l2 : CollectLoop), collectLoop io mon sm endtype fuel l0 = some l2 →
        l2.nto = t - (timedOutWaits io l2.iter : Int) ∧
        (l2.nto = 0 ↔ (timedOutWaits io l2.iter : Int) = t)) ∧
    (l0.iter = 0 → l0.nto = t → t < 0 →
      ∀ (n : Nat) (l : CollectLoop), collectTrace io mon sm endtype l0 n = some l →
        l.nto = t ∧ (decide (l.nto < 0) || decide (l.nto > 0)) = true) := by
  refine ⟨fun l => (collectBody_budget io mon sm endtype l).1, ?_, ?_, ?_⟩
  · intro h0 ht hp n l hl
    obtain ⟨_, h1, _⟩ := collectTrace_budget io mon sm endtype l0 h0 n l hl
    obtain ⟨h2, h3⟩ := h1 (by omega)
    rw [ht] at h3
    refine ⟨h3, ?_⟩
    simp only [Bool.or_eq_false_iff, decide_eq_false_iff_not]
    constructor
    · intro h; omega
    · intro h; omega
  · intro h0 ht hp fuel l2 hl
    obtain ⟨k, l3, h1, _, h3⟩ := collectLoop_trace io mon sm endtype l0 fuel 0 l0 l2 rfl hl
    obtain ⟨h4, h5, _⟩ := collectTrace_budget io mon sm endtype l0 h0 k l3 h1
    obtain ⟨h6, h7⟩ := h5 (by omega)
    have hcf := collectCond_fields io mon l3
    rw [h3, hcf.2.1, hcf.2.2.2.2, h4, h7, ht]
    refine ⟨rfl, ?_⟩
    constructor
    · intro h; omega
    · intro h; omega
  · intro h0 ht hn n l hl
    obtain ⟨_, _, h1⟩ := collectTrace_budget io mon sm endtype l0 h0 n l hl
    have h2 := h1 (by omega)
    rw [ht] at h2
    refine ⟨h2, ?_⟩
    simp only [Bool.or_eq_true, decide_eq_true_eq]
    left
    omega

/-- A use of C19: with a budget of 2 and the waits ready, timed out, ready,
timed out, the loop is left after four iterations, two messages processed,
when the second timed-out wait has occurred. -/
theorem C19_witness :
    ∃ l2, collectLoop chattyIO MonRef.fActiveMonitor none (-1) 10 (loopStart pairSession 2) =
        some l2 ∧
      l2.nto = 2 - (timedOutWaits chattyIO l2.iter : Int) ∧
      (l2.nto = 0 ↔ (timedOutWaits chattyIO l2.iter : Int) = 2) ∧
      l2.iter = 4 ∧ l2.cnt = 2 := by
  have hsome : ((collectLoop chattyIO MonRef.fActiveMonitor none (-1) 10
      (loopStart pairSession 2)).map (fun l => (l.iter, l.cnt))) = some (4, 2) := by decide
  cases hl : collectLoop chattyIO MonRef.fActiveMonitor none (-1) 10 (loopStart pairSession 2) with
  | none => rw [hl] at hsome; cases hsome
  | some l2 =>
    rw [hl] at hsome
    simp only [Option.map_some', Option.some.injEq, Prod.mk.injEq] at hsome
    have h := (C19_timeout_budget chattyIO MonRef.fActiveMonitor none (-1)
      (loopStart pairSession 2) 2).2.2.1 rfl rfl (by decide) 10 l2 hl
    exact ⟨l2, rfl, h.1, h.2, hsome.1, hsome.2⟩

/-! ## Nested Collect -/

theorem TMonitor.DeActivate_lists (m : TMonitor) (s : Nat) :
    (m.DeActivate s).fActive = m.fActive.erase s ∧
    (s ∈ m.fActive → (m.DeActivate s).fDeActive = m.fDeActive ++ [s]) := by
  unfold TMonitor.DeActivate
  split_ifs with h
  · exact ⟨rfl, fun _ => rfl⟩
  · exact ⟨(List.erase_of_not_mem h).symm, fun h2 => absurd h2 h⟩

theorem collectBody_done_outer (io : CollectIO) (mon sm : MonRef)
    (endtype : Int) (l : CollectLoop) (s w : Nat) (what : Int) (effect : Session → Session)
    (hsel : io.select l.iter = Selected.socket s)
    (hin : io.input l.iter = Input.message what 1 effect)
    (hw : FindSlave l.c.proof s = some w) (he : 0 ≤ endtype) (h : what ≠ endtype) :
    (collectBody io mon (some sm) endtype l).c =
      (effect l.c).monDo sm (fun m => m.DeActivate s) ∧
    (collectBody io mon (some sm) endtype l).cnt = l.cnt + 1 := by
  have hrc : (if (1 : Int) = 1 ∧ endtype ≥ 0 ∧ what ≠ endtype then (2 : Int) else 1) = 2 :=
    if_pos ⟨rfl, he, h⟩
  unfold collectBody
  rw [hsel]
  simp only [CollectInputFrom, hin, hw, hrc]
  split_ifs <;> simp_all

theorem collectBody_done_inner (io : CollectIO) (mon : MonRef) (sm : Option MonRef)
    (endtype : Int) (l : CollectLoop) (s w : Nat) (what : Int) (effect : Session → Session)
    (hsel : io.select l.iter = Selected.socket s)
    (hin : io.input l.iter = Input.message what 1 effect)
    (hw : FindSlave l.c.proof s = some w) (h : what = endtype) :
    (collectBody io mon sm endtype l).c =
      (effect l.c).monDo mon (fun m => m.DeActivate s) ∧
    (collectBody io mon sm endtype l).cnt = l.cnt + 1 := by
  have hrc : (if (1 : Int) = 1 ∧ endtype ≥ 0 ∧ what ≠ endtype then (2 : Int) else 1) = 1 :=
    if_neg (fun hh => hh.2.2 h)
  unfold collectBody
  rw [hsel]
  simp only [CollectInputFrom, hin, hw, hrc]
  split_ifs <;> simp_all

/-- C14: in a `Collect` entered while the monitor `sm` was current (the
saved monitor) and run with an end kind `endtype ≥ 0` on another monitor
`mon`, a message from socket `s` for which the handler returns 1 (done) is
counted and, when its kind differs from `endtype`, de-activates `s` in the
saved monitor and leaves the monitor `mon` as the handler left it, so `s`
stays activated there; when its kind is `endtype`, it de-activates `s` in
`mon` and leaves the saved monitor as the handler left it. -/
theorem C14_done_for_outer (io : CollectIO) (mon sm : MonRef) (endtype : Int)
    (l : CollectLoop) (s w : Nat) (what : Int) (effect : Session → Session)
    (hsel : io.select l.iter = Selected.socket s)
    (hin : io.input l.iter = Input.message what 1 effect)
    (hw : FindSlave l.c.proof s = some w) (he : 0 ≤ endtype) (hne : sm ≠ mon) :
    (collectBody io mon (some sm) endtype l).cnt = l.cnt + 1 ∧
    (what ≠ endtype →
      (collectBody io mon (some sm) endtype l).c.getMon sm =
        ((effect l.c).getMon sm).DeActivate s ∧
      ((collectBody io mon (some sm) endtype l).c.getMon sm).fActive =
        ((effect l.c).getMon sm).fActive.erase s ∧
      (collectBody io mon (some sm) endtype l).c.getMon mon = (effect l.c).getMon mon) ∧
    (what = endtype →
      (collectBody io mon (some sm) endtype l).c.getMon mon =
        ((effect l.c).getMon mon).DeActivate s ∧
      ((collectBody io mon (some sm) endtype l).c.getMon mon).fActive =
        ((effect l.c).getMon mon).fActive.erase s ∧
      (collectBody io mon (some sm) endtype l).c.getMon sm = (effect l.c).getMon sm) := by
  by_cases h : what = endtype
  · obtain ⟨hc, hn⟩ := collectBody_done_inner io mon (some sm) endtype l s w what effect hsel hin
      hw h
    rw [hc, hn]
    have h3 : ((effect l.c).monDo mon (fun m => m.DeActivate s)).getMon mon =
        ((effect l.c).getMon mon).DeActivate s := by
      simp [Session.monDo, Session.getMon_setMon]
    refine ⟨rfl, fun h2 => absurd h h2, fun _ => ⟨h3, ?_, ?_⟩⟩
    · rw [h3]
      exact (TMonitor.DeActivate_lists _ _).1
    · simp only [Session.monDo]
      exact Session.getMon_setMon_ne _ mon sm _ hne
  · obtain ⟨hc, hn⟩ := collectBody_done_outer io mon sm endtype l s w what effect hsel hin hw he h
    rw [hc, hn]
    have h3 : ((effect l.c).monDo sm (fun m => m.DeActivate s)).getMon sm =
        ((effect l.c).getMon sm).DeActivate s := by
      simp [Session.monDo, Session.getMon_setMon]
    refine ⟨rfl, fun _ => ⟨h3, ?_, ?_⟩, fun h2 => absurd h2 h⟩
    · rw [h3]
      exact (TMonitor.DeActivate_lists _ _).1
    · simp only [Session.monDo]
      exact Session.getMon_setMon_ne _ sm mon _ (Ne.symm hne)

/-- A use of C14: a `Collect` with end kind 7 on the monitor of all workers,
nested in one on the monitor of the active workers.  The message of kind 6
from worker 1 de-activates socket 1 in the saved monitor and leaves it
activated in the inner one; over the whole call, which the message of kind 7
ends, two messages are counted. -/
theorem C14_witness :
    ((collectBody nestedIO MonRef.fAllMonitor (some MonRef.fActiveMonitor) 7
      (loopStart nestedSession (-1))).c.getMon MonRef.fActiveMonitor).fActive = [2] ∧
    ((collectBody nestedIO MonRef.fAllMonitor (some MonRef.fActiveMonitor) 7
      (loopStart nestedSession (-1))).c.getMon MonRef.fAllMonitor).fActive = [1] ∧
    (Collect 5 nestedSession nestedIO MonRef.fAllMonitor (-1) 7).map
      (fun r => (r.cnt, (r.c.getMon MonRef.fActiveMonitor).fActive,
        (r.c.getMon MonRef.fAllMonitor).fActive, r.c.fCurrentMonitor)) =
      some (2, [2], [], some MonRef.fActiveMonitor) := by
  have h := (C14_done_for_outer nestedIO MonRef.fAllMonitor MonRef.fActiveMonitor 7
    (loopStart nestedSession (-1)) 1 1 6 (fun c => c) rfl rfl rfl (by decide) (by decide)).2.1
    (by decide)
  refine ⟨?_, ?_, by decide⟩
  · rw [h.2.1]
    decide
  · rw [h.2.2]
    decide

/-- C20 (what the code does): `Collect` on a list counts messages, not
workers: an iteration of the loop adds 1 to the count exactly when a socket
was ready and `CollectInputFrom` gave no error on it, whether or not the
worker was counted before.  On the list of the single worker 1, which sends
a message after which more is expected and then a message that ends its
answer, it returns 2. -/
theorem C20_collect_counts_messages :
    (∀ (io : CollectIO) (mon : MonRef) (sm : Option MonRef) (endtype : Int) (l : CollectLoop),
      (collectBody io mon sm endtype l).cnt =
        match io.select l.iter with
        | Selected.socket s =>
          if (CollectInputFrom l.c (io.input l.iter) s endtype).2 ≥ 0 then l.cnt + 1 else l.cnt
        | _ => l.cnt) ∧
    ([1] : List Nat).length = 1 ∧
    (CollectList 10 pairSession chattyIO [1] (-1) (-1)).map (fun r => (r.cnt, r.selects)) =
      some (2, 3) := by
  refine ⟨?_, rfl, by decide⟩
  intro io mon sm endtype l
  unfold collectBody
  cases h : io.select l.iter <;> simp only [] <;> split_ifs <;> rfl

/-! ## CheckFile -/

theorem collectFrom_fields (c : Session) (sl : Nat) (e : WorkerCollect) :
    (collectFrom c sl e).fFileMap = c.fFileMap ∧
    (collectFrom c sl e).sent = c.sent ∧
    (collectFrom c sl e).checksums = c.checksums ∧
    (collectFrom c sl e).fName = c.fName := by
  unfold collectFrom
  split_ifs
  · exact ⟨rfl, rfl, rfl, rfl⟩
  · cases e.reply <;> exact ⟨rfl, rfl, rfl, rfl⟩

theorem collectFrom_status (c : Session) (sl : Nat) (e : WorkerCollect) :
    (collectFrom { c with fCheckFileStatus := 0 } sl e).fCheckFileStatus =
      reportedStatus c sl e := by
  unfold collectFrom reportedStatus
  simp only []
  split_ifs
  · rfl
  · cases e.reply <;> rfl

theorem confirmFile_spec (c : Session) (io : CheckFileIO) (slave : Nat) :
    (confirmFile c io slave).1 =
      collectFrom { c with sent := c.sent ++ [(slave, "kPROOF_CHECKFILE")], fCheckFileStatus := 0 }
        slave io.confirm ∧
    (confirmFile c io slave).1.fFileMap = c.fFileMap ∧
    (confirmFile c io slave).1.sent = c.sent ++ [(slave, "kPROOF_CHECKFILE")] ∧
    (confirmFile c io slave).1.checksums = c.checksums ∧
    (confirmFile c io slave).1.fCheckFileStatus = reportedStatus c slave io.confirm ∧
    (confirmFile c io slave).2 = decide (reportedStatus c slave io.confirm = 0) := by
  have hf := collectFrom_fields
    { c with sent := c.sent ++ [(slave, "kPROOF_CHECKFILE")], fCheckFileStatus := 0 } slave
    io.confirm
  have hs := collectFrom_status { c with sent := c.sent ++ [(slave, "kPROOF_CHECKFILE")] } slave
    io.confirm
  have hr : reportedStatus { c with sent := c.sent ++ [(slave, "kPROOF_CHECKFILE")] } slave
      io.confirm = reportedStatus c slave io.confirm := rfl
  rw [hr] at hs
  refine ⟨rfl, hf.1, hf.2.1, hf.2.2.1, hs, ?_⟩
  unfold confirmFile
  simp only []
  rw [hs]

/-- C15: when the file map has an entry for the worker and the file and the
modification time passed equals the recorded one, `CheckFile` returns false
and leaves the whole session as it was: no message is sent, no checksum is
computed, and the file map is unchanged. -/
theorem C15_cache_hit (c : Session) (io : CheckFileIO) (file : String) (slave : Nat)
    (modtime : Int) (cpopt : Nat) (md : MD5Mod_t)
    (h : c.fFileMap (fileKey c slave io.base) = some md) (hm : md.fModtime = modtime) :
    CheckFile c io file slave modtime cpopt = (c, false) := by
  unfold CheckFile
  simp only [h, hm, ne_eq, not_true_eq_false, if_false]

/-- A use of C15: a first `CheckFile` of `macro.C` for worker 1 records an
entry, and a second one with the same modification time returns false and
changes nothing. -/
theorem C15_witness :
    (CheckFile pairSession (macroCheck 11 1) "macro.C" 1 100 0).1.fFileMap
      (fileKey (CheckFile pairSession (macroCheck 11 1) "macro.C" 1 100 0).1 1 "macro.C") =
      some { fMD5 := 11, fModtime := 100 } ∧
    CheckFile (CheckFile pairSession (macroCheck 11 1) "macro.C" 1 100 0).1 (macroCheck 12 0)
      "macro.C" 1 100 0 =
      ((CheckFile pairSession (macroCheck 11 1) "macro.C" 1 100 0).1, false) :=
  ⟨by decide,
   C15_cache_hit (CheckFile pairSession (macroCheck 11 1) "macro.C" 1 100 0).1 (macroCheck 12 0)
    "macro.C" 1 100 0 { fMD5 := 11, fModtime := 100 } (by decide) rfl⟩

/-- C16 (counterexample): the claim as stated fails.  With the checksum 11
and the modification time 100 recorded, a call with modification time 200
and the unchanged checksum 11 returns false although the time differs, and a
call with the recorded time 100 for a file whose checksum is now 12 returns
false although the checksum differs (it is not even computed). -/
theorem C16_counterexample :
    cachedSession.fFileMap (fileKey cachedSession 1 "macro.C") =
      some { fMD5 := 11, fModtime := 100 } ∧
    (CheckFile cachedSession (macroCheck 11 0) "macro.C" 1 200 0).2 = false ∧
    (CheckFile cachedSession (macroCheck 12 0) "macro.C" 1 100 0).2 = false ∧
    (CheckFile cachedSession (macroCheck 12 0) "macro.C" 1 100 0).1.checksums = [] := by
  decide

/-- C16 (amended): with an entry recorded for the worker and the file,
`CheckFile` returns true exactly when the modification time differs from the
recorded one and the checksum can be computed and differs from the recorded
one and, on a master, the confirmation round-trip leaves the status 0 (the
worker does not report the file present). -/
theorem C16_cache_miss (c : Session) (io : CheckFileIO) (file : String) (slave : Nat)
    (modtime : Int) (cpopt : Nat) (md : MD5Mod_t)
    (h : c.fFileMap (fileKey c slave io.base) = some md) :
    (CheckFile c io file slave modtime cpopt).2 = true ↔
      md.fModtime ≠ modtime ∧
      ∃ md5, io.md5 = some md5 ∧ md5 ≠ md.fMD5 ∧
        (c.proof.kIsMaster = true → reportedStatus c slave io.confirm = 0) := by
  unfold CheckFile
  simp only [h]
  by_cases hm : md.fModtime = modtime
  · simp [hm]
  · rw [if_pos hm]
    cases hmd : io.md5 with
    | none => simp
    | some md5 =>
      simp only []
      by_cases hx : md5 = md.fMD5
      · simp [hx, hm]
      · rw [if_pos hx]
        by_cases hk : c.proof.kIsMaster = true
        · rw [if_pos hk]
          have hs := (confirmFile_spec
            { c with
              checksums := c.checksums ++ [file]
              fFileMap := Function.update c.fFileMap (fileKey c slave io.base)
                (some { fMD5 := md5, fModtime := modtime }) } io slave).2.2.2.2.2
          rw [hs]
          have hr : reportedStatus
              { c with
                checksums := c.checksums ++ [file]
                fFileMap := Function.update c.fFileMap (fileKey c slave io.base)
                  (some { fMD5 := md5, fModtime := modtime }) } slave io.confirm =
              reportedStatus c slave io.confirm := rfl
          rw [hr]
          simp [hm, hx, hk]
        · rw [if_neg hk]
          simp [hm, hx, hk]

/-- A use of C16: time and checksum both changed and the worker reports the
file absent, so the file has to be sent. -/
theorem C16_witness :
    (CheckFile cachedSession (macroCheck 12 0) "macro.C" 1 200 0).2 = true ↔
      (100 : Int) ≠ 200 ∧
      ∃ md5, (macroCheck 12 0).md5 = some md5 ∧ md5 ≠ 11 ∧
        (cachedSession.proof.kIsMaster = true →
          reportedStatus cachedSession 1 (macroCheck 12 0).confirm = 0) :=
  C16_cache_miss cachedSession (macroCheck 12 0) "macro.C" 1 200 0 { fMD5 := 11, fModtime := 100 }
    (by decide)

/-- C17: when the file map has no entry for the worker and the file and the
checksum can be computed, `CheckFile` records the checksum and the
modification time under the key, sends one `kPROOF_CHECKFILE` request and
collects once from the worker, and returns true exactly when the status is 0
afterwards: for a valid worker whose reply carries the status `st`, false
when `st` is not 0 (file present) and true when it is 0 (file absent); the
entry is recorded in both cases.  When the checksum cannot be computed it
returns false, sends nothing and records nothing. -/
theorem C17_first_check (c : Session) (io : CheckFileIO) (file : String) (slave : Nat)
    (modtime : Int) (cpopt : Nat) (hno : c.fFileMap (fileKey c slave io.base) = none) :
    (∀ md5, io.md5 = some md5 →
      (CheckFile c io file slave modtime cpopt).1 =
        collectFrom
          { c with
            checksums := c.checksums ++ [file]
            fFileMap := Function.update c.fFileMap (fileKey c slave io.base)
              (some { fMD5 := md5, fModtime := modtime })
            sent := c.sent ++ [(slave, "kPROOF_CHECKFILE")]
            fCheckFileStatus := 0 } slave io.confirm ∧
      (CheckFile c io file slave modtime cpopt).1.fFileMap =
        Function.update c.fFileMap (fileKey c slave io.base)
          (some { fMD5 := md5, fModtime := modtime }) ∧
      (CheckFile c io file slave modtime cpopt).1.sent =
        c.sent ++ [(slave, "kPROOF_CHECKFILE")] ∧
      ((CheckFile c io file slave modtime cpopt).2 = true ↔
        (CheckFile c io file slave modtime cpopt).1.fCheckFileStatus = 0) ∧
      ((c.proof.obj slave).fValid = true → ∀ st, io.confirm.reply = some (some st) →
        (CheckFile c io file slave modtime cpopt).1.fCheckFileStatus = st ∧
        ((CheckFile c io file slave modtime cpopt).2 = true ↔ st = 0))) ∧
    (io.md5 = none →
      (CheckFile c io file slave modtime cpopt).2 = false ∧
      (CheckFile c io file slave modtime cpopt).1.fFileMap = c.fFileMap ∧
      (CheckFile c io file slave modtime cpopt).1.sent = c.sent) := by
  constructor
  · intro md5 hmd
    have hc : CheckFile c io file slave modtime cpopt =
        confirmFile
          { c with
            checksums := c.checksums ++ [file]
            fFileMap := Function.update c.fFileMap (fileKey c slave io.base)
              (some { fMD5 := md5, fModtime := modtime }) } io slave := by
      unfold CheckFile
      simp only [hno, hmd]
    have hs := confirmFile_spec
      { c with
        checksums := c.checksums ++ [file]
        fFileMap := Function.update c.fFileMap (fileKey c slave io.base)
          (some { fMD5 := md5, fModtime := modtime }) } io slave
    have hr : reportedStatus
        { c with
          checksums := c.checksums ++ [file]
          fFileMap := Function.update c.fFileMap (fileKey c slave io.base)
            (some { fMD5 := md5, fModtime := modtime }) } slave io.confirm =
        reportedStatus c slave io.confirm := rfl
    rw [hr] at hs
    rw [hc]
    refine ⟨hs.1, hs.2.1, hs.2.2.1, ?_, ?_⟩
    · rw [hs.2.2.2.2.2, hs.2.2.2.2.1]
      simp
    · intro hv st hst
      have hrs : reportedStatus c slave io.confirm = st := by
        simp [reportedStatus, hv, hst, handleCheckFile]
      rw [hs.2.2.2.2.2, hs.2.2.2.2.1, hrs]
      simp
  · intro hmd
    unfold CheckFile
    simp [hno, hmd]

/-- A use of C17: the first `CheckFile` of `macro.C` for worker 1 returns
false when the worker reports the file present, true when it reports it
absent. -/
theorem C17_witness :
    ((CheckFile pairSession (macroCheck 11 1) "macro.C" 1 100 0).1.fCheckFileStatus = 1 ∧
      ((CheckFile pairSession (macroCheck 11 1) "macro.C" 1 100 0).2 = true ↔ (1 : Int) = 0)) ∧
    ((CheckFile pairSession (macroCheck 11 0) "macro.C" 1 100 0).1.fCheckFileStatus = 0 ∧
      ((CheckFile pairSession (macroCheck 11 0) "macro.C" 1 100 0).2 = true ↔ (0 : Int) = 0)) :=
  ⟨((C17_first_check pairSession (macroCheck 11 1) "macro.C" 1 100 0 (by decide)).1 11 rfl).2.2.2.2
      (by decide) 1 rfl,
   ((C17_first_check pairSession (macroCheck 11 0) "macro.C" 1 100 0 (by decide)).1 11 rfl).2.2.2.2
      (by decide) 0 rfl⟩

/-! ## SendFile -/

/-- C18 (what the code does): a worker to which a raw write fails is handed
to `MarkBad` and is counted all the same.  Sending a file with `kForce` to
worker 1 alone, with the first raw write failing, returns 1 and leaves
worker 1 in the bad list; when already the request cannot be sent, the worker
is marked bad too and the call returns 0. -/
theorem C18_failed_transfer_is_counted :
    (SendFile pairSession brokenPipeIO "macro.C" (kBinary ||| kForce) none (some 1)).2 = 1 ∧
    (SendFile pairSession brokenPipeIO "macro.C" (kBinary ||| kForce) none
      (some 1)).1.proof.fBadSlaves = [1] ∧
    (SendFile pairSession brokenPipeIO "macro.C" (kBinary ||| kForce) none
      (some 1)).1.proof.fActiveSlaves = [2] ∧
    (SendFile pairSession brokenPipeIO "macro.C" (kBinary ||| kForce) none
      (some 1)).1.proof.markBadCalls = [some 1] ∧
    (SendFile pairSession noRequestIO "macro.C" (kBinary ||| kForce) none (some 1)).2 = 0 ∧
    (SendFile pairSession noRequestIO "macro.C" (kBinary ||| kForce) none
      (some 1)).1.proof.fBadSlaves = [1] := by
  decide

/-! ## Collect outside any other Collect -/

theorem collectBody_top_level (io : CollectIO) (mon : MonRef) (endtype : Int)
    (l : CollectLoop) (s w : Nat) (what rc : Int) (effect : Session → Session)
    (hsel : io.select l.iter = Selected.socket s)
    (hin : io.input l.iter = Input.message what rc effect)
    (hw : FindSlave l.c.proof s = some w) (hrc : rc ≠ 2) :
    (collectBody io mon none endtype l).c =
      (if rc = 1 then (effect l.c).monDo mon (fun m => m.DeActivate s) else effect l.c) := by
  by_cases h1 : rc = 1
  · have hrc2 : (if rc = 1 ∧ endtype ≥ 0 ∧ what ≠ endtype then (2 : Int) else rc) = 1 ∨
        (if rc = 1 ∧ endtype ≥ 0 ∧ what ≠ endtype then (2 : Int) else rc) = 2 := by
      split_ifs
      · exact Or.inr rfl
      · exact Or.inl h1
    unfold collectBody
    rw [hsel]
    simp only [CollectInputFrom, hin, hw]
    rcases hrc2 with h | h <;> simp only [h] <;> split_ifs <;> simp_all
  · have hrc2 : (if rc = 1 ∧ endtype ≥ 0 ∧ what ≠ endtype then (2 : Int) else rc) = rc :=
      if_neg (fun hh => h1 hh.1)
    unfold collectBody
    rw [hsel]
    simp only [CollectInputFrom, hin, hw, hrc2]
    split_ifs <;> simp_all

/-- C21 (counterexample): the claim as stated fails.  In a `Collect` that is
not nested, with end kind 7, a message of kind 6 from worker 1 for which the
handler returns 1 de-activates socket 1 in the monitor of the call; on the
list of worker 1 alone the call ends after this message, though no message
of kind 7 arrived. -/
theorem C21_counterexample :
    pairSession.fCurrentMonitor = none ∧
    nestedIO.select 0 = Selected.socket 1 ∧
    (pairSession.getMon MonRef.fActiveMonitor).fActive = [1, 2] ∧
    ((collectBody nestedIO MonRef.fActiveMonitor none 7
      (loopStart pairSession (-1))).c.getMon MonRef.fActiveMonitor).fActive = [2] ∧
    (CollectList 5 pairSession nestedIO [1] (-1) 7).map (fun r => (r.cnt, r.selects)) =
      some (1, 1) := by
  refine ⟨rfl, rfl, rfl, by decide, by decide⟩

/-- C21 (amended): in a `Collect` that is not nested (no monitor saved), for
every end kind, handling a message from a socket de-activates the socket in
the monitor of the call exactly when the handler returns 1 (done), whatever
the kind of the message: a done message of a kind other than the end kind
de-activates the socket just as one of the end kind does, and a message for
which the handler returns 0 or -1 leaves the monitors as the handler left
them. -/
theorem C21_top_level_done (io : CollectIO) (mon : MonRef) (endtype : Int)
    (l : CollectLoop) (s w : Nat) (what rc : Int) (effect : Session → Session)
    (hsel : io.select l.iter = Selected.socket s)
    (hin : io.input l.iter = Input.message what rc effect)
    (hw : FindSlave l.c.proof s = some w) (hrc : rc = -1 ∨ rc = 0 ∨ rc = 1) :
    (collectBody io mon none endtype l).c =
      (if rc = 1 then (effect l.c).monDo mon (fun m => m.DeActivate s) else effect l.c) ∧
    (rc = 1 →
      (collectBody io mon none endtype l).c.getMon mon =
        ((effect l.c).getMon mon).DeActivate s ∧
      ((collectBody io mon none endtype l).c.getMon mon).fActive =
        ((effect l.c).getMon mon).fActive.erase s) ∧
    (rc ≠ 1 → ∀ r, (collectBody io mon none endtype l).c.getMon r = (effect l.c).getMon r) := by
  have h := collectBody_top_level io mon endtype l s w what rc effect hsel hin hw (by omega)
  refine ⟨h, fun h1 => ?_, fun h1 r => ?_⟩
  · rw [h, if_pos h1]
    have h3 : ((effect l.c).monDo mon (fun m => m.DeActivate s)).getMon mon =
        ((effect l.c).getMon mon).DeActivate s := by
      simp [Session.monDo, Session.getMon_setMon]
    rw [h3]
    exact ⟨rfl, (TMonitor.DeActivate_lists _ _).1⟩
  · rw [h, if_neg h1]

/-- A use of C21: at top level, with end kind 7, the done message of kind 6
from worker 1 de-activates socket 1 in the monitor of the active workers. -/
theorem C21_witness :
    ((collectBody nestedIO MonRef.fActiveMonitor none 7
      (loopStart pairSession (-1))).c.getMon MonRef.fActiveMonitor).fActive =
      (pairSession.getMon MonRef.fActiveMonitor).fActive.erase 1 :=
  ((C21_top_level_done nestedIO MonRef.fActiveMonitor 7 (loopStart pairSession (-1)) 1 1 6 1
    (fun c => c) rfl rfl rfl (Or.inr (Or.inr rfl))).2.1 rfl).2

/-! ## The period of the activity check -/

theorem collectBody_sweep (io : CollectIO) (mon : MonRef) (sm : Option MonRef)
    (endtype : Int) (l : CollectLoop) :
    (collectBody io mon sm endtype l).nsto = (if l.nsto - 1 ≤ 0 then 60 else l.nsto - 1) ∧
    (collectBody io mon sm endtype l).sto = (if l.nsto - 1 ≤ 0 then io.actto else -1) := by
  unfold collectBody
  cases hs : io.select l.iter with
  | socket s =>
    simp only []
    split_ifs <;> simp_all
  | interrupted =>
    simp only []
    split_ifs <;> simp_all
  | timedOut =>
    simp only []
    split_ifs <;> simp_all

theorem collectTrace_sweep (io : CollectIO) (mon : MonRef) (sm : Option MonRef)
    (endtype : Int) (l0 : CollectLoop) (h1 : l0.nsto = 60) (h2 : l0.sto = -1) :
    ∀ (n : Nat) (l : CollectLoop), collectTrace io mon sm endtype l0 n = some l →
      l.nsto = 60 - ((n % 60 : Nat) : Int) ∧
      l.sto = (if 0 < n ∧ n % 60 = 0 then io.actto else -1)
  | 0, l, h => by
    simp only [collectTrace, Option.some.injEq] at h
    subst h
    exact ⟨by simp [h1], by simp [h2]⟩
  | n + 1, l2, h => by
    obtain ⟨l, hl, _, rfl⟩ := collectTrace_succ io mon sm endtype l0 n l2 h
    obtain ⟨hn, _⟩ := collectTrace_sweep io mon sm endtype l0 h1 h2 n l hl
    have hb := collectBody_sweep io mon sm endtype (collectCond io mon l).1
    have hcf := collectCond_fields io mon l
    rw [hcf.2.2.2.1, hn] at hb
    rw [hb.1, hb.2]
    by_cases h59 : n % 60 = 59
    · have h0 : (n + 1) % 60 = 0 := by omega
      have e1 : (60 : Int) - ((n % 60 : Nat) : Int) - 1 ≤ 0 := by omega
      have e2 : 0 < n + 1 ∧ (n + 1) % 60 = 0 := ⟨by omega, h0⟩
      rw [if_pos e1, if_pos e1, if_pos e2, h0]
      simp
    · have h0 : (n + 1) % 60 = n % 60 + 1 := by omega
      have e1 : ¬ ((60 : Int) - ((n % 60 : Nat) : Int) - 1 ≤ 0) := by omega
      have e2 : ¬ (0 < n + 1 ∧ (n + 1) % 60 = 0) := by omega
      rw [if_neg e1, if_neg e1, if_neg e2, h0]
      refine ⟨?_, rfl⟩
      push_cast
      omega

/-- C25 (what the code does): the activity timeout is passed to the active
count of the monitor once every 60 iterations of the loop, not every 10.
When the condition of the loop is evaluated with `n` iterations done, the
argument is the activity timeout if `n` is a positive multiple of 60 and -1
(no check) otherwise; with nothing but timed-out waits the argument is -1
after 10 iterations and the timeout, 600000, after 60. -/
theorem C25_activity_check_every_60 :
    (∀ (io : CollectIO) (mon : MonRef) (sm : Option MonRef) (endtype : Int) (c : Session)
      (timeout : Int) (n : Nat),
      (collectTrace io mon sm endtype (loopStart c timeout) n).map (fun l => l.sto) =
        (collectTrace io mon sm endtype (loopStart c timeout) n).map
          (fun _ => if 0 < n ∧ n % 60 = 0 then io.actto else -1)) ∧
    (collectTrace silentIO MonRef.fActiveMonitor none (-1) (loopStart pairSession 100) 10).map
      (fun l => l.sto) = some (-1) ∧
    (collectTrace silentIO MonRef.fActiveMonitor none (-1) (loopStart pairSession 100) 60).map
      (fun l => l.sto) = some 600000 := by
  refine ⟨?_, by decide, by decide⟩
  intro io mon sm endtype c timeout n
  cases h : collectTrace io mon sm endtype (loopStart c timeout) n with
  | none => rfl
  | some l =>
    simp only [Option.map_some', Option.some.injEq]
    exact (collectTrace_sweep io mon sm endtype (loopStart c timeout) rfl rfl n l h).2

/-! ## ActivateWorker and DeactivateWorker by ordinal -/

theorem modifyLoop_first_match (ord : String) (add : Bool)
    (hs : ord.toList.head? ≠ some '*') :
    ∀ (l : List Nat) (p : TProof) (moved : Bool),
      modifyLoop ord add l p moved =
        match l.find? (fun w => ord.toList.isPrefixOf (p.obj w).fOrdinal.toList) with
        | some w => (moveWorker add p w, true)
        | none => (p, moved)
  | [], p, moved => rfl
  | wrk :: rest, p, moved => by
    have hm : ordMatches ord (p.obj wrk).fOrdinal =
        ord.toList.isPrefixOf (p.obj wrk).fOrdinal.toList := by
      unfold ordMatches
      have : (ord.toList.head? == some '*') = false := by
        simpa using hs
      rw [this, Bool.false_or]
    unfold modifyLoop
    rw [hm, List.find?_cons]
    cases hp : ord.toList.isPrefixOf (p.obj wrk).fOrdinal.toList with
    | true => rw [if_pos rfl, if_neg hs]
    | false =>
      simp only [Bool.false_eq_true, if_false]
      exact modifyLoop_first_match ord add hs rest p moved

/-- C23 (what the code does): `ModifyWorkerLists` compares the ordinal of a
worker with `ord` over the length of `ord` only, so for an `ord` that does
not start with a star it moves the first worker of the list whose ordinal
begins with `ord`.  With the workers `0.10` and `0.1` inactive in this order,
`ActivateWorker("0.1")` activates the worker `0.10` and leaves the worker
`0.1` inactive; with the worker `0.10` alone, it activates it although no
worker has the ordinal `0.1`. -/
theorem C23_ordinal_prefix_match :
    (∀ (ord : String) (add : Bool) (l : List Nat) (p : TProof),
      modifyLoop ord add l p false =
        if ord.toList.head? = some '*' then modifyLoop ord add l p false
        else
          match l.find? (fun w => ord.toList.isPrefixOf (p.obj w).fOrdinal.toList) with
          | some w => (moveWorker add p w, true)
          | none => (p, false)) ∧
    wideSession.fEndMaster = true ∧ wideSession.kIsMaster = true ∧
    (wideSession.obj 1).fOrdinal = "0.10" ∧ (wideSession.obj 2).fOrdinal = "0.1" ∧
    wideSession.fActiveSlaves = [] ∧ wideSession.fInactiveSlaves = [1, 2] ∧
    (ActivateWorker wideSession quietModify (some "0.1")).fActiveSlaves = [1] ∧
    (ActivateWorker wideSession quietModify (some "0.1")).fInactiveSlaves = [2] ∧
    loneSession.fInactiveSlaves = [1] ∧
    (ActivateWorker loneSession quietModify (some "0.1")).fActiveSlaves = [1] ∧
    (ActivateWorker loneSession quietModify (some "0.1")).fInactiveSlaves = [] := by
  refine ⟨?_, by decide⟩
  intro ord add l p
  split_ifs with h
  · rfl
  · exact modifyLoop_first_match ord add h l p false

/-! ## MarkBad twice -/

theorem MarkBad_twice_bad (p : TProof) (w : Nat) (reason : Option String)
    (hv : p.fValid = true) (hm : p.fMasterServ = true)
    (hr : reason ≠ some kPROOF_TerminateWorker) :
    (MarkBad p (some w) reason).fBadSlaves = p.fBadSlaves ++ [w] ∧
    (MarkBad (MarkBad p (some w) reason) (some w) reason).fBadSlaves =
      p.fBadSlaves ++ [w, w] := by
  have h1 := MarkBad_badStep p w reason hv hm hr
  have h2 := MarkBad_badStep (MarkBad p (some w) reason) w reason h1.fValid h1.fMasterServ hr
  refine ⟨h1.fBadSlaves, ?_⟩
  rw [h2.fBadSlaves, h1.fBadSlaves]
  simp

/-- C24 (what the code does): `MarkBad` is not idempotent on the bad list.
On a valid master session each call with a reason other than the sentinel
appends the worker to the list of bad workers, so after two calls the worker
is there once more than after one and `GetNumberOfBadSlaves`, the size of
the list, has grown by 2.  On the two-level cluster, marking worker 2 bad
twice leaves the other lists as after one call and the bad list `[2, 2]`. -/
theorem C24_markBad_twice :
    (∀ (p : TProof) (w : Nat) (reason : String),
      (MarkBad (MarkBad p (some w) (some reason)) (some w) (some reason)).fBadSlaves =
        if p.fValid = true ∧ p.fMasterServ = true ∧ reason ≠ kPROOF_TerminateWorker then
          (MarkBad p (some w) (some reason)).fBadSlaves ++ [w]
        else (MarkBad (MarkBad p (some w) (some reason)) (some w) (some reason)).fBadSlaves) ∧
    clusterSession.fValid = true ∧ clusterSession.fMasterServ = true ∧
    (MarkBad clusterSession (some 2) (some "worker lost")).fBadSlaves = [2] ∧
    (MarkBad (MarkBad clusterSession (some 2) (some "worker lost")) (some 2)
      (some "worker lost")).fBadSlaves = [2, 2] ∧
    (MarkBad (MarkBad clusterSession (some 2) (some "worker lost")) (some 2)
      (some "worker lost")).fBadSlaves.length = 2 ∧
    (MarkBad (MarkBad clusterSession (some 2) (some "worker lost")) (some 2)
      (some "worker lost")).fSlaves =
      (MarkBad clusterSession (some 2) (some "worker lost")).fSlaves ∧
    (MarkBad (MarkBad clusterSession (some 2) (some "worker lost")) (some 2)
      (some "worker lost")).fActiveSlaves =
      (MarkBad clusterSession (some 2) (some "worker lost")).fActiveSlaves ∧
    (MarkBad (MarkBad clusterSession (some 2) (some "worker lost")) (some 2)
      (some "worker lost")).fInactiveSlaves =
      (MarkBad clusterSession (some 2) (some "worker lost")).fInactiveSlaves ∧
    (MarkBad (MarkBad clusterSession (some 2) (some "worker lost")) (some 2)
      (some "worker lost")).fUniqueSlaves =
      (MarkBad clusterSession (some 2) (some "worker lost")).fUniqueSlaves := by
  refine ⟨?_, by decide⟩
  intro p w reason
  split_ifs with h
  · obtain ⟨h1, h2⟩ := MarkBad_twice_bad p w (some reason) h.1 h.2.1 (by simpa using h.2.2)
    rw [h2, h1]
    simp
  · rfl

/-! ## The images of the unique workers -/

/-- C28: after `FindUniqueSlaves` the images of the unique workers are the
images of the active workers other than the image of the coordinator: an
image is carried by a unique worker exactly when an active worker carries it
and it is not the image of the coordinator; so every active worker whose
image differs from the image of the coordinator has a unique worker with its
image, and no unique worker carries the image of the coordinator.  The
call changes neither the image of a worker nor the active list nor the image
of the coordinator. -/
theorem C28_unique_image_coverage (p : TProof) :
    (∀ i : String,
      (∃ u ∈ (FindUniqueSlaves p).fUniqueSlaves, p.image u = i) ↔
        ((∃ w ∈ p.fActiveSlaves, p.image w = i) ∧ i ≠ p.fImage)) ∧
    (∀ w ∈ p.fActiveSlaves, p.image w ≠ p.fImage →
      ∃ u ∈ (FindUniqueSlaves p).fUniqueSlaves, p.image u = p.image w) ∧
    (∀ u ∈ (FindUniqueSlaves p).fUniqueSlaves, p.image u ≠ p.fImage) ∧
    (FindUniqueSlaves p).obj = p.obj ∧
    (FindUniqueSlaves p).fActiveSlaves = p.fActiveSlaves ∧
    (FindUniqueSlaves p).fImage = p.fImage := by
  have inv := FindUniqueSlaves_inv p
  have hc := FindUniqueSlaves_sameCore p
  refine ⟨fun i => ⟨?_, ?_⟩, fun w hw hi => inv.cover w hw hi, fun u hu => (inv.sub u hu).2,
    hc.obj, hc.fActiveSlaves, hc.fImage⟩
  · rintro ⟨u, hu, hui⟩
    have h := inv.sub u hu
    refine ⟨⟨u, h.1, hui⟩, ?_⟩
    intro hi
    apply h.2
    show p.image u = p.fImage
    rw [hui, hi]
  · rintro ⟨⟨w, hw, hwi⟩, hi⟩
    obtain ⟨y, hy, hye⟩ := inv.cover w hw (by
      show p.image w ≠ p.fImage
      rw [hwi]; exact hi)
    exact ⟨y, hy, (show p.image y = p.image w from hye).trans hwi⟩

/-! ## Work-unit requests -/

theorem retryWaiting_requests (next : Nat → Nat → Nat → NextPacket) (sl : Nat) :
    ∀ (l : List (Nat × Nat)) (q : PacketState),
      ∃ k, k ≤ l.length ∧
        (retryWaiting next sl l q).requests =
          q.requests ++ (l.take k).map (fun x => (sl, x.2))
  | [], q => ⟨0, le_refl _, by simp [retryWaiting]⟩
  | (s, m) :: rest, q => by
    unfold retryWaiting
    cases h : next q.requests.length sl m with
    | notYet =>
      exact ⟨1, by simp, by simp⟩
    | elem e =>
      obtain ⟨k, hk, hr⟩ := retryWaiting_requests next sl rest
        { fWaitingSlaves := rest, requests := q.requests ++ [(sl, m)],
          answers := q.answers ++ [(s, e)], kept := q.kept }
      refine ⟨k + 1, by simpa using hk, ?_⟩
      simp only []
      rw [hr]
      simp

/-- C22 (what the code does): the retry of the waiting requests asks the
packetizer for a unit of the worker whose message is being handled, not of
the worker that issued the waiting request: whatever the packetizer answers,
the calls of `GetNextPacket` made by the retry loop for worker `sl` are the
messages of a front part of the waiting list, in order, each with `sl` as
the worker.  When the request of worker 2 waits and a request of worker 1 is
answered with a unit, the retry asks for a unit of worker 1 with the
message of worker 2 and sends the unit it gets on the socket of worker 2. -/
theorem C22_retry_asks_for_current_worker :
    (∀ (next : Nat → Nat → Nat → NextPacket) (sl : Nat) (l : List (Nat × Nat))
      (q : PacketState),
      ∃ k, k ≤ l.length ∧
        (retryWaiting next sl l q).requests =
          q.requests ++ (l.take k).map (fun x => (sl, x.2))) ∧
    handleGetPacket (some lateUnits) emptyPackets 2 22 =
      some { fWaitingSlaves := [(2, 22)], requests := [(2, 22)], answers := [], kept := [22] } ∧
    handleGetPacket (some lateUnits)
      { fWaitingSlaves := [(2, 22)], requests := [(2, 22)], answers := [], kept := [22] } 1 11 =
      some { fWaitingSlaves := [], requests := [(2, 22), (1, 11), (1, 22)],
             answers := [(1, some 101), (2, some 102)], kept := [22] } := by
  refine ⟨retryWaiting_requests, by decide, by decide⟩

/-! ## RemoveIncludePath -/

theorem HandleLibIncPath_unknown (sys : PathStep → String → ClientPaths → ClientPaths)
    (cl : ClientPaths) (add : Bool) (dirs : String) :
    HandleLibIncPath sys cl "in" add dirs =
      { cl with calls := cl.calls ++ [("in", add, dirs)] } := by
  unfold HandleLibIncPath
  simp only []
  rw [if_pos (by decide)]

/-- C27 (what the code does): `RemoveIncludePath` calls the local handler
with the type `in`, which `HandleLibIncPath` does not know: the handler
returns after its error message and the search paths of the client are what
they were, whatever the directories.  `AddIncludePath` calls it with `inc`
and `add = true`.  On a client whose include path holds `/opt/inc`,
`RemoveIncludePath("/opt/inc", kTRUE)` leaves the include path as it is,
while the handler called with `inc` and `add = false` removes the
directory. -/
theorem C27_remove_include_path_unknown_type :
    (∀ (p : TProof) (cl : ClientPaths) (env : LibIncEnv) (path : String),
      (RemoveIncludePath p cl env (some path) true).2.1 =
        if path.length = 0 then cl
        else { cl with calls := cl.calls ++ [("in", false, path)] }) ∧
    (∀ (p : TProof) (cl : ClientPaths) (env : LibIncEnv) (path : String)
      (wrks : Option (List Nat)),
      (AddIncludePath p cl env (some path) true wrks).2.1 =
        if path.length = 0 then cl
        else HandleLibIncPath env.sys cl "inc" true path) ∧
    optClient.includePath = "-I/opt/inc" ∧
    (RemoveIncludePath pairProof optClient optionEnv (some "/opt/inc") true).2.1.includePath =
      "-I/opt/inc" ∧
    (RemoveIncludePath pairProof optClient optionEnv (some "/opt/inc") true).2.1.calls =
      [("in", false, "/opt/inc")] ∧
    (HandleLibIncPath optionSys optClient "inc" false "/opt/inc").includePath = "" ∧
    (AddIncludePath pairProof optClient optionEnv (some "/usr/inc") true none).2.1.calls =
      [("inc", true, "/usr/inc")] ∧
    (AddIncludePath pairProof optClient optionEnv (some "/usr/inc") true none).2.1.includePath =
      "-I/opt/inc -I/usr/inc" := by
  refine ⟨?_, ?_, by decide⟩
  · intro p cl env path
    unfold RemoveIncludePath
    simp only []
    split_ifs with h
    · rfl
    · simp only [if_true]
      exact HandleLibIncPath_unknown env.sys cl false path
  · intro p cl env path wrks
    unfold AddIncludePath
    simp only []
    split_ifs with h
    · rfl
    · rfl

/-! ## RecvLogFile -/

theorem recvLogLoop_cons (fl : Bool) (size r : Int) (rest : List Int) (st : RecvLog) :
    recvLogLoop fl size (r :: rest) st =
      (if st.filesize < size then
        (if fl = false ∧ ¬ (r > 0) ∧ r < 0 then
          { st with
            filesize := if r > 0 then st.filesize + r else st.filesize
            requested := st.requested ++
              [if toInt32 (size - st.filesize) > logBufferSize then logBufferSize
                else toInt32 (size - st.filesize)] }
        else
          recvLogLoop fl size rest
            (if r > 0 then
              { filesize := if r > 0 then st.filesize + r else st.filesize
                requested := st.requested ++
                  [if toInt32 (size - st.filesize) > logBufferSize then logBufferSize
                    else toInt32 (size - st.filesize)]
                terminators := st.terminators ++ [r] }
            else
              { filesize := if r > 0 then st.filesize + r else st.filesize
                requested := st.requested ++
                  [if toInt32 (size - st.filesize) > logBufferSize then logBufferSize
                    else toInt32 (size - st.filesize)]
                terminators := st.terminators }))
      else st) := by
  rw [recvLogLoop]

theorem recvLogLoop_step (fl : Bool) (size r : Int) (rest : List Int) (st : RecvLog) :
    ∃ left, left ≤ logBufferSize ∧
      (recvLogLoop fl size (r :: rest) st = st ∨
       recvLogLoop fl size (r :: rest) st =
        { st with
          filesize := if r > 0 then st.filesize + r else st.filesize
          requested := st.requested ++ [left] } ∨
       ∃ st2 : RecvLog, st2.requested = st.requested ++ [left] ∧
        (st2.terminators = st.terminators ∨
          (0 < r ∧ st2.terminators = st.terminators ++ [r])) ∧
        recvLogLoop fl size (r :: rest) st = recvLogLoop fl size rest st2) := by
  refine ⟨if toInt32 (size - st.filesize) > logBufferSize then logBufferSize
    else toInt32 (size - st.filesize), ?_, ?_⟩
  · split_ifs with h1
    · exact le_refl _
    · exact not_lt.mp h1
  · rw [recvLogLoop_cons]
    by_cases hlt : st.filesize < size
    · rw [if_pos hlt]
      by_cases hb : fl = false ∧ ¬ r > 0 ∧ r < 0
      · rw [if_pos hb]
        exact Or.inr (Or.inl rfl)
      · rw [if_neg hb]
        refine Or.inr (Or.inr ⟨_, ?_, ?_, rfl⟩)
        · by_cases hr : r > 0
          · rw [if_pos hr]
          · rw [if_neg hr]
        · by_cases hr : r > 0
          · rw [if_pos hr]
            exact Or.inr ⟨hr, rfl⟩
          · rw [if_neg hr]
            exact Or.inl rfl
    · rw [if_neg hlt]
      exact Or.inl rfl

theorem recvLogLoop_requested (fl : Bool) (size : Int) :
    ∀ (recvs : List Int) (st : RecvLog), (∀ x ∈ st.requested, x ≤ logBufferSize) →
      ∀ x ∈ (recvLogLoop fl size recvs st).requested, x ≤ logBufferSize
  | [], st, h => h
  | r :: rest, st, h => by
    obtain ⟨left, hleft, hc⟩ := recvLogLoop_step fl size r rest st
    have h1 : ∀ x ∈ st.requested ++ [left], x ≤ logBufferSize := by
      intro x hx
      rcases List.mem_append.mp hx with hx | hx
      · exact h x hx
      · rw [List.mem_singleton.mp hx]
        exact hleft
    rcases hc with hc | hc | ⟨st2, hr, _, hc⟩
    · rw [hc]; exact h
    · rw [hc]; exact h1
    · rw [hc]
      exact recvLogLoop_requested fl size rest st2 (by rw [hr]; exact h1)

theorem recvLogLoop_terminators (fl : Bool) (size : Int) :
    ∀ (recvs : List Int) (st : RecvLog),
      ∀ x ∈ (recvLogLoop fl size recvs st).terminators,
        x ∈ st.terminators ∨ (x ∈ recvs ∧ 0 < x)
  | [], st, x, hx => Or.inl hx
  | r :: rest, st, x, hx => by
    obtain ⟨left, _, hc⟩ := recvLogLoop_step fl size r rest st
    rcases hc with hc | hc | ⟨st2, _, ht, hc⟩
    · rw [hc] at hx; exact Or.inl hx
    · rw [hc] at hx; exact Or.inl hx
    · rw [hc] at hx
      rcases recvLogLoop_terminators fl size rest st2 x hx with h | h
      · rcases ht with ht | ⟨hr, ht⟩
        · rw [ht] at h; exact Or.inl h
        · rw [ht] at h
          rcases List.mem_append.mp h with h | h
          · exact Or.inl h
          · rw [List.mem_singleton.mp h]
            exact Or.inr ⟨by simp, hr⟩
      · exact Or.inr ⟨List.mem_cons_of_mem _ h.1, h.2⟩

/-- C30 (what the code does): every chunk is asked with at most 16384
bytes, but the closing zero byte is written at the index `rec`, the number
of bytes received, which is the size of the buffer when a full chunk
arrives: for an announced size of 16384 and a `RecvRaw` that delivers the
16384 bytes asked, the zero byte goes to index 16384, one past the last
index 16383 of the buffer. -/
theorem C30_terminator_past_buffer :
    (∀ (fl : Bool) (fdout size : Int) (recvs : List Int),
      ∀ x ∈ (RecvLogFile fl fdout size recvs).requested, x ≤ logBufferSize) ∧
    (∀ (fl : Bool) (fdout size : Int) (recvs : List Int),
      ∀ x ∈ (RecvLogFile fl fdout size recvs).terminators, x ∈ recvs ∧ 0 < x) ∧
    logBufferSize = 16384 ∧
    RecvLogFile true 1 16384 [16384] =
      { filesize := 16384, requested := [16384], terminators := [16384] } ∧
    ¬ ((16384 : Int) < logBufferSize) := by
  refine ⟨?_, ?_, rfl, by decide, by decide⟩
  · intro fl fdout size recvs x hx
    unfold RecvLogFile at hx
    split_ifs at hx
    · simp at hx
    · exact recvLogLoop_requested fl size recvs _ (by simp) x hx
  · intro fl fdout size recvs x hx
    unfold RecvLogFile at hx
    split_ifs at hx
    · simp at hx
    · rcases recvLogLoop_terminators fl size recvs _ x hx with h | h
      · simp at h
      · exact h

/-! ## ValidateDSet: the split of the elements of a node -/

theorem elementRange_eq (ns n i : Nat) (hi : i < ns) (hfit : ns * n < 2147483648) :
    elementRange ns n i =
      (List.range' (i * n / ns) ((i + 1) * n / ns - i * n / ns)).map (fun (k : Nat) => (k : Int)) := by
  have h1 : i * n ≤ ns * n := Nat.mul_le_mul_right n (le_of_lt hi)
  have h2 : (i + 1) * n ≤ ns * n := Nat.mul_le_mul_right n hi
  have hns : ns < 2147483648 ∨ n = 0 := by
    rcases Nat.eq_zero_or_pos n with h | h
    · exact Or.inr h
    · left
      calc ns = ns * 1 := (Nat.mul_one ns).symm
        _ ≤ ns * n := Nat.mul_le_mul_left ns h
        _ < 2147483648 := hfit
  have c1 : (i : Int) * (n : Int) = ((i * n : Nat) : Int) := by push_cast; rfl
  have c2 : ((i : Int) + 1) * (n : Int) = (((i + 1) * n : Nat) : Int) := by push_cast; rfl
  have e1 : toInt32 ((i : Int) * (n : Int)) = ((i * n : Nat) : Int) := by
    rw [c1]
    exact toInt32_of_fits _ (by omega) (by omega)
  have e3 : toInt32 (toInt32 ((i : Int) + 1) * (n : Int)) = (((i + 1) * n : Nat) : Int) := by
    rcases hns with hns | hn
    · rw [toInt32_of_fits ((i : Int) + 1) (by omega) (by omega), c2]
      exact toInt32_of_fits _ (by omega) (by omega)
    · subst hn
      simp [toInt32]
  have d1 : (((i * n : Nat) : Int)).tdiv (ns : Int) = ((i * n / ns : Nat) : Int) :=
    (Int.ofNat_tdiv _ _).symm
  have d2 : ((((i + 1) * n : Nat) : Int)).tdiv (ns : Int) = (((i + 1) * n / ns : Nat) : Int) :=
    (Int.ofNat_tdiv _ _).symm
  have hmono : i * n / ns ≤ (i + 1) * n / ns :=
    Nat.div_le_div_right (Nat.mul_le_mul_right n (Nat.le_succ i))
  unfold elementRange
  simp only [e1, e3, d1, d2]
  have hlen : ((((i + 1) * n / ns : Nat) : Int) - ((i * n / ns : Nat) : Int)).toNat =
      (i + 1) * n / ns - i * n / ns := by
    omega
  rw [hlen, List.range'_eq_map_range, List.map_map]
  apply List.map_congr_left
  intro k _
  simp

theorem distribute_prefix (ns n : Nat) (hfit : ns * n < 2147483648) :
    ∀ k, k ≤ ns →
      ((List.range k).map (fun (i : Nat) => elementRange ns n (i : Int))).flatten =
        (List.range (k * n / ns)).map (fun (j : Nat) => (j : Int))
  | 0, _ => by simp
  | k + 1, hk => by
    have ih := distribute_prefix ns n hfit k (by omega)
    have hmono : k * n / ns ≤ (k + 1) * n / ns :=
      Nat.div_le_div_right (Nat.mul_le_mul_right n (Nat.le_succ k))
    rw [List.range_succ, List.map_append, List.flatten_append, ih]
    simp only [List.map_cons, List.map_nil, List.flatten_cons, List.flatten_nil,
      List.append_nil]
    rw [elementRange_eq ns n k (by omega) hfit, ← List.map_append]
    congr 1
    rw [List.range_eq_range', List.range_eq_range']
    have h := List.range'_append 0 (k * n / ns) ((k + 1) * n / ns - k * n / ns) 1
    simp only [Nat.zero_add, Nat.one_mul] at h
    rw [h]
    congr 1
    omega

theorem elementRange_length (ns n i : Nat) (hns : 0 < ns) (hi : i < ns)
    (hfit : ns * n < 2147483648) :
    n / ns ≤ (elementRange ns n i).length ∧ (elementRange ns n i).length ≤ n / ns + 1 := by
  rw [elementRange_eq ns n i hi hfit]
  simp only [List.length_map, List.length_range']
  have h : (i + 1) * n = i * n + n := by ring
  rw [h, Nat.add_div hns]
  generalize i * n / ns = a
  generalize n / ns = b
  split_ifs <;> omega

/-- C29: for a node with `ns ≥ 1` workers and `n` elements, with `ns * n`
inside the range of `Int_t` (exact integer arithmetic), worker `i` gets the
indices from `(i*n)/ns` up to, not including, `((i+1)*n)/ns`; the ranges of
the workers `0 .. ns-1`, one after the other, are the indices `0 .. n-1`,
each once and in order, so they are disjoint, consecutive and cover all
elements; and the lengths of two ranges differ by at most 1. -/
theorem C29_elements_over_workers (ns n : Nat) (hns : 1 ≤ ns) (hfit : ns * n < 2147483648) :
    (distributeElements ns n).flatten = (List.range n).map (fun (j : Nat) => (j : Int)) ∧
    (distributeElements ns n).length = ns ∧
    (∀ i, i < ns →
      elementRange ns n i =
        (List.range' (i * n / ns) ((i + 1) * n / ns - i * n / ns)).map (fun (k : Nat) => (k : Int))) ∧
    (∀ i j, i < ns → j < ns →
      (elementRange ns n i).length ≤ (elementRange ns n j).length + 1) := by
  refine ⟨?_, ?_, fun i hi => elementRange_eq ns n i hi hfit, ?_⟩
  · unfold distributeElements
    rw [Int.toNat_ofNat, distribute_prefix ns n hfit ns (le_refl _)]
    rw [Nat.mul_div_cancel_left n (by omega)]
  · unfold distributeElements
    simp
  · intro i j hi hj
    have h1 := elementRange_length ns n i (by omega) hi hfit
    have h2 := elementRange_length ns n j (by omega) hj hfit
    omega

/-- A use of C29: ten elements over three workers. -/
theorem C29_witness :
    (distributeElements 3 10).flatten = (List.range 10).map (fun (j : Nat) => (j : Int)) ∧
    distributeElements 3 10 = [[0, 1, 2], [3, 4, 5], [6, 7, 8, 9]] :=
  ⟨(C29_elements_over_workers 3 10 (by decide) (by decide)).1, by decide⟩

/-! ## TSlaveInfo::Compare on ordinals of decimal components -/

theorem isdigit_bounds (c : Char) (h : isdigit c = true) : 48 ≤ c.toNat ∧ c.toNat ≤ 57 := by
  simpa [isdigit] using h

theorem isdigit_not_space (c : Char) (h : isdigit c = true) : isspace c = false := by
  have hb := isdigit_bounds c h
  have h1 : c ≠ ' ' := by
    intro h2
    rw [h2] at hb
    exact absurd hb.1 (by decide)
  simp [isspace, h1]
  omega

theorem isdigit_not_dot (c : Char) (h : isdigit c = true) : c ≠ '.' := by
  intro h2
  rw [h2] at h
  exact absurd h (by decide)

theorem isdigit_not_minus (c : Char) (h : isdigit c = true) : c ≠ '-' := by
  intro h2
  rw [h2] at h
  exact absurd h (by decide)

theorem isdigit_not_plus (c : Char) (h : isdigit c = true) : c ≠ '+' := by
  intro h2
  rw [h2] at h
  exact absurd h (by decide)

theorem atoiDigits_append (rest : List Char)
    (hrest : rest = [] ∨ ∃ r, rest = '.' :: r) :
    ∀ (c : List Char) (acc : Int), (∀ ch ∈ c, isdigit ch = true) →
      atoiDigits (c ++ rest) acc =
        c.foldl (fun acc c => acc * 10 + ((c.toNat : Int) - 48)) acc
  | [], acc, _ => by
    rcases hrest with h | ⟨r, h⟩
    · rw [h]; rfl
    · rw [h]
      simp only [List.nil_append, atoiDigits, List.foldl_nil]
      rw [if_neg (by decide)]
  | ch :: c, acc, h => by
    have hd := h ch (List.mem_cons_self _ _)
    simp only [List.cons_append, atoiDigits, hd, if_true, List.foldl_cons]
    exact atoiDigits_append rest hrest c _ (fun x hx => h x (List.mem_cons_of_mem _ hx))

theorem foldl_digits_nonneg :
    ∀ (c : List Char) (acc : Int), 0 ≤ acc → (∀ ch ∈ c, isdigit ch = true) →
      0 ≤ c.foldl (fun acc c => acc * 10 + ((c.toNat : Int) - 48)) acc
  | [], acc, h, _ => h
  | ch :: c, acc, h, hd => by
    have hb := isdigit_bounds ch (hd ch (List.mem_cons_self _ _))
    simp only [List.foldl_cons]
    exact foldl_digits_nonneg c _ (by omega) (fun x hx => hd x (List.mem_cons_of_mem _ hx))

theorem ordinalText_cons (c : List Char) (as : List (List Char)) :
    ∃ rest, ordinalText (c :: as) = c ++ rest ∧
      ((as = [] ∧ rest = []) ∨ (as ≠ [] ∧ rest = '.' :: ordinalText as)) := by
  cases as with
  | nil => exact ⟨[], by simp [ordinalText], Or.inl ⟨rfl, rfl⟩⟩
  | cons d cs => exact ⟨'.' :: ordinalText (d :: cs), rfl, Or.inr ⟨by simp, rfl⟩⟩

theorem atoi_ordinalText (c : List Char) (as : List (List Char)) (hc : IsComponent c) :
    atoi (ordinalText (c :: as)) = decimalValue c := by
  obtain ⟨rest, ht, hr⟩ := ordinalText_cons c as
  have hrest : rest = [] ∨ ∃ r, rest = '.' :: r := by
    rcases hr with h | h
    · exact Or.inl h.2
    · exact Or.inr ⟨_, h.2⟩
  obtain ⟨hne, hd, hfit⟩ := hc
  obtain ⟨ch, c2, rfl⟩ := List.exists_cons_of_ne_nil hne
  have hch := hd ch (List.mem_cons_self _ _)
  have hval := atoiDigits_append rest hrest (ch :: c2) 0 hd
  have hnn := foldl_digits_nonneg (ch :: c2) 0 (le_refl _) hd
  rw [ht]
  unfold atoi
  have hdrop : List.dropWhile isspace (ch :: c2 ++ rest) = ch :: c2 ++ rest := by
    simp [List.dropWhile, isdigit_not_space ch hch]
  rw [hdrop]
  split
  · rename_i r heq
    simp only [List.cons_append, List.cons.injEq] at heq
    exact absurd heq.1 (isdigit_not_minus ch hch)
  · rename_i r heq
    simp only [List.cons_append, List.cons.injEq] at heq
    exact absurd heq.1 (isdigit_not_plus ch hch)
  · rw [hval]
    exact toInt32_of_fits _ hnn hfit

theorem dropWhile_append_of_all (p : Char → Bool) (rest : List Char) :
    ∀ (c : List Char), (∀ ch ∈ c, p ch = true) →
      List.dropWhile p (c ++ rest) = List.dropWhile p rest
  | [], _ => rfl
  | ch :: c, h => by
    simp only [List.cons_append, List.dropWhile, h ch (List.mem_cons_self _ _)]
    exact dropWhile_append_of_all p rest c (fun x hx => h x (List.mem_cons_of_mem _ hx))

theorem afterDot_ordinalText (c : List Char) (as : List (List Char)) (hc : IsComponent c) :
    afterDot (ordinalText (c :: as)) = textLeft as := by
  obtain ⟨rest, ht, hr⟩ := ordinalText_cons c as
  have hall : ∀ ch ∈ c, (fun x => decide (x ≠ '.')) ch = true := by
    intro ch hch
    simpa using isdigit_not_dot ch (hc.2.1 ch hch)
  rw [ht]
  unfold afterDot
  rw [dropWhile_append_of_all _ rest c hall]
  rcases hr with ⟨h1, h2⟩ | ⟨h1, h2⟩
  · rw [h2, h1]
    rfl
  · rw [h2]
    simp [List.dropWhile, textLeft, h1]

theorem compareOrdinals_text :
    ∀ (fuel : Nat) (a b : List (List Char)), a.length ≤ fuel →
      (∀ c ∈ a, IsComponent c) → (∀ c ∈ b, IsComponent c) →
      compareOrdinals fuel (textLeft a) (textLeft b) =
        some (ordinalCompare (a.map decimalValue) (b.map decimalValue))
  | fuel, [], [], _, _, _ => by
    cases fuel <;> simp [textLeft, compareOrdinals, ordinalCompare]
  | fuel, [], d :: bs, _, _, _ => by
    cases fuel <;> simp [textLeft, compareOrdinals, ordinalCompare]
  | fuel, c :: as, [], _, _, _ => by
    cases fuel <;> simp [textLeft, compareOrdinals, ordinalCompare]
  | 0, c :: as, d :: bs, hf, _, _ => by simp at hf
  | fuel + 1, c :: as, d :: bs, hf, ha, hb => by
    have hc := ha c (List.mem_cons_self _ _)
    have hd := hb d (List.mem_cons_self _ _)
    have ih := compareOrdinals_text fuel as bs (by simpa using hf)
      (fun x hx => ha x (List.mem_cons_of_mem _ hx))
      (fun x hx => hb x (List.mem_cons_of_mem _ hx))
    have e1 : textLeft (c :: as) = some (ordinalText (c :: as)) := by simp [textLeft]
    have e2 : textLeft (d :: bs) = some (ordinalText (d :: bs)) := by simp [textLeft]
    rw [e1, e2, compareOrdinals]
    simp only [List.map_cons, ordinalCompare, atoi_ordinalText c as hc,
      atoi_ordinalText d bs hd, afterDot_ordinalText c as hc, afterDot_ordinalText d bs hd]
    split_ifs
    · rfl
    · rfl
    · exact ih

theorem ordinalText_length :
    ∀ (a : List (List Char)), (∀ c ∈ a, IsComponent c) → a.length ≤ (ordinalText a).length
  | [], _ => le_refl _
  | [c], h => by
    have hc := (h c (List.mem_cons_self _ _)).1
    have := List.length_pos.mpr hc
    simpa [ordinalText] using this
  | c :: d :: cs, h => by
    have ih := ordinalText_length (d :: cs) (fun x hx => h x (List.mem_cons_of_mem _ hx))
    simp only [ordinalText, List.length_append, List.length_cons] at ih ⊢
    omega

theorem afterDot_length (s r : List Char) (h : afterDot s = some r) : r.length < s.length := by
  unfold afterDot at h
  have hle := (List.dropWhile_suffix (fun c => decide (c ≠ '.')) (l := s)).length_le
  split at h
  · cases h
  · rename_i x r2 heq
    simp only [Option.some.injEq] at h
    rw [heq] at hle
    rw [← h]
    simp only [List.length_cons] at hle
    omega

/-- The bound on the iterations that `Compare` uses is enough, whatever the
two texts are. -/
theorem compareOrdinals_total :
    ∀ (fuel : Nat) (myord : List Char) (other : Option (List Char)), myord.length < fuel →
      (compareOrdinals fuel (some myord) other).isSome = true
  | fuel, myord, none, _ => by cases fuel <;> simp [compareOrdinals]
  | 0, myord, some o, h => by simp at h
  | fuel + 1, myord, some o, h => by
    simp only [compareOrdinals]
    split_ifs
    · rfl
    · rfl
    · cases hm : afterDot myord with
      | none => cases afterDot o <;> cases fuel <;> simp [compareOrdinals]
      | some r =>
        have hl := afterDot_length myord r hm
        exact compareOrdinals_total fuel r (afterDot o) (by omega)

theorem Compare_total (this : TSlaveInfo) (obj : TObjectArg) :
    (this.Compare obj).isSome = true := by
  cases obj with
  | null => rfl
  | other name => rfl
  | slaveInfo si =>
    exact compareOrdinals_total _ _ _ (Nat.lt_succ_self _)

theorem Compare_text (a b : List (List Char)) (ha : a ≠ []) (hb : b ≠ [])
    (hac : ∀ c ∈ a, IsComponent c) (hbc : ∀ c ∈ b, IsComponent c) (x y : TSlaveInfo)
    (hx : x.fOrdinal = String.mk (ordinalText a)) (hy : y.fOrdinal = String.mk (ordinalText b)) :
    x.Compare (TObjectArg.slaveInfo y) =
      some (ordinalCompare (a.map decimalValue) (b.map decimalValue)) := by
  have h := compareOrdinals_text ((ordinalText a).length + 1) a b
    (le_trans (ordinalText_length a hac) (Nat.le_succ _)) hac hbc
  simp only [textLeft, ha, hb, if_false] at h
  unfold TSlaveInfo.Compare
  simp only [hx, hy]
  exact h

/-! ## The order on sequences of integers -/

theorem ordinalCompare_antisymm : ∀ (u v : List Int), ordinalCompare v u = -ordinalCompare u v
  | [], [] => by simp [ordinalCompare]
  | [], _ :: _ => by simp [ordinalCompare]
  | _ :: _, [] => by simp [ordinalCompare]
  | a :: as, b :: bs => by
    have ih := ordinalCompare_antisymm as bs
    simp only [ordinalCompare]
    split_ifs <;> omega

theorem ordinalCompare_eq_zero : ∀ (u v : List Int), ordinalCompare u v = 0 ↔ u = v
  | [], [] => by simp [ordinalCompare]
  | [], _ :: _ => by simp [ordinalCompare]
  | _ :: _, [] => by simp [ordinalCompare]
  | a :: as, b :: bs => by
    have ih := ordinalCompare_eq_zero as bs
    simp only [ordinalCompare, List.cons.injEq]
    split_ifs with h1 h2
    · constructor
      · intro h; exact absurd h (by decide)
      · intro h; have := h.1; omega
    · constructor
      · intro h; exact absurd h (by decide)
      · intro h; have := h.1; omega
    · rw [ih]
      constructor
      · intro h; exact ⟨by omega, h⟩
      · intro h; exact h.2

theorem ordinalCompare_values : ∀ (u v : List Int),
    ordinalCompare u v = 1 ∨ ordinalCompare u v = -1 ∨ ordinalCompare u v = 0
  | [], [] => by simp [ordinalCompare]
  | [], _ :: _ => by simp [ordinalCompare]
  | _ :: _, [] => by simp [ordinalCompare]
  | a :: as, b :: bs => by
    have ih := ordinalCompare_values as bs
    simp only [ordinalCompare]
    split_ifs <;> simp [ih]

theorem ordinalCompare_trans : ∀ (u v w : List Int),
    ordinalCompare u v = 1 → ordinalCompare v w = 1 → ordinalCompare u w = 1
  | [], [], _, h, _ => by simp [ordinalCompare] at h
  | [], _ :: _, [], _, h => by simp [ordinalCompare] at h
  | [], _ :: _, _ :: _, _, _ => by simp [ordinalCompare]
  | _ :: _, [], _, h, _ => by simp [ordinalCompare] at h
  | _ :: _, _ :: _, [], _, h => by simp [ordinalCompare] at h
  | a :: as, b :: bs, c :: cs, h1, h2 => by
    have ih := ordinalCompare_trans as bs cs
    simp only [ordinalCompare] at h1 h2 ⊢
    split_ifs at h1 h2 ⊢ <;> omega

theorem ordinalCompare_prefix : ∀ (pre u v : List Int) (a b : Int),
    (a < b → ordinalCompare (pre ++ a :: u) (pre ++ b :: v) = 1) ∧
    (a > b → ordinalCompare (pre ++ a :: u) (pre ++ b :: v) = -1) ∧
    ordinalCompare (pre ++ a :: u) pre = -1 ∧
    ordinalCompare pre (pre ++ a :: u) = 1
  | [], u, v, a, b => by
    refine ⟨fun h => ?_, fun h => ?_, ?_, ?_⟩
    · simp [ordinalCompare, h]
    · simp only [List.nil_append, ordinalCompare]
      rw [if_neg (by omega), if_pos h]
    · simp [ordinalCompare]
    · simp [ordinalCompare]
  | p :: pre, u, v, a, b => by
    have ih := ordinalCompare_prefix pre u v a b
    simp only [List.cons_append, ordinalCompare, lt_self_iff_false, gt_iff_lt, if_false]
    exact ih

/-- C26: for two `TSlaveInfo` whose ordinals are decimal integers separated
by dots (components that are not empty and fit an `Int_t`), `Compare` returns
the comparison of the two sequences of integers, component by component: 1
if the first differing component of this ordinal is smaller, -1 if it is
larger, -1 if the other sequence is a proper prefix of this one, 1 in the
converse case, and 0 exactly when the sequences are equal.  So the result
for the arguments exchanged is the opposite, and the order is transitive. -/
theorem C26_compare_orders_numerically (a b c : List (List Char))
    (ha : a ≠ []) (hb : b ≠ []) (hc : c ≠ [])
    (hac : ∀ t ∈ a, IsComponent t) (hbc : ∀ t ∈ b, IsComponent t)
    (hcc : ∀ t ∈ c, IsComponent t) (x y z : TSlaveInfo)
    (hx : x.fOrdinal = String.mk (ordinalText a)) (hy : y.fOrdinal = String.mk (ordinalText b))
    (hz : z.fOrdinal = String.mk (ordinalText c)) :
    x.Compare (TObjectArg.slaveInfo y) =
      some (ordinalCompare (a.map decimalValue) (b.map decimalValue)) ∧
    (∀ (pre u v : List Int) (m n : Int),
      (m < n → ordinalCompare (pre ++ m :: u) (pre ++ n :: v) = 1) ∧
      (m > n → ordinalCompare (pre ++ m :: u) (pre ++ n :: v) = -1) ∧
      ordinalCompare (pre ++ m :: u) pre = -1 ∧
      ordinalCompare pre (pre ++ m :: u) = 1) ∧
    (x.Compare (TObjectArg.slaveInfo y) = some 0 ↔
      a.map decimalValue = b.map decimalValue) ∧
    y.Compare (TObjectArg.slaveInfo x) =
      (x.Compare (TObjectArg.slaveInfo y)).map (fun r => -r) ∧
    (x.Compare (TObjectArg.slaveInfo y) = some 1 →
      y.Compare (TObjectArg.slaveInfo z) = some 1 →
      x.Compare (TObjectArg.slaveInfo z) = some 1) ∧
    (x.Compare (TObjectArg.slaveInfo y) = some (-1) →
      y.Compare (TObjectArg.slaveInfo z) = some (-1) →
      x.Compare (TObjectArg.slaveInfo z) = some (-1)) := by
  have hxy := Compare_text a b ha hb hac hbc x y hx hy
  have hyx := Compare_text b a hb ha hbc hac y x hy hx
  have hyz := Compare_text b c hb hc hbc hcc y z hy hz
  have hxz := Compare_text a c ha hc hac hcc x z hx hz
  refine ⟨hxy, ordinalCompare_prefix, ?_, ?_, ?_, ?_⟩
  · rw [hxy, Option.some.injEq]
    exact ordinalCompare_eq_zero _ _
  · rw [hyx, hxy, Option.map_some', ordinalCompare_antisymm]
  · rw [hxy, hyz, hxz]
    simp only [Option.some.injEq]
    exact ordinalCompare_trans _ _ _
  · rw [hxy, hyz, hxz]
    simp only [Option.some.injEq]
    intro h1 h2
    have e1 := ordinalCompare_antisymm (b.map decimalValue) (a.map decimalValue)
    have e2 := ordinalCompare_antisymm (c.map decimalValue) (b.map decimalValue)
    have e3 := ordinalCompare_antisymm (c.map decimalValue) (a.map decimalValue)
    have h := ordinalCompare_trans (c.map decimalValue) (b.map decimalValue)
      (a.map decimalValue) (by omega) (by omega)
    omega

/-- A use of C26: `0.10` against `0.9` is decided by 10 > 9, and `0.3`
against `0.3.1` by the shorter sequence. -/
theorem C26_witness :
    (slaveInfoOf "0.10").Compare (TObjectArg.slaveInfo (slaveInfoOf "0.9")) = some (-1) ∧
    (slaveInfoOf "0.9").Compare (TObjectArg.slaveInfo (slaveInfoOf "0.10")) = some 1 ∧
    (slaveInfoOf "0.3").Compare (TObjectArg.slaveInfo (slaveInfoOf "0.3.1")) = some 1 := by
  have h := C26_compare_orders_numerically [['0'], ['1', '0']] [['0'], ['9']]
    [['0'], ['3'], ['1']] (by decide) (by decide) (by decide) (by decide) (by decide)
    (by decide) (slaveInfoOf "0.10") (slaveInfoOf "0.9") (slaveInfoOf "0.3.1") rfl rfl rfl
  refine ⟨h.1.trans (by decide), ?_, by decide⟩
  rw [h.2.2.2.1, h.1]
  decide

end TProofModel
